import Mathlib

/-!
# SnapHashQR: the content-verification core

A shallow embedding of `src/lib/hash-generator.js`, of `src/lib/qr-generator.js` and
of the verification store, the capture and the scan handling of the app classes
(`src/lib/app-controller.js`, `src/lib/main-app.js`, `src/lib/simple-app.js`) and of
`src/lib/camera-capture.js`, and the properties their specification states about them.

Conventions of the embedding.

* A JavaScript string is a Lean `String`, i.e. a sequence of Unicode scalar values.
  Lengths and `substring` positions are counted in UTF-16 code units, as JavaScript
  does (`utf16Units`).  Strings holding unpaired surrogates are not representable.
* A JavaScript number is modelled by its exact decimal value: `JsVal.num n` for an
  integer `n`, `JsVal.frac m e` for the fraction `m / 10 ^ e`.  `JSON.parse` gives zero
  for a numeral whose value rounds to zero as a double (`roundsToZero`), so a number is
  falsy in the model exactly when it is in JavaScript.  The model agrees with JavaScript
  for every safe integer and every fraction of at most 15 significant digits that does
  not round to zero; the rounding of longer numerals to other doubles, `NaN` and the
  infinities are outside the model.
* A function that can throw (or an `async` function whose promise can reject)
  returns `Except String _`, the string being the error message.
* The clock (`Date.now()`), the random id and the platform digest
  (`crypto.subtle.digest`) are not code of the repository: they are parameters.
* `JSON.parse` is a recursive-descent reader of the JSON grammar with a recursion
  budget that a text never uses up (`parseValue_budget`).
* The browser storage is a list of items with a flag telling whether it accepts a
  write; of the rendering of the page the model keeps what is shown and, where a
  `try` block depends on it, whether it throws: a template literal converts the values
  it holds to strings (`JsVal.toChars`), which throws for an object that has an own
  property `toString`, and it is evaluated only when the page has the elements it is
  written into.
* The camera, the canvas, the list of media devices and `getUserMedia` are parameters.
-/

namespace SnapHashQR

/-! ## JavaScript values -/

/-- The JavaScript values that flow through the program as data: `undefined`, `null`,
booleans, numbers, strings, arrays and plain objects.  A number is an integer `num n`
or a fraction `frac m e` with the value `m / 10 ^ e`, where `0 < e` and `m` is not a
multiple of 10.  An object is the list of its own enumerable properties in enumeration
order. -/
inductive JsVal where
  | undefined
  | null
  | bool (b : Bool)
  | num (n : Int)
  | frac (m : Int) (e : Nat)
  | str (s : String)
  | arr (items : List JsVal)
  | obj (fields : List (String × JsVal))

namespace JsVal

/-- ToBoolean: the values that `||` and `if` treat as true.  The falsy values are
`undefined`, `null`, `false`, `0` and the empty string. -/
def truthy : JsVal → Bool
  | undefined => false
  | null => false
  | bool b => b
  | num n => n != 0
  | frac m _ => m != 0
  | str s => s != ""
  | arr _ => true
  | obj _ => true

/-- The value of the own property `k` in a property list (the first entry named `k`),
`undefined` when there is none. -/
def lookup (k : String) : List (String × JsVal) → JsVal
  | [] => undefined
  | (k', v) :: rest => if k' = k then v else lookup k rest

/-- Property read `v.k` for a data property name `k` that no prototype defines
(all names read by this program are such).  Reading from `undefined` or `null`
throws a TypeError; a primitive or an array has no such property. -/
def getProp (v : JsVal) (k : String) : Except String JsVal :=
  match v with
  | undefined => .error ("Cannot read properties of undefined (reading " ++ k ++ ")")
  | null => .error ("Cannot read properties of null (reading " ++ k ++ ")")
  | obj fields => .ok (lookup k fields)
  | _ => .ok undefined

/-- The expression `a || b`. -/
def or (a b : JsVal) : JsVal := if a.truthy then a else b

end JsVal

/-! ## Strings -/

/-- Number of UTF-16 code units of a character: 2 outside the Basic Multilingual Plane. -/
def utf16Units (c : Char) : Nat := if c.toNat < 65536 then 1 else 2

/-- The property `s.length`: the number of UTF-16 code units. -/
def jsLength (s : String) : Nat := (s.data.map utf16Units).sum

/-- The longest prefix of whole characters that fits in `n` UTF-16 code units. -/
def takeUnits : Nat → List Char → List Char
  | _, [] => []
  | n, c :: cs => if utf16Units c ≤ n then c :: takeUnits (n - utf16Units c) cs else []

/-- The call `s.substring(0, n)`: the first `n` UTF-16 code units of `s` (exact unless
the cut falls inside a surrogate pair, which then is dropped whole). -/
def substring0 (s : String) (n : Nat) : String := String.mk (takeUnits n s.data)

/-- The call `s.startsWith(p)`. -/
def startsWith (s p : String) : Bool := p.data.isPrefixOf s.data

/-- Pieces of a character list between occurrences of `sep`; never empty. -/
def splitChars (sep : Char) : List Char → List (List Char)
  | [] => [[]]
  | c :: cs =>
    if c = sep then [] :: splitChars sep cs
    else
      match splitChars sep cs with
      | [] => [[c]]
      | p :: ps => (c :: p) :: ps

/-- The call `s.split(sep)` for a one-character separator. -/
def split (s : String) (sep : Char) : List String := (splitChars sep s.data).map String.mk

/-- The call `s.toLowerCase()` on its ASCII action: `A`-`Z` become `a`-`z`.  (JavaScript
also maps non-ASCII letters; none of them is mapped to a hexadecimal digit.) -/
def toLowerCase (s : String) : String := String.mk (s.data.map Char.toLower)

/-- The operand conversion of string concatenation `x + ...` for `x` a string or
`undefined` (`none`). -/
def concatOperand : Option String → String
  | some s => s
  | none => "undefined"

/-- UTF-8 encoding of one character, as a list of byte values. -/
def utf8EncodeChar (c : Char) : List Nat :=
  let n := c.toNat
  if n < 128 then [n]
  else if n < 2048 then [192 + n / 64, 128 + n % 64]
  else if n < 65536 then [224 + n / 4096, 128 + n / 64 % 64, 128 + n % 64]
  else [240 + n / 262144, 128 + n / 4096 % 64, 128 + n / 64 % 64, 128 + n % 64]

/-- The call `new TextEncoder().encode(s)`: the UTF-8 bytes of `s`. -/
def textEncode (s : String) : List Nat := s.data.flatMap utf8EncodeChar

/-! ## JSON.stringify -/

/-- The double quote character. -/
def dquote : Char := Char.ofNat 34

/-- The backslash character. -/
def backslash : Char := Char.ofNat 92

/-- QuoteJSONString on one character: the two-character escapes, `\u00xx` for the other
control characters, the character itself otherwise. -/
def quoteChar (c : Char) : List Char :=
  if c = dquote then [backslash, dquote]
  else if c = backslash then [backslash, backslash]
  else if c.toNat = 8 then [backslash, 'b']
  else if c.toNat = 9 then [backslash, 't']
  else if c.toNat = 10 then [backslash, 'n']
  else if c.toNat = 12 then [backslash, 'f']
  else if c.toNat = 13 then [backslash, 'r']
  else if c.toNat < 32 then
    [backslash, 'u', '0', '0', Nat.digitChar (c.toNat / 16), Nat.digitChar (c.toNat % 16)]
  else [c]

/-- QuoteJSONString: the JSON string literal for `s`. -/
def quoteJSONString (s : String) : List Char := dquote :: s.data.flatMap quoteChar ++ [dquote]

/-- Number::toString in radix 10 for an integer. -/
def numberToString (n : Int) : List Char :=
  if n < 0 then '-' :: Nat.toDigits 10 n.natAbs else Nat.toDigits 10 n.toNat

/-- Number::toString in radix 10 for the fraction `m / 10 ^ e` (`m` not a multiple of
10, `0 < e`): with `k` digits and the decimal point after the `n = k - e`-th digit, plain
decimal notation when `-6 < n ≤ 21`, exponential notation otherwise. -/
def fractionToString (m : Int) (e : Nat) : List Char :=
  let digits := Nat.toDigits 10 m.natAbs
  let k := digits.length
  let mantissa := match digits with
    | d :: d' :: ds => d :: '.' :: d' :: ds
    | ds => ds
  (if m < 0 then ['-'] else []) ++
    (if e < k then
      if k - e ≤ 21 then digits.take (k - e) ++ '.' :: digits.drop (k - e)
      else mantissa ++ 'e' :: '+' :: Nat.toDigits 10 (k - e - 1)
    else if e - k < 6 then '0' :: '.' :: List.replicate (e - k) '0' ++ digits
    else mantissa ++ 'e' :: '-' :: Nat.toDigits 10 (e - k + 1))

/-- The call `parts.join(',')`. -/
def joinComma : List (List Char) → List Char
  | [] => []
  | [x] => x
  | x :: y :: rest => x ++ ',' :: joinComma (y :: rest)

mutual
/-- SerializeJSONProperty: the JSON text of a value, `none` for `undefined`. -/
def serializeJSONProperty : JsVal → Option (List Char)
  | .undefined => none
  | .null => some ['n', 'u', 'l', 'l']
  | .bool true => some ['t', 'r', 'u', 'e']
  | .bool false => some ['f', 'a', 'l', 's', 'e']
  | .num n => some (numberToString n)
  | .frac m e => some (fractionToString m e)
  | .str s => some (quoteJSONString s)
  | .arr items => some ('[' :: joinComma (serializeJSONArray items) ++ [']'])
  | .obj fields => some ('{' :: joinComma (serializeJSONObject fields) ++ ['}'])
/-- SerializeJSONArray: the texts of the elements; `undefined` is written `null`. -/
def serializeJSONArray : List JsVal → List (List Char)
  | [] => []
  | v :: vs => (serializeJSONProperty v).getD ['n', 'u', 'l', 'l'] :: serializeJSONArray vs
/-- SerializeJSONObject: the `"key":value` members, in property order; a property whose
value is `undefined` is left out. -/
def serializeJSONObject : List (String × JsVal) → List (List Char)
  | [] => []
  | (k, v) :: rest =>
    match serializeJSONProperty v with
    | none => serializeJSONObject rest
    | some t => (quoteJSONString k ++ ':' :: t) :: serializeJSONObject rest
end

/-- The call `JSON.stringify(v)`: a string, or `undefined` (`none`). -/
def jsonStringify (v : JsVal) : Option String := (serializeJSONProperty v).map String.mk

/-! ## JSON.parse -/

/-- Why a parse stops: the text is not JSON (JavaScript throws a SyntaxError), or the
recursion budget of the model ran out (which `jsonParse` excludes by its choice of the
budget). -/
inductive ParseError where
  | syntaxError
  | outOfFuel

/-- The result of parsing a prefix of a text: a value and the unread rest. -/
abbrev Parsed (α : Type) := Except ParseError (α × List Char)

/-- JSON white space: tab, line feed, carriage return and space. -/
def isJsonWhitespace (c : Char) : Bool :=
  c.toNat = 9 || c.toNat = 10 || c.toNat = 13 || c.toNat = 32

/-- Skips leading JSON white space. -/
def skipWhitespace (l : List Char) : List Char := l.dropWhile isJsonWhitespace

/-- Value of a hexadecimal digit of either case. -/
def hexDigitValue (c : Char) : Option Nat :=
  if 48 ≤ c.toNat ∧ c.toNat ≤ 57 then some (c.toNat - 48)
  else if 97 ≤ c.toNat ∧ c.toNat ≤ 102 then some (c.toNat - 87)
  else if 65 ≤ c.toNat ∧ c.toNat ≤ 70 then some (c.toNat - 55)
  else none

/-- The character of a one-letter escape `\"`, `\\`, `\/`, `\b`, `\f`, `\n`, `\r`, `\t`. -/
def simpleEscape (e : Char) : Option Char :=
  if e = dquote then some dquote
  else if e = backslash then some backslash
  else if e = '/' then some '/'
  else if e = 'b' then some (Char.ofNat 8)
  else if e = 'f' then some (Char.ofNat 12)
  else if e = 'n' then some (Char.ofNat 10)
  else if e = 'r' then some (Char.ofNat 13)
  else if e = 't' then some (Char.ofNat 9)
  else none

/-- The UTF-16 code units of a character. -/
def utf16Encode (c : Char) : List Nat :=
  if c.toNat < 65536 then [c.toNat]
  else [55296 + (c.toNat - 65536) / 1024, 56320 + (c.toNat - 65536) % 1024]

/-- The character of a code unit that is not part of a surrogate pair; an unpaired
surrogate, which a Lean string cannot hold, is read as U+FFFD. -/
def unitChar (u : Nat) : Char :=
  if 55296 ≤ u ∧ u ≤ 57343 then Char.ofNat 65533 else Char.ofNat u

/-- The characters of a sequence of UTF-16 code units: a high surrogate followed by a low
one is one character. -/
def utf16Decode : List Nat → List Char
  | [] => []
  | [u] => [unitChar u]
  | u :: v :: rest =>
    if 55296 ≤ u ∧ u ≤ 56319 ∧ 56320 ≤ v ∧ v ≤ 57343 then
      Char.ofNat (65536 + (u - 55296) * 1024 + (v - 56320)) :: utf16Decode rest
    else unitChar u :: utf16Decode (v :: rest)

/-- Where the reader of a string literal stands: between characters, after a backslash,
or inside a `\u` escape with `remaining` digits to read and the `value` read so far. -/
inductive StringState where
  | normal
  | escape
  | unicode (remaining value : Nat)

/-- The code units of a JSON string literal after its opening quote, up to the closing
quote, and the rest of the text.  Control characters must be escaped; the escapes are
`\"`, `\\`, `\/`, `\b`, `\f`, `\n`, `\r`, `\t` and `\u` with four hexadecimal digits. -/
def parseStringUnits : StringState → List Char → Option (List Nat × List Char)
  | _, [] => none
  | .normal, c :: rest =>
    if c = dquote then some ([], rest)
    else if c = backslash then parseStringUnits .escape rest
    else if c.toNat < 32 then none
    else
      match parseStringUnits .normal rest with
      | some (us, r) => some (utf16Encode c ++ us, r)
      | none => none
  | .escape, e :: rest =>
    if e = 'u' then parseStringUnits (.unicode 4 0) rest
    else
      match simpleEscape e, parseStringUnits .normal rest with
      | some ch, some (us, r) => some (ch.toNat :: us, r)
      | _, _ => none
  | .unicode remaining value, h :: rest =>
    match hexDigitValue h with
    | none => none
    | some x =>
      if remaining ≤ 1 then
        match parseStringUnits .normal rest with
        | some (us, r) => some ((value * 16 + x) :: us, r)
        | none => none
      else parseStringUnits (.unicode (remaining - 1) (value * 16 + x)) rest

/-- The characters of a JSON string literal after its opening quote, and the rest. -/
def parseStringBody (l : List Char) : Option (List Char × List Char) :=
  match parseStringUnits .normal l with
  | some (us, r) => some (utf16Decode us, r)
  | none => none

/-- Value of a decimal digit string. -/
def digitsValue (l : List Char) : Nat := l.foldl (fun acc c => acc * 10 + (c.toNat - 48)) 0

/-- Strips the trailing zeros of the mantissa `m` of `m / 10 ^ e`. -/
def normalizeFraction : Nat → Nat → Nat × Nat
  | m, 0 => (m, 0)
  | m, e + 1 => if m % 10 = 0 then normalizeFraction (m / 10) e else (m, e + 1)

/-- The exact value of the numeral with the sign `negative`, the digits `mantissa`, of
which the last `fractionLength` stand after the decimal point, and the decimal exponent
`exponent`. -/
def exactNumber (negative : Bool) (mantissa fractionLength : Nat) (exponent : Int) : JsVal :=
  let sign : Int := if negative then -1 else 1
  if mantissa = 0 then .num 0
  else if (fractionLength : Int) ≤ exponent then
    .num (sign * mantissa * 10 ^ (exponent - fractionLength).toNat)
  else
    match normalizeFraction mantissa (fractionLength - exponent).toNat with
    | (m, 0) => .num (sign * m)
    | (m, e + 1) => .frac (sign * m) (e + 1)

/-- The power `10 ^ d`. -/
def powerOfTen : Nat → Nat
  | 0 => 1
  | d + 1 => 10 * powerOfTen d

/-- The number `2 ^ 1075`: the least positive double is `2 ^ -1074`. -/
def twoToThe1075 : Nat := (2 ^ 215) ^ 5

/-- Whether the value `mantissa / 10 ^ d` rounds to zero as a double: it is at most
`2 ^ -1075`, half the least positive double (the tie goes to the even neighbour, which
is zero). -/
def roundsToZero (mantissa d : Nat) : Bool := decide (mantissa * twoToThe1075 ≤ powerOfTen d)

/-- The number that `JSON.parse` gives for the numeral with the sign `negative`, the
digits `mantissa`, of which the last `fractionLength` stand after the decimal point, and
the decimal exponent `exponent`: zero when the value rounds to zero as a double, the
exact value otherwise. -/
def mkNumber (negative : Bool) (mantissa fractionLength : Nat) (exponent : Int) : JsVal :=
  if roundsToZero mantissa ((fractionLength : Int) - exponent).toNat then .num 0
  else exactNumber negative mantissa fractionLength exponent

/-- The digits at the start of a text, and the rest. -/
def spanDigits (l : List Char) : List Char × List Char := l.span Char.isDigit

/-- The fraction part of a JSON number: nothing, or a point and at least one digit. -/
def parseFraction (l : List Char) : Option (List Char × List Char) :=
  match l with
  | [] => some ([], [])
  | c :: t =>
    if c = '.' then
      match spanDigits t with
      | ([], _) => none
      | (f, r) => some (f, r)
    else some ([], c :: t)

/-- The digits of an exponent after its optional sign. -/
def parseExponentDigits (negative : Bool) (l : List Char) : Option (Int × List Char) :=
  match spanDigits l with
  | ([], _) => none
  | (x, r) => some (if negative then -(digitsValue x : Int) else digitsValue x, r)

/-- The exponent part of a JSON number: nothing, or `e` or `E`, an optional sign and at
least one digit. -/
def parseExponent (l : List Char) : Option (Int × List Char) :=
  match l with
  | [] => some (0, [])
  | c :: t =>
    if c = 'e' ∨ c = 'E' then
      match t with
      | [] => none
      | s :: t' =>
        if s = '-' then parseExponentDigits true t'
        else if s = '+' then parseExponentDigits false t'
        else parseExponentDigits false (s :: t')
    else some (0, c :: t)

/-- The parts of a JSON number after its optional minus sign: `0` or a digit string
without leading zero, an optional fraction and an optional exponent.  The result holds
the value of the digits, the number of digits after the point and the exponent. -/
def parseDecimal (l : List Char) : Option ((Nat × Nat × Int) × List Char) :=
  match spanDigits l with
  | ([], _) => none
  | (d :: ds, l₁) =>
    if d = '0' ∧ ds ≠ [] then none
    else
      match parseFraction l₁ with
      | none => none
      | some (fracDigits, l₂) =>
        match parseExponent l₂ with
        | none => none
        | some (x, l₃) => some ((digitsValue (d :: ds ++ fracDigits), fracDigits.length, x), l₃)

/-- A JSON number after its optional minus sign. -/
def parseUnsigned (negative : Bool) (l : List Char) : Option (JsVal × List Char) :=
  match parseDecimal l with
  | some ((mantissa, fractionLength, exponent), rest) =>
    some (mkNumber negative mantissa fractionLength exponent, rest)
  | none => none

/-- A JSON number. -/
def parseNumber (l : List Char) : Option (JsVal × List Char) :=
  match l with
  | [] => none
  | c :: t => if c = '-' then parseUnsigned true t else parseUnsigned false (c :: t)

/-- Whether `k` is an array index: the decimal numeral, without leading zero, of a number
below `2 ^ 32 - 1`.  Such keys are enumerated first, in ascending order. -/
def arrayIndex (k : String) : Option Nat :=
  match k.data with
  | [] => none
  | d :: ds =>
    if (d :: ds).all Char.isDigit ∧ (d ≠ '0' ∨ ds = []) ∧ digitsValue (d :: ds) < 4294967295
    then some (digitsValue (d :: ds)) else none

/-- Whether a new key `k` is enumerated before the present key `k'`. -/
def keyBefore (k k' : String) : Bool :=
  match arrayIndex k, arrayIndex k' with
  | some i, some j => i < j
  | some _, none => true
  | none, _ => false

/-- CreateDataProperty on an ordinary object: the value of a present key is replaced in
place; a new array index is put among the array indices in ascending order, another new
key at the end. -/
def defineProperty (k : String) (v : JsVal) : List (String × JsVal) → List (String × JsVal)
  | [] => [(k, v)]
  | (k', v') :: rest =>
    if k' = k then (k, v) :: rest
    else if keyBefore k k' then (k, v) :: (k', v') :: rest
    else (k', v') :: defineProperty k v rest

/-- The object with the members of a JSON object text, defined in text order. -/
def objectOfMembers (members : List (String × JsVal)) : JsVal :=
  .obj (members.foldl (fun fields p => defineProperty p.1 p.2 fields) [])

/-- The rest of `l` after the characters `word`, if `l` starts with them. -/
def expectWord (word l : List Char) : Option (List Char) :=
  if word.isPrefixOf l then some (l.drop word.length) else none

mutual
/-- A JSON value at the start of `l`, after white space. -/
def parseValue : Nat → List Char → Parsed JsVal
  | 0, _ => .error .outOfFuel
  | fuel + 1, l =>
    match skipWhitespace l with
    | [] => .error .syntaxError
    | c :: rest =>
      if c = '{' then
        match skipWhitespace rest with
        | [] => .error .syntaxError
        | c' :: rest' =>
          if c' = '}' then .ok (.obj [], rest')
          else
            match parseMembers fuel (c' :: rest') with
            | .ok (members, rest'') => .ok (objectOfMembers members, rest'')
            | .error e => .error e
      else if c = '[' then
        match skipWhitespace rest with
        | [] => .error .syntaxError
        | c' :: rest' =>
          if c' = ']' then .ok (.arr [], rest')
          else
            match parseElements fuel (c' :: rest') with
            | .ok (items, rest'') => .ok (.arr items, rest'')
            | .error e => .error e
      else if c = dquote then
        match parseStringBody rest with
        | some (s, rest') => .ok (.str (String.mk s), rest')
        | none => .error .syntaxError
      else if c = 'n' then
        match expectWord ['u', 'l', 'l'] rest with
        | some rest' => .ok (.null, rest')
        | none => .error .syntaxError
      else if c = 't' then
        match expectWord ['r', 'u', 'e'] rest with
        | some rest' => .ok (.bool true, rest')
        | none => .error .syntaxError
      else if c = 'f' then
        match expectWord ['a', 'l', 's', 'e'] rest with
        | some rest' => .ok (.bool false, rest')
        | none => .error .syntaxError
      else
        match parseNumber (c :: rest) with
        | some (v, rest') => .ok (v, rest')
        | none => .error .syntaxError
/-- The elements of a non-empty JSON array, up to the closing bracket. -/
def parseElements : Nat → List Char → Parsed (List JsVal)
  | 0, _ => .error .outOfFuel
  | fuel + 1, l =>
    match parseValue fuel l with
    | .error e => .error e
    | .ok (v, rest) =>
      match skipWhitespace rest with
      | c :: rest' =>
        if c = ',' then
          match parseElements fuel rest' with
          | .ok (vs, rest'') => .ok (v :: vs, rest'')
          | .error e => .error e
        else if c = ']' then .ok ([v], rest')
        else .error .syntaxError
      | [] => .error .syntaxError
/-- The members of a non-empty JSON object, up to the closing brace. -/
def parseMembers : Nat → List Char → Parsed (List (String × JsVal))
  | 0, _ => .error .outOfFuel
  | fuel + 1, l =>
    match skipWhitespace l with
    | c :: rest =>
      if c = dquote then
        match parseStringBody rest with
        | none => .error .syntaxError
        | some (k, rest₁) =>
          match skipWhitespace rest₁ with
          | c₁ :: rest₂ =>
            if c₁ = ':' then
              match parseValue fuel rest₂ with
              | .error e => .error e
              | .ok (v, rest₃) =>
                match skipWhitespace rest₃ with
                | c₂ :: rest₄ =>
                  if c₂ = ',' then
                    match parseMembers fuel rest₄ with
                    | .ok (ms, rest₅) => .ok ((String.mk k, v) :: ms, rest₅)
                    | .error e => .error e
                  else if c₂ = '}' then .ok ([(String.mk k, v)], rest₄)
                  else .error .syntaxError
                | [] => .error .syntaxError
            else .error .syntaxError
          | [] => .error .syntaxError
      else .error .syntaxError
    | [] => .error .syntaxError
end

/-- A parse of a text of `n` characters that stays within its budget: it ends with a
syntax error, or with a value and a rest shorter than `n`. -/
def Parsed.within {α : Type} (n : Nat) : Parsed α → Prop
  | .ok (_, rest) => rest.length < n
  | .error .syntaxError => True
  | .error .outOfFuel => False

/-- The call `JSON.parse(text)`: the value of a JSON text, or the SyntaxError thrown for
a text that is not JSON.  The recursion budget `2 * length + 1` is never used up. -/
def jsonParse (text : String) : Except String JsVal :=
  match parseValue (2 * text.data.length + 1) text.data with
  | .ok (v, rest) =>
    if skipWhitespace rest = [] then .ok v else .error "Unexpected token in JSON"
  | .error _ => .error "Unexpected token in JSON"

/-! ## HashGenerator (`src/lib/hash-generator.js`) -/

/-- The platform digest `crypto.subtle.digest('SHA-256', data)`: from the input bytes to
the digest bytes, or a rejection. -/
abbrev Digest := List Nat → Except String (List Nat)

/-- The result object of `generateImageHash`; `generateShortHash` adds `shortHash` and
`fullHash` (`none` is an absent property). -/
structure HashResult where
  hash : String
  algorithm : String
  timestamp : Int
  metadata : JsVal
  dataSize : Nat
  shortHash : Option String := none
  fullHash : Option String := none

/-- The field `this.algorithm` set by the constructor. -/
def algorithm : String := "SHA-256"

/-- Method `HashGenerator.createCombinedData(imageData, metadata)`. -/
def createCombinedData (imageData : String) (metadata : JsVal) : Except String String := do
  -- Remove data URL prefix if present
  let cleanImageData : Option String :=
    if startsWith imageData "data:" then (split imageData ',')[1]? else some imageData
  -- Create deterministic metadata string
  let timestamp ← metadata.getProp "timestamp"
  let userAgent ← metadata.getProp "userAgent"
  let platform ← metadata.getProp "platform"
  let devicePixelRatio ← metadata.getProp "devicePixelRatio"
  let screenResolution ← metadata.getProp "screenResolution"
  let dimensions ← metadata.getProp "dimensions"
  let metadataString := jsonStringify (.obj [
    ("timestamp", timestamp),
    ("userAgent", userAgent),
    ("platform", platform),
    ("devicePixelRatio", devicePixelRatio),
    ("screenResolution", screenResolution),
    -- Exclude variable video settings for consistency
    ("imageSize", dimensions.or (.obj []))])
  -- Combine image data with metadata
  return concatOperand cleanImageData ++ "|" ++ concatOperand metadataString

/-- The expression `hashArray.map(b => b.toString(16).padStart(2, '0')).join('')`. -/
def bytesToHex (bytes : List Nat) : String :=
  String.mk (bytes.flatMap fun b =>
    let digits := Nat.toDigits 16 b
    List.replicate (2 - digits.length) '0' ++ digits)

/-- Method `HashGenerator.generateImageHash(imageData, metadata)`; `now` is the value of
`Date.now()` when the result is built.  Every failure is rethrown with the prefix
`Failed to generate hash: `. -/
def generateImageHash (digest : Digest) (now : Int) (imageData : String) (metadata : JsVal) :
    Except String HashResult :=
  match createCombinedData imageData metadata with
  | .error e => .error ("Failed to generate hash: " ++ e)
  | .ok combinedData =>
    match digest (textEncode combinedData) with
    | .error e => .error ("Failed to generate hash: " ++ e)
    | .ok hashBuffer =>
      .ok { hash := bytesToHex hashBuffer
            algorithm := algorithm
            timestamp := now
            metadata := metadata
            dataSize := jsLength combinedData }

/-- The result object of `HashGenerator.verifyHash`. -/
structure VerifyResult where
  isValid : Bool
  generatedHash : String
  providedHash : String
  timestamp : Int

/-- Method `HashGenerator.verifyHash(imageData, metadata, providedHash)`; `genNow` and `now` are
the values of `Date.now()` inside `generateImageHash` and when the result is built. -/
def verifyHash (digest : Digest) (genNow now : Int) (imageData : String) (metadata : JsVal)
    (providedHash : String) : Except String VerifyResult :=
  match generateImageHash digest genNow imageData metadata with
  | .error e => .error ("Failed to verify hash: " ++ e)
  | .ok generatedResult =>
    .ok { isValid := generatedResult.hash == toLowerCase providedHash
          generatedHash := generatedResult.hash
          providedHash := toLowerCase providedHash
          timestamp := now }

/-- Method `HashGenerator.generateShortHash(imageData, metadata)`. -/
def generateShortHash (digest : Digest) (now : Int) (imageData : String) (metadata : JsVal) :
    Except String HashResult :=
  match generateImageHash digest now imageData metadata with
  | .error e => .error e
  | .ok fullResult =>
    .ok { fullResult with
          shortHash := some (substring0 fullResult.hash 16)
          fullHash := some fullResult.hash }

/-- A verification record, the object built by `createVerificationRecord`. -/
structure VerificationRecord where
  id : String
  hash : String
  shortHash : String
  algorithm : String
  timestamp : Int
  metadata : JsVal
  imagePreview : JsVal
  verified : Bool
  verificationCount : Int

/-- Method `HashGenerator.createImagePreview(imageData)` as seen by its caller: it returns a
Promise, which `createVerificationRecord` stores without awaiting it.  A Promise is an
object without own enumerable properties. -/
def createImagePreview (_imageData : String) : JsVal := .obj []

/-- Method `HashGenerator.createVerificationRecord(hashResult, imageData)`; `id` is the value
returned by `generateId()`, which depends on the clock and on `Math.random()`. -/
def createVerificationRecord (id : String) (hashResult : HashResult) (imageData : String) :
    VerificationRecord :=
  { id := id
    hash := hashResult.hash
    shortHash := substring0 hashResult.hash 16
    algorithm := hashResult.algorithm
    timestamp := hashResult.timestamp
    metadata := hashResult.metadata
    imagePreview := createImagePreview imageData
    verified := true
    verificationCount := 1 }

/-! ### The format predicates: regular expressions `/^[a-f0-9]{n}$/i` -/

/-- Canonicalize of the regular-expression semantics under the `i` flag (without `u`):
the upper-case form.  On ASCII it is exact; a non-ASCII character is never canonicalized
to an ASCII one, and is left as it is here. -/
def canonicalize (c : Char) : Char := c.toUpper

/-- The characters of the inclusive range `lo-hi` of a character class. -/
def classRange (lo hi : Char) : List Char :=
  (List.range (hi.toNat + 1 - lo.toNat)).map fun i => Char.ofNat (lo.toNat + i)

/-- The members of the class `[a-f0-9]`. -/
def hexClass : List Char := classRange 'a' 'f' ++ classRange '0' '9'

/-- CharacterSetMatcher under the `i` flag: `c` matches the class when some member has
the same canonical form. -/
def classMatches (cls : List Char) (c : Char) : Bool :=
  cls.any fun a => canonicalize a == canonicalize c

/-- Match `[cls]{n}` at the start of the input: the rest of the input after exactly `n`
characters of the class, or failure. -/
def matchRepeat (cls : List Char) : Nat → List Char → Option (List Char)
  | 0, rest => some rest
  | _ + 1, [] => none
  | n + 1, c :: rest => if classMatches cls c then matchRepeat cls n rest else none

/-- The call `/^[cls]{n}$/i.test(s)`: the repetition matches at position 0 and ends at
the end of the input (no `m` flag: `$` is the end of the input only). -/
def testAnchoredRepeat (cls : List Char) (n : Nat) (s : String) : Bool :=
  match matchRepeat cls n s.data with
  | some [] => true
  | _ => false

/-- Method `HashGenerator.isValidHashFormat(hash)`: `/^[a-f0-9]{64}$/i.test(hash)`. -/
def isValidHashFormat (hash : String) : Bool := testAnchoredRepeat hexClass 64 hash

/-- Method `HashGenerator.isValidShortHashFormat(hash)`: `/^[a-f0-9]{16}$/i.test(hash)`. -/
def isValidShortHashFormat (hash : String) : Bool := testAnchoredRepeat hexClass 16 hash

/-! ## QRGenerator (`src/lib/qr-generator.js`) -/

/-- The expression `a || b` on strings, `a` possibly absent: `a` when it is present and
not empty. -/
def orString (a : Option String) (b : String) : String :=
  match a with
  | some s => if s != "" then s else b
  | none => b

/-- Method `QRGenerator.createQRData(hashResult)`. -/
def createQRData (hashResult : HashResult) : String :=
  -- Create compact data structure for QR code
  let qrData : JsVal := .obj [
    ("v", .str "1.0"),
    ("h", .str (orString hashResult.shortHash (substring0 hashResult.hash 16))),
    ("t", .num hashResult.timestamp),
    ("a", .str "SHA256")]
  -- Convert to JSON string
  concatOperand (jsonStringify qrData)


/-! ### Decoding the QR payload -/

/-- The expression `a && b`, where `b` is evaluated only when `a` is truthy. -/
def andAlso (a : JsVal) (b : Except String JsVal) : Except String JsVal :=
  if a.truthy then b else .ok a

/-- Method `QRGenerator.parseQRData(qrString)`: whatever is thrown inside the `try` block,
by `JSON.parse` or by a property read, is caught. -/
def parseQRData (qrString : String) : JsVal :=
  let attempt : Except String JsVal := do
    let data ← jsonParse qrString
    let present ← do
      let v ← data.getProp "v"
      andAlso v do
        let h ← data.getProp "h"
        andAlso h do
          let t ← data.getProp "t"
          andAlso t (data.getProp "a")
    if present.truthy then
      let version ← data.getProp "v"
      let shortHash ← data.getProp "h"
      let timestamp ← data.getProp "t"
      let algorithm ← data.getProp "a"
      return .obj [
        ("version", version),
        ("shortHash", shortHash),
        ("timestamp", timestamp),
        ("algorithm", algorithm),
        ("isValid", .bool true)]
    return .obj [("isValid", .bool false), ("error", .str "Invalid QR format")]
  match attempt with
  | .ok result => result
  | .error _ => .obj [("isValid", .bool false), ("error", .str "Failed to parse QR data")]

/-- Method `QRGenerator.isValidQRFormat(qrString)`: `parsed.isValid`. -/
def isValidQRFormat (qrString : String) : JsVal :=
  match parseQRData qrString with
  | .obj fields => JsVal.lookup "isValid" fields
  | _ => .undefined

/-! ## The verification store of the app classes

`src/lib/app-controller.js` (class `SnapHashQRApp`), `src/lib/main-app.js` (class
`SnapHashQRMainApp`) and `src/lib/simple-app.js` (class `SnapHashQRApp`).  The rendering
of the page (`updateRecordsList`, `displayVerificationResult`, `showNotification`) reads
the state and does not change it; of `verifyHash` the model keeps what is displayed, and
of `displayVerificationResult`, which runs inside the `try` block of its caller, whether
it throws.  `resultElements` tells whether the page has the two elements
`verification-result` and `verification-details`; `now` is the value of `Date.now()`. -/

/-- The object built by `createVerificationRecord`, as a JavaScript value. -/
def VerificationRecord.toJsVal (r : VerificationRecord) : JsVal :=
  .obj [
    ("id", .str r.id),
    ("hash", .str r.hash),
    ("shortHash", .str r.shortHash),
    ("algorithm", .str r.algorithm),
    ("timestamp", .num r.timestamp),
    ("metadata", r.metadata),
    ("imagePreview", r.imagePreview),
    ("verified", .bool r.verified),
    ("verificationCount", .num r.verificationCount)]

/-- The browser storage `localStorage`: its items, and whether `setItem` succeeds (it
throws when the quota is exceeded or the storage is disabled). -/
structure LocalStorage where
  items : List (String × String)
  writable : Bool

/-- The call `localStorage.getItem(key)`; `none` is `null`. -/
def LocalStorage.getItem (storage : LocalStorage) (key : String) : Option String :=
  match storage.items.find? (fun item => item.1 = key) with
  | some item => some item.2
  | none => none

/-- The call `localStorage.setItem(key, value)`. -/
def LocalStorage.setItem (storage : LocalStorage) (key value : String) :
    Except String LocalStorage :=
  if storage.writable then
    .ok { storage with items := (key, value) :: storage.items.filter (fun item => item.1 ≠ key) }
  else .error "QuotaExceededError"

/-- The state of an app object that the store operations use: the field
`verificationRecords` and the browser storage. -/
structure AppState where
  verificationRecords : JsVal
  localStorage : LocalStorage

/-- The comparison `value === text` with a string. -/
def strictEqualsString (value : JsVal) (text : String) : Bool :=
  match value with
  | .str s => s = text
  | _ => false

/-- Whether an object has an own property named `key`. -/
def hasOwnProperty (key : String) (fields : List (String × JsVal)) : Bool :=
  fields.any fun field => field.1 = key

mutual
/-- ToString of a data value: the text used when a value is passed where a string is
expected, as in a template literal.  An object is converted by the method `toString`:
that of the prototype gives `[object Object]`, but an own property `toString` of a data
object hides it and is not callable (nor does `valueOf` give a primitive), so a TypeError
is thrown.  An array joins the texts of its elements. -/
def JsVal.toChars : JsVal → Except String (List Char)
  | .undefined => .ok ['u', 'n', 'd', 'e', 'f', 'i', 'n', 'e', 'd']
  | .null => .ok ['n', 'u', 'l', 'l']
  | .bool true => .ok ['t', 'r', 'u', 'e']
  | .bool false => .ok ['f', 'a', 'l', 's', 'e']
  | .num n => .ok (numberToString n)
  | .frac m e => .ok (fractionToString m e)
  | .str s => .ok s.data
  | .arr items =>
    match elementsToChars items with
    | .ok texts => .ok (joinComma texts)
    | .error e => .error e
  | .obj fields =>
    if hasOwnProperty "toString" fields then .error "Cannot convert object to primitive value"
    else .ok "[object Object]".data
/-- The texts joined by `Array.prototype.join`: `undefined` and `null` are empty. -/
def elementsToChars : List JsVal → Except String (List (List Char))
  | [] => .ok []
  | .undefined :: vs =>
    match elementsToChars vs with
    | .ok texts => .ok ([] :: texts)
    | .error e => .error e
  | .null :: vs =>
    match elementsToChars vs with
    | .ok texts => .ok ([] :: texts)
    | .error e => .error e
  | v :: vs =>
    match v.toChars with
    | .ok text =>
      match elementsToChars vs with
      | .ok texts => .ok (text :: texts)
      | .error e => .error e
    | .error e => .error e
end

/-- The call `new Date(value)` as far as it can throw: an object is converted to a
primitive, by `valueOf`, which gives no primitive for a data object, and then by
`toString`, so it throws exactly when the conversion to a string does. -/
def newDate (value : JsVal) : Except String Unit :=
  match value.toChars with
  | .ok _ => .ok ()
  | .error e => .error e

/-- A template literal part `${value}` as far as it can throw. -/
def interpolate (value : JsVal) : Except String Unit :=
  match value.toChars with
  | .ok _ => .ok ()
  | .error e => .error e

/-- The call `items.find(callback)`: the first element for which the callback returns
true, `undefined` when there is none; what the callback throws is thrown. -/
def arrayFind (callback : JsVal → Except String Bool) : List JsVal → Except String JsVal
  | [] => .ok .undefined
  | item :: items =>
    match callback item with
    | .error e => .error e
    | .ok true => .ok item
    | .ok false => arrayFind callback items

/-- The call `records.find(callback)` on the value of `this.verificationRecords`. -/
def findInRecords (callback : JsVal → Except String Bool) (records : JsVal) :
    Except String JsVal :=
  match records with
  | .arr items => arrayFind callback items
  | _ => .error "this.verificationRecords.find is not a function"

/-- The white space and line terminators that `String.prototype.trim` removes. -/
def isTrimmed (c : Char) : Bool :=
  [9, 10, 11, 12, 13, 32, 160, 5760, 8192, 8193, 8194, 8195, 8196, 8197, 8198, 8199, 8200,
    8201, 8202, 8232, 8233, 8239, 8287, 12288, 65279].contains c.toNat

/-- The call `s.trim()`. -/
def trim (s : String) : String :=
  String.mk ((s.data.dropWhile isTrimmed).reverse.dropWhile isTrimmed).reverse

/-- What the manual verification shows: the data passed to `displayVerificationResult`
with the notification that follows, or the notification of the `catch` block. -/
inductive VerifyOutcome where
  | displayed (hash : String) (matchingRecord : JsVal) (message : String)
  | failed (message : String)

/-- The object that `verifyHash` passes to `displayVerificationResult`. -/
def manualVerifyData (hash : String) (matchingRecord : JsVal) (now : Int) : JsVal :=
  .obj [
    ("type", .str "manual_verify"),
    ("hash", .str hash),
    ("matchingRecord", matchingRecord),
    ("timestamp", .num now)]

/-- The notification text chosen from the record found. -/
def verifyMessage (matchingRecord : JsVal) : String :=
  if matchingRecord.truthy then "Hash verified successfully!" else "Hash not found in records"

/-- Method `saveRecords()`, the same in the three classes: the JSON text of the store is
written under the key `snaphashqr_records`; a failure of the storage is caught. -/
def saveRecords (app : AppState) : AppState :=
  match app.localStorage.setItem "snaphashqr_records"
      (concatOperand (jsonStringify app.verificationRecords)) with
  | .ok storage => { app with localStorage := storage }
  | .error _ => app

/-- Method `addVerificationRecord(record)`, the same in the three classes:
`this.verificationRecords.unshift(record)`, then `saveRecords()`.  The result is the
state these two statements leave; the rendering that follows (`updateRecordsList()`)
reads it and changes neither the store nor the storage. -/
def addVerificationRecord (record : JsVal) (app : AppState) : Except String AppState :=
  match app.verificationRecords with
  | .arr items => .ok (saveRecords { app with verificationRecords := .arr (record :: items) })
  | _ => .error "this.verificationRecords.unshift is not a function"

namespace AppController

/-- The callback of `findRecordByHash`:
`record.hash === hash || record.shortHash === hash`. -/
def recordMatches (hash : String) (record : JsVal) : Except String Bool := do
  let recordHash ← record.getProp "hash"
  if strictEqualsString recordHash hash then return true
  let recordShortHash ← record.getProp "shortHash"
  return strictEqualsString recordShortHash hash

/-- Method `SnapHashQRApp.findRecordByHash(hash)` of `app-controller.js`. -/
def findRecordByHash (records : JsVal) (hash : String) : Except String JsVal :=
  findInRecords (recordMatches hash) records

/-- Method `SnapHashQRApp.displayVerificationResult(verificationData)` of
`app-controller.js` as far as it can throw: when the page has the two result elements,
the template literal of the type at hand converts the values it holds to strings. -/
def displayVerificationResult (resultElements : Bool) (verificationData : JsVal) :
    Except String Unit :=
  if resultElements then do
    let kind ← verificationData.getProp "type"
    if strictEqualsString kind "qr_scan" then
      let qrInfo ← verificationData.getProp "qrInfo"
      let shortHash ← qrInfo.getProp "shortHash"
      interpolate shortHash
      let algorithm ← qrInfo.getProp "algorithm"
      interpolate algorithm
      let timestamp ← qrInfo.getProp "timestamp"
      newDate timestamp
    else if strictEqualsString kind "manual_verify" then
      let matchingRecord ← verificationData.getProp "matchingRecord"
      let hash ← verificationData.getProp "hash"
      interpolate hash
      if matchingRecord.truthy then
        let timestamp ← matchingRecord.getProp "timestamp"
        newDate timestamp
        let verificationCount ← matchingRecord.getProp "verificationCount"
        interpolate verificationCount
      else return ()
    else return ()
  else return ()

/-- Method `SnapHashQRApp.verifyHash()` of `app-controller.js`; `hashInput` is the value of
the input element `manual-hash`, `none` when the page has no such element. -/
def verifyHash (resultElements : Bool) (now : Int) (records : JsVal)
    (hashInput : Option String) : VerifyOutcome :=
  let attempt : Except String VerifyOutcome := do
    let value ← match hashInput with
      | some value => pure value
      | none => throw "Cannot read properties of null (reading value)"
    let hash := trim value
    if hash = "" then throw "Please enter a hash to verify"
    if !isValidHashFormat hash && !isValidShortHashFormat hash then
      throw "Invalid hash format"
    -- Look for matching record
    let matchingRecord ← findRecordByHash records hash
    displayVerificationResult resultElements (manualVerifyData hash matchingRecord now)
    return .displayed hash matchingRecord (verifyMessage matchingRecord)
  match attempt with
  | .ok outcome => outcome
  | .error message => .failed ("Verification failed: " ++ message)

end AppController

namespace MainApp

/-- The callback of `findRecordByHash`: `record.hash === hash ||
record.shortHash === hash || record.hash.startsWith(hash) ||
hash.startsWith(record.shortHash)`; `startsWith` converts its argument to a string. -/
def recordMatches (hash : String) (record : JsVal) : Except String Bool := do
  let recordHash ← record.getProp "hash"
  if strictEqualsString recordHash hash then return true
  let recordShortHash ← record.getProp "shortHash"
  if strictEqualsString recordShortHash hash then return true
  let hashStarts ← match recordHash with
    | .str s => pure (startsWith s hash)
    | _ => throw "record.hash.startsWith is not a function"
  if hashStarts then return true
  let shortHashText ← recordShortHash.toChars
  return startsWith hash (String.mk shortHashText)

/-- Method `SnapHashQRMainApp.findRecordByHash(hash)` of `main-app.js`. -/
def findRecordByHash (records : JsVal) (hash : String) : Except String JsVal :=
  findInRecords (recordMatches hash) records

/-- Method `SnapHashQRMainApp.displayVerificationResult(verificationData)` of
`main-app.js` as far as it can throw: when the page has the two result elements, the
template literals convert the values they hold to strings. -/
def displayVerificationResult (resultElements : Bool) (verificationData : JsVal) :
    Except String Unit :=
  if resultElements then do
    let matchingRecord ← verificationData.getProp "matchingRecord"
    let timestamp ← verificationData.getProp "timestamp"
    newDate timestamp
    let hash ← verificationData.getProp "hash"
    interpolate hash
    if matchingRecord.truthy then
      let recordTimestamp ← matchingRecord.getProp "timestamp"
      newDate recordTimestamp
      let verificationCount ← matchingRecord.getProp "verificationCount"
      interpolate verificationCount
    else return ()
  else return ()

/-- Method `SnapHashQRMainApp.verifyHash()` of `main-app.js`; `hashInput` is the value of
the input element `manual-hash`, `none` when the page has no such element. -/
def verifyHash (resultElements : Bool) (now : Int) (records : JsVal)
    (hashInput : Option String) : VerifyOutcome :=
  let attempt : Except String VerifyOutcome := do
    let hash := match hashInput with
      | some value => trim value
      | none => ""
    if hash = "" then throw "Please enter a hash to verify"
    -- Look for matching record
    let matchingRecord ← findRecordByHash records hash
    displayVerificationResult resultElements (manualVerifyData hash matchingRecord now)
    return .displayed hash matchingRecord (verifyMessage matchingRecord)
  match attempt with
  | .ok outcome => outcome
  | .error message => .failed ("Verification failed: " ++ message)

end MainApp

namespace SimpleApp

/-- The callback of `findRecordByHash`:
`record.hash === hash || record.shortHash === hash`. -/
def recordMatches (hash : String) (record : JsVal) : Except String Bool := do
  let recordHash ← record.getProp "hash"
  if strictEqualsString recordHash hash then return true
  let recordShortHash ← record.getProp "shortHash"
  return strictEqualsString recordShortHash hash

/-- Method `SnapHashQRApp.findRecordByHash(hash)` of `simple-app.js`. -/
def findRecordByHash (records : JsVal) (hash : String) : Except String JsVal :=
  findInRecords (recordMatches hash) records

/-- Method `SnapHashQRApp.displayVerificationResult(verificationData)` of `simple-app.js`
as far as it can throw: the type is read for the log, and when the page has the two
result elements, the template literal of the type at hand converts the values it holds
to strings. -/
def displayVerificationResult (resultElements : Bool) (verificationData : JsVal) :
    Except String Unit := do
  let kind ← verificationData.getProp "type"
  if resultElements then
    if strictEqualsString kind "qr_scan" then
      let data ← verificationData.getProp "data"
      interpolate data
      let timestamp ← verificationData.getProp "timestamp"
      newDate timestamp
    else if strictEqualsString kind "manual_verify" then
      let matchingRecord ← verificationData.getProp "matchingRecord"
      let hash ← verificationData.getProp "hash"
      interpolate hash
      if matchingRecord.truthy then
        let timestamp ← matchingRecord.getProp "timestamp"
        newDate timestamp
        let verificationCount ← matchingRecord.getProp "verificationCount"
        interpolate verificationCount
      else return ()
    else return ()
  else return ()

/-- Method `SnapHashQRApp.verifyHash()` of `simple-app.js`; `hashInput` is the value of the
input element `manual-hash`, `none` when the page has no such element. -/
def verifyHash (resultElements : Bool) (now : Int) (records : JsVal)
    (hashInput : Option String) : VerifyOutcome :=
  let attempt : Except String VerifyOutcome := do
    let hash := match hashInput with
      | some value => trim value
      | none => ""
    if hash = "" then throw "Please enter a hash to verify"
    -- Look for matching record
    let matchingRecord ← findRecordByHash records hash
    displayVerificationResult resultElements (manualVerifyData hash matchingRecord now)
    return .displayed hash matchingRecord (verifyMessage matchingRecord)
  match attempt with
  | .ok outcome => outcome
  | .error message => .failed ("Verification failed: " ++ message)

end SimpleApp

/-! ## CameraCapture (`src/lib/camera-capture.js`)

The camera, the canvas and the browser are not code of the repository: the frame that
`canvas.toDataURL` returns, the values of `navigator`, `window` and `screen`, the list of
the media devices and `getUserMedia` are parameters. -/

/-- A media stream as far as the program reads it: the settings of its first video
track, `stream.getVideoTracks()[0].getSettings()`. -/
structure MediaStream where
  settings : JsVal

/-- The fields of a `CameraCapture` object that the capture and the camera switch use. -/
structure CameraCapture where
  stream : Option MediaStream
  isStreaming : Bool
  width : JsVal
  height : JsVal

/-- The values of the browser that `getCaptureMetadata` reads: `new Date().toISOString()`,
`navigator.userAgent`, `navigator.platform`, `window.devicePixelRatio`, `screen.width`
and `screen.height`. -/
structure Browser where
  isoTime : String
  userAgent : String
  platform : String
  devicePixelRatio : JsVal
  screenWidth : JsVal
  screenHeight : JsVal

/-- The object returned by `CameraCapture.capturePhoto()`. -/
structure CaptureResult where
  imageData : String
  metadata : JsVal
  timestamp : Int
  dimensions : JsVal

namespace CameraCapture

/-- Method `CameraCapture.getCaptureMetadata()`. -/
def getCaptureMetadata (camera : CameraCapture) (browser : Browser) : JsVal :=
  .obj [
    ("timestamp", .str browser.isoTime),
    ("userAgent", .str browser.userAgent),
    ("platform", .str browser.platform),
    ("devicePixelRatio", browser.devicePixelRatio.or (.num 1)),
    ("screenResolution", .obj [
      ("width", browser.screenWidth),
      ("height", browser.screenHeight)]),
    ("videoSettings",
      match camera.stream with
      | some stream => stream.settings
      | none => .null)]

/-- Method `CameraCapture.capturePhoto()`; `frame` is the data URL that
`canvas.toDataURL('image/jpeg', 0.9)` returns for the drawn frame and `now` the value of
`Date.now()`. -/
def capturePhoto (camera : CameraCapture) (browser : Browser) (frame : String) (now : Int) :
    Except String CaptureResult :=
  if !camera.isStreaming then .error "Camera is not streaming"
  else
    -- Get image data
    let imageData := frame
    let metadata := camera.getCaptureMetadata browser
    .ok {
      imageData := imageData
      metadata := metadata
      timestamp := now
      dimensions := .obj [("width", camera.width), ("height", camera.height)] }

/-- Method `CameraCapture.stopCamera()`. -/
def stopCamera (camera : CameraCapture) : CameraCapture :=
  match camera.stream with
  | some _ => { camera with stream := none, isStreaming := false }
  | none => camera

end CameraCapture

/-- An entry of `navigator.mediaDevices.enumerateDevices()`. -/
structure MediaDeviceInfo where
  deviceId : String
  kind : String
  label : String

/-- The call `items.findIndex(callback)`: the index of the first element for which the
callback returns true, `-1` when there is none. -/
def arrayFindIndex {α : Type} (callback : α → Bool) : List α → Int
  | [] => -1
  | item :: items =>
    if callback item then 0
    else
      let index := arrayFindIndex callback items
      if index < 0 then -1 else index + 1

/-- Method `CameraCapture.switchCamera()`: the camera object as the method leaves it, and
the label it returns or the error it throws.  `enumerateDevices` is the result of
`navigator.mediaDevices.enumerateDevices()` and `getUserMedia deviceId` that of
`navigator.mediaDevices.getUserMedia` for the constraint
`video: { deviceId: deviceId }`. -/
def CameraCapture.switchCamera (enumerateDevices : Except String (List MediaDeviceInfo))
    (getUserMedia : String → Except String MediaStream) (camera : CameraCapture) :
    CameraCapture × Except String String :=
  match enumerateDevices with
  | .error e => (camera, .error e)
  | .ok devices =>
    let videoDevices := devices.filter fun device => device.kind = "videoinput"
    if videoDevices.length > 1 then
      -- Stop current stream
      let camera := camera.stopCamera
      -- Get current device ID
      let currentDeviceId : Except String JsVal :=
        match camera.stream with
        | some stream => stream.settings.getProp "deviceId"
        | none => .ok .null
      match currentDeviceId with
      | .error e => (camera, .error e)
      | .ok currentDeviceId =>
        -- Find next camera
        let currentIndex := arrayFindIndex
          (fun device => strictEqualsString currentDeviceId device.deviceId) videoDevices
        let nextIndex := (currentIndex + 1) % videoDevices.length
        match videoDevices[nextIndex.toNat]? with
        | none => (camera, .error "Cannot read properties of undefined (reading deviceId)")
        | some nextDevice =>
          -- Start with new camera
          match getUserMedia nextDevice.deviceId with
          | .error e => (camera, .error e)
          | .ok stream =>
            ({ camera with stream := some stream },
              .ok (if nextDevice.label != "" then nextDevice.label
                else "Camera " ++ String.mk (numberToString (nextIndex + 1))))
    else (camera, .ok "Only one camera available")

/-! ## The capture, the scan and the persistence of the app classes -/

/-- The object that `generateQRCode` resolves with (its `options` are left out). -/
structure QRResult where
  dataUrl : String
  data : String
  timestamp : Int

/-- Method `QRGenerator.generateHashQR(hashResult)`; `drawQR data` is the data URL of the
canvas that `generateSimpleQR` draws for `data`, or the error of the drawing, and `now`
is the value of `Date.now()`.  Every failure is rethrown with the prefix
`Failed to generate QR code: `. -/
def generateHashQR (drawQR : String → Except String String) (now : Int)
    (hashResult : HashResult) : Except String QRResult :=
  let qrData := createQRData hashResult
  match drawQR qrData with
  | .ok qrCodeDataUrl => .ok { dataUrl := qrCodeDataUrl, data := qrData, timestamp := now }
  | .error e => .error ("Failed to generate QR code: " ++ e)

/-- What `capturePhoto` of an app class shows: the hash result passed to
`displayCaptureResults` with the notification that follows, or the notification of the
`catch` block. -/
inductive CaptureOutcome where
  | displayed (hashResult : HashResult) (message : String)
  | failed (message : String)

/-- What a scan handler shows: the data passed to `displayVerificationResult` with the
notification that follows, or a notification alone. -/
inductive ScanOutcome where
  | displayed (verificationData : JsVal) (message : String)
  | notified (message : String)

/-- Property read `v.length`: the length of an array or of a string, the own property of
another object; reading from `undefined` or `null` throws a TypeError. -/
def JsVal.getLength (v : JsVal) : Except String JsVal :=
  match v with
  | .undefined => .error "Cannot read properties of undefined (reading length)"
  | .null => .error "Cannot read properties of null (reading length)"
  | .str s => .ok (.num (jsLength s))
  | .arr items => .ok (.num items.length)
  | .obj fields => .ok (JsVal.lookup "length" fields)
  | _ => .ok .undefined

/-- The call `parseQRData(value)` for a value that need not be a string: `JSON.parse`
converts its argument to a string inside the `try` block of `parseQRData`, so a failure
of the conversion is caught there as a failure of the parse. -/
def parseQRDataOf (value : JsVal) : JsVal :=
  match value.toChars with
  | .ok text => parseQRData (String.mk text)
  | .error _ => .obj [("isValid", .bool false), ("error", .str "Failed to parse QR data")]

/-- The comparison `value === 0`. -/
def strictEqualsZero (value : JsVal) : Bool :=
  match value with
  | .num n => n = 0
  | _ => false

/-- Method `clearRecords()` of `app-controller.js` and of `simple-app.js`:
`this.verificationRecords = []`, then `saveRecords()`. -/
def clearRecords (app : AppState) : AppState :=
  saveRecords { app with verificationRecords := .arr [] }

namespace AppController

/-- Method `SnapHashQRApp.capturePhoto()` of `app-controller.js`: the app state it leaves
and what it shows.  `cameraCapture` is the field `this.cameraCapture` (`none` for `null`),
`id` the value of `generateId()`, and `captureNow`, `hashNow` and `qrNow` the values of
`Date.now()` in the capture, in `generateImageHash` and in `generateQRCode`. -/
def capturePhoto (digest : Digest) (drawQR : String → Except String String) (id : String)
    (browser : Browser) (frame : String) (captureNow hashNow qrNow : Int)
    (cameraCapture : Option CameraCapture) (app : AppState) : AppState × CaptureOutcome :=
  let attempt : Except String (AppState × CaptureOutcome) := do
    let camera ← match cameraCapture with
      | some camera => pure camera
      | none => throw "Camera not initialized"
    let captureResult ← camera.capturePhoto browser frame captureNow
    let hashResult ← generateImageHash digest hashNow captureResult.imageData
      captureResult.metadata
    let _qrResult ← generateHashQR drawQR qrNow hashResult
    -- Create verification record
    let record := createVerificationRecord id hashResult captureResult.imageData
    let app ← addVerificationRecord record.toJsVal app
    return (app, .displayed hashResult "Photo captured and verified!")
  match attempt with
  | .ok result => result
  | .error message => (app, .failed ("Capture failed: " ++ message))

/-- Method `SnapHashQRApp.handleQRScanResult(result)` of `app-controller.js`: the app state
it leaves, which is the one it finds (the method assigns no field of the store), and what
it shows; `now` is the value of `Date.now()`.  What `displayVerificationResult` throws is
caught with everything else the `try` block throws. -/
def handleQRScanResult (resultElements : Bool) (now : Int) (app : AppState) (result : JsVal) :
    AppState × ScanOutcome :=
  let attempt : Except String ScanOutcome := do
    let data ← result.getProp "data"
    let qrInfo := parseQRDataOf data
    let isValid ← qrInfo.getProp "isValid"
    if isValid.truthy then
      let verificationData := JsVal.obj [
        ("type", .str "qr_scan"),
        ("qrInfo", qrInfo),
        ("scanResult", result),
        ("timestamp", .num now)]
      displayVerificationResult resultElements verificationData
      return .displayed verificationData "QR code scanned successfully!"
    else return .notified "Invalid QR code format"
  match attempt with
  | .ok outcome => (app, outcome)
  | .error _ => (app, .notified "Failed to process QR code")

/-- The effect of `verifyHash()` on the app state: the method assigns no field of the
store and modifies no record, so the state is the one it finds. -/
def verifyHashStep (resultElements : Bool) (now : Int) (app : AppState)
    (hashInput : Option String) : AppState × VerifyOutcome :=
  (app, verifyHash resultElements now app.verificationRecords hashInput)

/-- The rendering of one record in `updateRecordsList()`: it reads `imagePreview`,
`shortHash`, `timestamp` and `verificationCount` and converts them to strings. -/
def renderRecord (record : JsVal) : Except String Unit := do
  let imagePreview ← record.getProp "imagePreview"
  interpolate imagePreview
  let shortHash ← record.getProp "shortHash"
  interpolate shortHash
  let timestamp ← record.getProp "timestamp"
  newDate timestamp
  let verificationCount ← record.getProp "verificationCount"
  interpolate verificationCount

/-- The rendering of the records in turn, as `map` calls it. -/
def renderRecords : List JsVal → Except String Unit
  | [] => .ok ()
  | record :: records =>
    match renderRecord record with
    | .ok _ => renderRecords records
    | .error e => .error e

/-- Method `SnapHashQRApp.updateRecordsList()` of `app-controller.js` as far as it can
throw; `recordsList` tells whether the page has the element `records-list`. -/
def updateRecordsList (recordsList : Bool) (records : JsVal) : Except String Unit :=
  if recordsList then do
    let length ← records.getLength
    if strictEqualsZero length then return ()
    else
      match records with
      | .arr items => renderRecords items
      | _ => throw "this.verificationRecords.map is not a function"
  else return ()

/-- Method `SnapHashQRApp.loadStoredRecords()` of `app-controller.js`; what the `try` block
throws is caught and the store is reset to `[]`. -/
def loadStoredRecords (recordsList : Bool) (app : AppState) : AppState :=
  let attempt : Except String AppState := do
    match app.localStorage.getItem "snaphashqr_records" with
    | some stored =>
      if stored != "" then
        let records ← jsonParse stored
        updateRecordsList recordsList records
        return { app with verificationRecords := records }
      else return app
    | none => return app
  match attempt with
  | .ok loaded => loaded
  | .error _ => { app with verificationRecords := .arr [] }

end AppController

namespace MainApp

/-- Method `SnapHashQRMainApp.clearRecords()` of `main-app.js`; `confirmed` is the answer
to the `confirm` dialog. -/
def clearRecords (confirmed : Bool) (app : AppState) : AppState :=
  if confirmed then saveRecords { app with verificationRecords := .arr [] } else app

/-- Method `SnapHashQRMainApp.loadStoredRecords()` of `main-app.js`: the number of records
loaded is logged, which reads `this.verificationRecords.length`; what the `try` block
throws is caught and the store is reset to `[]`. -/
def loadStoredRecords (app : AppState) : AppState :=
  let attempt : Except String AppState := do
    match app.localStorage.getItem "snaphashqr_records" with
    | some stored =>
      if stored != "" then
        let records ← jsonParse stored
        let _length ← records.getLength
        return { app with verificationRecords := records }
      else return app
    | none => return app
  match attempt with
  | .ok loaded => loaded
  | .error _ => { app with verificationRecords := .arr [] }

/-- The effect of `verifyHash()` on the app state: the method assigns no field of the
store and modifies no record, so the state is the one it finds. -/
def verifyHashStep (resultElements : Bool) (now : Int) (app : AppState)
    (hashInput : Option String) : AppState × VerifyOutcome :=
  (app, verifyHash resultElements now app.verificationRecords hashInput)

end MainApp

namespace SimpleApp

/-- Method `SnapHashQRApp.handleQRScanResult(result)` of `simple-app.js`: the app state it
leaves, which is the one it finds, and what it shows; the scanned text is not decoded.
What `displayVerificationResult` throws is caught with everything else the `try` block
throws. -/
def handleQRScanResult (resultElements : Bool) (app : AppState) (result : JsVal) :
    AppState × ScanOutcome :=
  let attempt : Except String ScanOutcome := do
    let data ← result.getProp "data"
    let timestamp ← result.getProp "timestamp"
    let verificationData := JsVal.obj [
      ("type", .str "qr_scan"),
      ("data", data),
      ("timestamp", timestamp)]
    displayVerificationResult resultElements verificationData
    return .displayed verificationData "QR code scanned successfully!"
  match attempt with
  | .ok outcome => (app, outcome)
  | .error _ => (app, .notified "Failed to process QR code")

/-- Method `SnapHashQRApp.loadStoredRecords()` of `simple-app.js`, which is that of
`main-app.js`. -/
def loadStoredRecords (app : AppState) : AppState :=
  let attempt : Except String AppState := do
    match app.localStorage.getItem "snaphashqr_records" with
    | some stored =>
      if stored != "" then
        let records ← jsonParse stored
        let _length ← records.getLength
        return { app with verificationRecords := records }
      else return app
    | none => return app
  match attempt with
  | .ok loaded => loaded
  | .error _ => { app with verificationRecords := .arr [] }

/-- The effect of `verifyHash()` on the app state: the method assigns no field of the
store and modifies no record, so the state is the one it finds. -/
def verifyHashStep (resultElements : Bool) (now : Int) (app : AppState)
    (hashInput : Option String) : AppState × VerifyOutcome :=
  (app, verifyHash resultElements now app.verificationRecords hashInput)

end SimpleApp

/-! ## Vocabulary of the statements -/

/-- The metadata properties that `createCombinedData` reads. -/
def includedFields : List String :=
  ["timestamp", "userAgent", "platform", "devicePixelRatio", "screenResolution", "dimensions"]

/-- The object literal that `createCombinedData` serializes, for a metadata object with
the property list `fields`. -/
def canonicalMetadata (fields : List (String × JsVal)) : JsVal :=
  .obj [
    ("timestamp", JsVal.lookup "timestamp" fields),
    ("userAgent", JsVal.lookup "userAgent" fields),
    ("platform", JsVal.lookup "platform" fields),
    ("devicePixelRatio", JsVal.lookup "devicePixelRatio" fields),
    ("screenResolution", JsVal.lookup "screenResolution" fields),
    ("imageSize",
      if (JsVal.lookup "dimensions" fields).truthy then JsVal.lookup "dimensions" fields
      else .obj [])]

/-- The canonical string as the specification words it: the image data, the separator
and the JSON text of the six keys in their fixed order, `imageSize` being
`metadata.dimensions`, or `{}` when that property is absent. -/
def claimedCombinedData (imageData : String) (fields : List (String × JsVal)) : String :=
  imageData ++ "|" ++ concatOperand (jsonStringify (.obj [
    ("timestamp", JsVal.lookup "timestamp" fields),
    ("userAgent", JsVal.lookup "userAgent" fields),
    ("platform", JsVal.lookup "platform" fields),
    ("devicePixelRatio", JsVal.lookup "devicePixelRatio" fields),
    ("screenResolution", JsVal.lookup "screenResolution" fields),
    ("imageSize",
      match JsVal.lookup "dimensions" fields with
      | .undefined => .obj []
      | dimensions => dimensions)]))

/-- The characters `0`-`9`, `a`-`f` and `A`-`F`. -/
def hexDigits : List Char := "0123456789abcdefABCDEF".data

/-- The characters `0`-`9` and `a`-`f`. -/
def lowerHexDigits : List Char := "0123456789abcdef".data

/-- The text `{"v":"1.0","h":H,"t":T,"a":"SHA256"}`, `H` being written as a JSON string
literal and `T` as a decimal number. -/
def qrText (h : String) (t : Int) : String :=
  "\x7b\"v\":\"1.0\",\"h\":" ++ String.mk (quoteJSONString h) ++ ",\"t\":" ++
    String.mk (numberToString t) ++ ",\"a\":\"SHA256\"\x7d"

/-- The QR text as the specification words it: `H` is `hashResult.shortHash` when that
property is present, the first 16 characters of `hashResult.hash` otherwise. -/
def claimedQRData (hashResult : HashResult) : String :=
  qrText (match hashResult.shortHash with
    | some shortHash => shortHash
    | none => substring0 hashResult.hash 16) hashResult.timestamp

/-- A hash result whose `shortHash` property is present and empty. -/
def emptyShortHashResult : HashResult :=
  { hash := "0123456789abcdef0123456789abcdef"
    algorithm := "SHA-256"
    timestamp := 5
    metadata := .null
    dataSize := 3
    shortHash := some "" }

/-! ## Decoders used in the injectivity proofs -/

/-- Value of a hexadecimal digit character written by `Nat.digitChar`. -/
def hexValue (c : Char) : Nat :=
  if c.toNat < 58 then c.toNat - 48 else c.toNat - 87

/-- Reads back the first character written by `quoteChar`, with the rest of the text. -/
def unquoteChar : List Char → Option (Char × List Char)
  | [] => none
  | c :: rest =>
    if c = backslash then
      match rest with
      | [] => none
      | e :: rest' =>
        if e = 'u' then
          match rest' with
          | _ :: _ :: h :: l :: rest'' => some (Char.ofNat (hexValue h * 16 + hexValue l), rest'')
          | _ => none
        else if e = 'b' then some (Char.ofNat 8, rest')
        else if e = 't' then some (Char.ofNat 9, rest')
        else if e = 'n' then some (Char.ofNat 10, rest')
        else if e = 'f' then some (Char.ofNat 12, rest')
        else if e = 'r' then some (Char.ofNat 13, rest')
        else some (e, rest')
    else some (c, rest)

/-- The characters that `numberToString` and `fractionToString` write: the decimal
digits, the minus sign, the point, the letter `e` and the plus sign. -/
def isNumberChar (c : Char) : Bool :=
  c.isDigit || c == '-' || c == '.' || c == 'e' || c == '+'

/-- Reads back a number written by `numberToString` or `fractionToString`: its exact
value. -/
def readNumber (l : List Char) : Option JsVal :=
  match l with
  | [] => none
  | c :: t =>
    if c = '-' then
      match parseDecimal t with
      | some ((mantissa, fractionLength, exponent), _) =>
        some (exactNumber true mantissa fractionLength exponent)
      | none => none
    else
      match parseDecimal (c :: t) with
      | some ((mantissa, fractionLength, exponent), _) =>
        some (exactNumber false mantissa fractionLength exponent)
      | none => none

/-- A text that is empty or starts with a character that no number contains. -/
def Delimited (r : List Char) : Prop := ∀ c ∈ r.head?, isNumberChar c = false

mutual
/-- JSON data: a value with no `undefined` anywhere inside it, every fraction `frac m e`
inside it being in lowest terms (`0 < e` and `m` no multiple of 10), as the numbers of
the model are. -/
def JsVal.isJSON : JsVal → Bool
  | .undefined => false
  | .frac m e => decide (0 < e) && m.natAbs % 10 != 0
  | .arr items => allJSON items
  | .obj fields => allJSONFields fields
  | _ => true
/-- All elements are JSON data. -/
def allJSON : List JsVal → Bool
  | [] => true
  | v :: vs => v.isJSON && allJSON vs
/-- All property values are JSON data. -/
def allJSONFields : List (String × JsVal) → Bool
  | [] => true
  | (_, v) :: rest => v.isJSON && allJSONFields rest
end

/-- The JSON text of a value, `undefined` being written `null` as inside an array. -/
def jsonText (v : JsVal) : List Char := (serializeJSONProperty v).getD ['n', 'u', 'l', 'l']

/-- What follows the first element of a joined list before the text `r`: the closing
bracket, or a comma and the joined other elements. -/
def tailText (ts : List (List Char)) (close : Char) (r : List Char) : List Char :=
  match ts with
  | [] => close :: r
  | t :: ts' => ',' :: (joinComma (t :: ts') ++ close :: r)

/-- The kind of a JSON value, as a number. -/
def JsVal.kind : JsVal → Nat
  | .undefined => 7
  | .null => 0
  | .bool true => 1
  | .bool false => 2
  | .num _ => 3
  | .frac _ _ => 3
  | .str _ => 4
  | .arr _ => 5
  | .obj _ => 6

/-- The kind of value whose JSON text starts with the character `c`. -/
def headKind (c : Char) : Nat :=
  if c = 'n' then 0
  else if c = 't' then 1
  else if c = 'f' then 2
  else if isNumberChar c then 3
  else if c = dquote then 4
  else if c = '[' then 5
  else if c = '{' then 6
  else 7

/-- Any value but `undefined`. -/
def JsVal.isDefined : JsVal → Bool
  | .undefined => false
  | _ => true

/-! ## Vocabulary of the QR decoding statements -/

/-- The result of `parseQRData` with the reason `Failed to parse QR data`. -/
def parseFailure : JsVal :=
  .obj [("isValid", .bool false), ("error", .str "Failed to parse QR data")]

/-- The result of `parseQRData` with the reason `Invalid QR format`. -/
def formatFailure : JsVal :=
  .obj [("isValid", .bool false), ("error", .str "Invalid QR format")]

/-- The valid result of `parseQRData` for the data object with the properties `fields`. -/
def validResult (fields : List (String × JsVal)) : JsVal :=
  .obj [
    ("version", JsVal.lookup "v" fields),
    ("shortHash", JsVal.lookup "h" fields),
    ("timestamp", JsVal.lookup "t" fields),
    ("algorithm", JsVal.lookup "a" fields),
    ("isValid", .bool true)]

/-- Whether the four properties `v`, `h`, `t` and `a` are all truthy. -/
def allTruthy (fields : List (String × JsVal)) : Bool :=
  (JsVal.lookup "v" fields).truthy && (JsVal.lookup "h" fields).truthy &&
    (JsVal.lookup "t" fields).truthy && (JsVal.lookup "a" fields).truthy

/-- The data object of the QR payload for the short hash `h` and the timestamp `t`. -/
def qrObject (h : String) (t : Int) : JsVal :=
  .obj [("v", .str "1.0"), ("h", .str h), ("t", .num t), ("a", .str "SHA256")]

/-- A text that is empty or starts with a character that ends a number. -/
def EndsNumber (r : List Char) : Prop :=
  ∀ c ∈ r.head?, c.isDigit = false ∧ c ≠ '.' ∧ c ≠ 'e' ∧ c ≠ 'E'

/-- The characters that a number written by `numberToString` can start with. -/
def numberHeads : List Char := "-0123456789".data

/-- A valid hash result captured at the epoch: its timestamp is 0. -/
def epochResult : HashResult :=
  { hash := "0123456789abcdef0123456789abcdef0123456789abcdef0123456789abcdef"
    algorithm := "SHA-256"
    timestamp := 0
    metadata := .obj []
    dataSize := 3
    shortHash := some "0123456789abcdef" }

/-- A valid hash result with a present-day timestamp. -/
def sampleResult : HashResult :=
  { hash := "0123456789abcdef0123456789abcdef0123456789abcdef0123456789abcdef"
    algorithm := "SHA-256"
    timestamp := 1700000000000
    metadata := .obj []
    dataSize := 3
    shortHash := some "0123456789abcdef" }

/-- The length of the QR text as the specification words it: 53 plus the number of
decimal digits of the timestamp. -/
def claimedQRLength (t : Int) : Nat := 53 + (Nat.toDigits 10 t.toNat).length

/-- The validity of a QR text as the specification words it: the text is JSON for an
object with the four fields present, `v` the string `1.0` and `h` a string of 16
hexadecimal digits. -/
def claimedValidQR (text : String) : Bool :=
  match jsonParse text with
  | .ok (.obj fields) =>
    (JsVal.lookup "v" fields).isDefined && (JsVal.lookup "h" fields).isDefined &&
      (JsVal.lookup "t" fields).isDefined && (JsVal.lookup "a" fields).isDefined &&
      strictEqualsString (JsVal.lookup "v" fields) "1.0" &&
      (match JsVal.lookup "h" fields with
        | .str h => isValidShortHashFormat h
        | _ => false)
  | _ => false

/-- A QR text with an unknown version and a short hash that is not hexadecimal. -/
def unknownVersionText : String :=
  "\x7b\"v\":\"9.9\",\"h\":\"xyz\",\"t\":1,\"a\":\"x\"\x7d"

/-- A QR text whose version is the number 1 and whose timestamp is a string. -/
def looseText : String := "\x7b\"v\":1,\"h\":\"xyz\",\"t\":\"soon\",\"a\":true\x7d"

/-- A QR text whose timestamp is written `1e-400`, which is 0 as a double. -/
def underflowText : String :=
  "\x7b\"v\":\"1.0\",\"h\":\"0123456789abcdef\",\"t\":1e-400,\"a\":\"SHA256\"\x7d"

/-! ## Vocabulary of the store statements -/

/-- The first record of `xs`, in store order, that satisfies `p`, as `find` returns it:
`undefined` when there is none. -/
def firstRecord (p : VerificationRecord → Bool) (xs : List VerificationRecord) : JsVal :=
  match xs.find? p with
  | some x => x.toJsVal
  | none => .undefined

/-- The store that holds the records `xs`, the first being the newest. -/
def storeOf (xs : List VerificationRecord) : JsVal := .arr (xs.map VerificationRecord.toJsVal)

/-- Whether every record has the shape `createVerificationRecord` gives it from a SHA-256
digest: a `hash` of 64 hexadecimal digits and its first 16 characters as `shortHash`. -/
def wellFormedStore (xs : List VerificationRecord) : Bool :=
  xs.all fun x => isValidHashFormat x.hash && x.shortHash == substring0 x.hash 16

/-- Whether records with the same `shortHash` have the same `hash`. -/
def distinctShortHashes (xs : List VerificationRecord) : Bool :=
  xs.all fun x => xs.all fun y => x.shortHash != y.shortHash || x.hash == y.hash

/-- Whether a record matches the input in one of the modes of `main-app.js`. -/
def matchesAnyMode (input : String) (x : VerificationRecord) : Bool :=
  x.hash == input || x.shortHash == input || startsWith x.hash input ||
    startsWith input x.shortHash

/-- Whether a record matches the input exactly, by its `hash` or its `shortHash`. -/
def matchesExactly (input : String) (x : VerificationRecord) : Bool :=
  x.hash == input || x.shortHash == input

/-- A record of a first capture. -/
def firstCapture : VerificationRecord :=
  createVerificationRecord "m1abc" {
    hash := "abcdef0123456789abcdef0123456789abcdef0123456789abcdef0123456789"
    algorithm := "SHA-256"
    timestamp := 1700000000000
    metadata := .obj []
    dataSize := 3 } "data:image/jpeg;base64,AAAA"

/-- A record of a second capture, whose digest starts with the same 16 characters as the
digest of `firstCapture`. -/
def secondCapture : VerificationRecord :=
  createVerificationRecord "m2abc" {
    hash := "abcdef0123456789ffffffffffffffffffffffffffffffffffffffffffffffff"
    algorithm := "SHA-256"
    timestamp := 1700000000001
    metadata := .obj []
    dataSize := 3 } "data:image/jpeg;base64,BBBB"

/-- A record of a third capture, whose digest shares no prefix with the other two. -/
def thirdCapture : VerificationRecord :=
  createVerificationRecord "m3abc" {
    hash := "0123456789abcdef0123456789abcdef0123456789abcdef0123456789abcdef"
    algorithm := "SHA-256"
    timestamp := 1700000000002
    metadata := .obj []
    dataSize := 3 } "data:image/jpeg;base64,CCCC"

/-- The digest of `firstCapture` written in upper case. -/
def upperCaseInput : String :=
  "ABCDEF0123456789ABCDEF0123456789ABCDEF0123456789ABCDEF0123456789"

/-! ## Vocabulary of the capture, scan and persistence statements -/

/-- The hash result from which `firstCapture` was built. -/
def firstHashResult : HashResult :=
  { hash := "abcdef0123456789abcdef0123456789abcdef0123456789abcdef0123456789"
    algorithm := "SHA-256"
    timestamp := 1700000000000
    metadata := .obj []
    dataSize := 3 }

/-- The scan result of a QR scanner for the text `text`. -/
def scanOf (text : String) : JsVal := .obj [("data", .str text), ("timestamp", .num 1700000000500)]

/-- The record that a scan matches as the specification words it: none for a payload
that `parseQRData` rejects, else the record that the lookup of the payload's short hash
in the store finds. -/
def claimedScanMatch (records : JsVal) (text : String) : Except String JsVal :=
  match parseQRData text with
  | .obj fields =>
    if (JsVal.lookup "isValid" fields).truthy then
      match JsVal.lookup "shortHash" fields with
      | .str shortHash => AppController.findRecordByHash records shortHash
      | _ => .ok .undefined
    else .ok .undefined
  | _ => .ok .undefined

/-- An app state with the store `records` and an empty, writable browser storage. -/
def appWith (records : JsVal) : AppState :=
  { verificationRecords := records, localStorage := { items := [], writable := true } }

/-- An app state with the empty store and the text `stored` in the browser storage. -/
def appStoring (stored : String) : AppState :=
  { verificationRecords := .arr []
    localStorage := { items := [("snaphashqr_records", stored)], writable := true } }

/-- A fresh app object with the browser storage that `saveRecords` left. -/
def freshAfterSave (app : AppState) : AppState :=
  { verificationRecords := .arr [], localStorage := (saveRecords app).localStorage }

/-- A record after a successful verification as the specification words it: its
`verificationCount` is one more. -/
def claimedAfterMatch (r : VerificationRecord) : VerificationRecord :=
  { r with verificationCount := r.verificationCount + 1 }

/-- A streaming camera of 640 by 480 pixels. -/
def sampleCamera : CameraCapture :=
  { stream := some ⟨.obj [("deviceId", .str "cam-a"), ("width", .num 640), ("height", .num 480)]⟩
    isStreaming := true
    width := .num 640
    height := .num 480 }

/-- A streaming camera of 1280 by 720 pixels with the stream of `sampleCamera`. -/
def wideCamera : CameraCapture :=
  { sampleCamera with width := .num 1280, height := .num 720 }

/-- The browser of the end-to-end scenario of the specification. -/
def sampleBrowser : Browser :=
  { isoTime := "2024-01-01T00:00:00.000Z"
    userAgent := "X"
    platform := "Y"
    devicePixelRatio := .num 2
    screenWidth := .num 1080
    screenHeight := .num 2400 }

/-- A digest that returns 32 bytes, the number of the bytes it is given among them. -/
def sampleDigest : Digest := fun bytes =>
  .ok (List.replicate 31 171 ++ [bytes.length % 256])

/-- A drawing of the QR code that succeeds. -/
def sampleDraw : String → Except String String := fun _ => .ok "data:image/png;base64,QQ=="

/-- The image part of the canonical string: what `createCombinedData` writes before the
separator `|`. -/
def imagePart (imageData : String) : String :=
  concatOperand (if startsWith imageData "data:" then (split imageData ',')[1]? else
    some imageData)

/-- A metadata object whose `userAgent` holds the letter e with an acute accent. -/
def accentedMetadata : JsVal := .obj [("userAgent", .str "café")]

/-- Two video cameras and a microphone, as `enumerateDevices` lists them. -/
def twoCameras : List MediaDeviceInfo :=
  [⟨"cam-a", "videoinput", "Front"⟩, ⟨"mic", "audioinput", "Mic"⟩,
    ⟨"cam-b", "videoinput", "Back"⟩]

/-- A `getUserMedia` that gives a stream of the device asked for. -/
def sampleUserMedia : String → Except String MediaStream := fun deviceId =>
  .ok ⟨.obj [("deviceId", .str deviceId)]⟩

/-- Whether a value can be converted to a string: it is no object with an own property
`toString` and no array that holds such an object. -/
def JsVal.convertible (v : JsVal) : Bool :=
  match v.toChars with
  | .ok _ => true
  | .error _ => false

/-- Whether the fields of the decoded payload that `displayVerificationResult` of
`app-controller.js` writes into the page can be written: the page lacks the result
elements, or `h`, `a` and `t` of the payload can be converted to strings. -/
def scanRenders (resultElements : Bool) (text : String) : Bool :=
  match jsonParse text with
  | .ok (.obj data) =>
    !resultElements || ((JsVal.lookup "h" data).convertible &&
      (JsVal.lookup "a" data).convertible && (JsVal.lookup "t" data).convertible)
  | _ => true

/-- The object that `handleQRScanResult` of `app-controller.js` passes to
`displayVerificationResult`. -/
def scanData (text : String) (result : JsVal) (now : Int) : JsVal :=
  .obj [
    ("type", .str "qr_scan"),
    ("qrInfo", parseQRData text),
    ("scanResult", result),
    ("timestamp", .num now)]

/-- A QR text whose `h` is an object with the property `toString`. -/
def unprintableText : String :=
  "\x7b\"v\":\"1.0\",\"h\":\x7b\"toString\":1\x7d,\"t\":1700000000000,\"a\":\"SHA256\"\x7d"

/-- A record whose `timestamp` is an object with the property `toString`, as a stored text
can hold it. -/
def unprintableRecord : JsVal :=
  .obj [
    ("hash", .str "abcdef0123456789abcdef0123456789abcdef0123456789abcdef0123456789"),
    ("shortHash", .str "abcdef0123456789"),
    ("timestamp", .obj [("toString", .num 1)]),
    ("verificationCount", .num 1)]

/-! ## Properties -/

/-! ### The canonical string: determinism, key order, missing inputs -/

theorem createCombinedData_congr (imageData : String) (m₁ m₂ : JsVal)
    (h : ∀ k ∈ includedFields, m₁.getProp k = m₂.getProp k) :
    createCombinedData imageData m₁ = createCombinedData imageData m₂ := by
  have h1 := h "timestamp" (by simp [includedFields])
  have h2 := h "userAgent" (by simp [includedFields])
  have h3 := h "platform" (by simp [includedFields])
  have h4 := h "devicePixelRatio" (by simp [includedFields])
  have h5 := h "screenResolution" (by simp [includedFields])
  have h6 := h "dimensions" (by simp [includedFields])
  simp only [createCombinedData, h1, h2, h3, h4, h5, h6]

/-- C1. The hash computed by `generateImageHash` depends only on the image data and on
the six metadata properties read by `createCombinedData`: for two metadata values that
agree on them, whatever their other properties, two calls at any two times have the
same outcome with the same hash; the two results differ at most in `timestamp` (and in
`metadata`, which is the argument itself).  Two properties agree when they hold the same
value, an object value being its properties in their enumeration order. -/
theorem generateImageHash_deterministic (digest : Digest) (now₁ now₂ : Int)
    (imageData : String) (m₁ m₂ : JsVal)
    (h : ∀ k ∈ includedFields, m₁.getProp k = m₂.getProp k) :
    (generateImageHash digest now₁ imageData m₁).map (fun r => r.hash) =
      (generateImageHash digest now₂ imageData m₂).map (fun r => r.hash) ∧
    (generateImageHash digest now₁ imageData m₁).map
        (fun r => { r with timestamp := now₂, metadata := m₂ }) =
      generateImageHash digest now₂ imageData m₂ := by
  constructor
  · simp only [generateImageHash, createCombinedData_congr imageData m₁ m₂ h]
    cases createCombinedData imageData m₂ with
    | error e => rfl
    | ok s =>
      dsimp only
      cases digest (textEncode s) <;> rfl
  · simp only [generateImageHash, createCombinedData_congr imageData m₁ m₂ h]
    cases createCombinedData imageData m₂ with
    | error e => rfl
    | ok s =>
      dsimp only
      cases digest (textEncode s) <;> rfl

/-- C1, at two metadata objects that differ in the excluded properties `videoSettings`
and `captureTime` and in the order of their keys, at the times 1000 and 2000. -/
theorem generateImageHash_deterministic_witness :
    (∀ k ∈ includedFields,
      (JsVal.obj [("timestamp", .str "2024-01-01T00:00:00Z"), ("platform", .str "Y"),
          ("videoSettings", .obj [("frameRate", .num 30)])]).getProp k =
        (JsVal.obj [("captureTime", .num 5), ("platform", .str "Y"),
          ("timestamp", .str "2024-01-01T00:00:00Z")]).getProp k) ∧
      (generateImageHash (fun bytes => .ok (bytes.take 32)) 1000 "AAAA"
          (.obj [("timestamp", .str "2024-01-01T00:00:00Z"), ("platform", .str "Y"),
            ("videoSettings", .obj [("frameRate", .num 30)])])).map (fun r => r.hash) =
        (generateImageHash (fun bytes => .ok (bytes.take 32)) 2000 "AAAA"
          (.obj [("captureTime", .num 5), ("platform", .str "Y"),
            ("timestamp", .str "2024-01-01T00:00:00Z")])).map (fun r => r.hash) :=
  have hyp : ∀ k ∈ includedFields,
      (JsVal.obj [("timestamp", .str "2024-01-01T00:00:00Z"), ("platform", .str "Y"),
          ("videoSettings", .obj [("frameRate", .num 30)])]).getProp k =
        (JsVal.obj [("captureTime", .num 5), ("platform", .str "Y"),
          ("timestamp", .str "2024-01-01T00:00:00Z")]).getProp k := by
    intro k hk
    simp only [includedFields, List.mem_cons, List.mem_singleton, List.not_mem_nil,
      or_false] at hk
    rcases hk with rfl | rfl | rfl | rfl | rfl | rfl <;> rfl
  ⟨hyp, (generateImageHash_deterministic _ 1000 2000 "AAAA" _ _ hyp).1⟩

theorem lookup_perm (k : String) {l₁ l₂ : List (String × JsVal)} (hp : l₁.Perm l₂)
    (hn : (l₁.map Prod.fst).Nodup) : JsVal.lookup k l₁ = JsVal.lookup k l₂ := by
  induction hp with
  | nil => rfl
  | cons x _ ih =>
    obtain ⟨kx, vx⟩ := x
    simp only [List.map_cons, List.nodup_cons] at hn
    simp only [JsVal.lookup, ih hn.2]
  | swap x y l =>
    obtain ⟨kx, vx⟩ := x
    obtain ⟨ky, vy⟩ := y
    simp only [List.map_cons, List.nodup_cons, List.mem_cons, not_or] at hn
    simp only [JsVal.lookup]
    by_cases h1 : ky = k
    · by_cases h2 : kx = k
      · exact absurd (h1.trans h2.symm) hn.1.1
      · simp [h1, h2]
    · simp [h1]
  | trans h₁ _ ih₁ ih₂ =>
    exact (ih₁ hn).trans (ih₂ ((h₁.map Prod.fst).nodup_iff.mp hn))

theorem createCombinedData_obj (imageData : String) (fields : List (String × JsVal)) :
    ∃ text, jsonStringify (canonicalMetadata fields) = some text ∧
      createCombinedData imageData (.obj fields) =
        .ok (concatOperand (if startsWith imageData "data:" then (split imageData ',')[1]?
          else some imageData) ++ "|" ++ text) := by
  refine ⟨_, rfl, ?_⟩
  simp only [createCombinedData, JsVal.getProp, bind, Except.bind, pure, Except.pure,
    JsVal.or, canonicalMetadata, jsonStringify, serializeJSONProperty, Option.map, concatOperand]

/-- C2 as stated fails when `dimensions` is present and falsy: for `dimensions: 0` (and
likewise `null`) the code writes `"imageSize":{}`, the statement `"imageSize":0`
(`"imageSize":null`). -/
theorem createCombinedData_falsy_dimensions :
    createCombinedData "AAAA" (.obj [("platform", .str "Y"), ("dimensions", .num 0)]) =
        .ok "AAAA|\x7b\"platform\":\"Y\",\"imageSize\":\x7b\x7d\x7d" ∧
      claimedCombinedData "AAAA" [("platform", .str "Y"), ("dimensions", .num 0)] =
        "AAAA|\x7b\"platform\":\"Y\",\"imageSize\":0\x7d" ∧
      createCombinedData "AAAA" (.obj [("platform", .str "Y"), ("dimensions", .num 0)]) ≠
        .ok (claimedCombinedData "AAAA" [("platform", .str "Y"), ("dimensions", .num 0)]) ∧
      createCombinedData "AAAA" (.obj [("dimensions", .null)]) ≠
        .ok (claimedCombinedData "AAAA" [("dimensions", .null)]) := by
  refine ⟨rfl, rfl, ?_, ?_⟩
  · intro h
    have h' : (Except.ok "AAAA|\x7b\"platform\":\"Y\",\"imageSize\":\x7b\x7d\x7d" : Except String String) =
        .ok "AAAA|\x7b\"platform\":\"Y\",\"imageSize\":0\x7d" := h
    exact absurd (Except.ok.inj h') (by decide)
  · intro h
    have h' : (Except.ok "AAAA|\x7b\"imageSize\":\x7b\x7d\x7d" : Except String String) =
        .ok "AAAA|\x7b\"imageSize\":null\x7d" := h
    exact absurd (Except.ok.inj h') (by decide)

/-- C2, amended. For image data without the `data:` prefix and a metadata object,
`createCombinedData` returns the image data, the separator `|` and the JSON text of the
object with the keys `timestamp`, `userAgent`, `platform`, `devicePixelRatio`,
`screenResolution`, `imageSize` in this order, where `imageSize` is
`metadata.dimensions` when that is truthy and `{}` when it is absent or falsy; listing
the properties of the metadata object in another order does not change the output. -/
theorem createCombinedData_canonical (imageData : String) (fields : List (String × JsVal))
    (hplain : startsWith imageData "data:" = false) :
    (∃ text, jsonStringify (canonicalMetadata fields) = some text ∧
      createCombinedData imageData (.obj fields) = .ok (imageData ++ "|" ++ text)) ∧
    ∀ fields' : List (String × JsVal), fields'.Perm fields →
      (fields.map Prod.fst).Nodup →
      createCombinedData imageData (.obj fields') = createCombinedData imageData (.obj fields) := by
  constructor
  · obtain ⟨text, h1, h2⟩ := createCombinedData_obj imageData fields
    refine ⟨text, h1, ?_⟩
    rw [h2, hplain]
    rfl
  · intro fields' hp hn
    apply createCombinedData_congr
    intro k _
    simp only [JsVal.getProp]
    rw [lookup_perm k hp ((hp.map Prod.fst).nodup_iff.mpr hn)]

/-- C2, amended, at a metadata object that lists its properties in another order and
carries an excluded property: the keys come out in the fixed order. -/
theorem createCombinedData_canonical_witness :
    startsWith "AAAA" "data:" = false ∧
      createCombinedData "AAAA" (.obj [("dimensions", .obj [("width", .num 640)]),
          ("videoSettings", .null), ("screenResolution", .obj []), ("devicePixelRatio", .num 2),
          ("platform", .str "Y"), ("userAgent", .str "X"), ("timestamp", .str "T")]) =
        .ok ("AAAA|\x7b\"timestamp\":\"T\",\"userAgent\":\"X\",\"platform\":\"Y\"," ++
          "\"devicePixelRatio\":2,\"screenResolution\":\x7b\x7d,\"imageSize\":\x7b\"width\":640\x7d\x7d") ∧
      ∃ text, jsonStringify (canonicalMetadata [("platform", .str "Y")]) = some text ∧
        createCombinedData "AAAA" (.obj [("platform", .str "Y")]) = .ok ("AAAA" ++ "|" ++ text) :=
  ⟨rfl, rfl, (createCombinedData_canonical "AAAA" [("platform", .str "Y")] rfl).1⟩

theorem createCombinedData_error_iff (imageData : String) (metadata : JsVal) :
    (∃ e, createCombinedData imageData metadata = .error e) ↔
      (metadata = .undefined ∨ metadata = .null) := by
  constructor
  · rintro ⟨e, he⟩
    cases metadata with
    | undefined => exact Or.inl rfl
    | null => exact Or.inr rfl
    | obj fields =>
      obtain ⟨_, _, h⟩ := createCombinedData_obj imageData fields
      rw [h] at he
      cases he
    | bool _ => cases he
    | num _ => cases he
    | frac _ _ => cases he
    | str _ => cases he
    | arr _ => cases he
  · rintro (rfl | rfl) <;> exact ⟨_, rfl⟩

/-- C4 as stated fails: for the empty image data and a metadata object without any of
the context fields `createCombinedData` returns a canonical string, and
`generateImageHash` computes a digest of it. -/
theorem createCombinedData_accepts_bad_inputs :
    createCombinedData "" (.obj []) = .ok "|\x7b\"imageSize\":\x7b\x7d\x7d" ∧
      (generateImageHash (fun bytes => .ok (bytes.take 2)) 7 "" (.obj [])).map
        (fun r => r.hash) = .ok "7c7b" :=
  ⟨rfl, rfl⟩

/-- C4, amended. `createCombinedData` does not validate its inputs: it fails exactly when
the metadata is `undefined` or `null` (the property read throws); for every image data,
the empty string included, and every metadata object, whichever context fields it
lacks, it returns a canonical string, and `generateImageHash` hands the bytes of that
string to the digest, failing only if the digest fails. -/
theorem createCombinedData_no_validation (digest : Digest) (now : Int) (imageData : String)
    (metadata : JsVal) :
    ((∃ e, createCombinedData imageData metadata = .error e) ↔
      (metadata = .undefined ∨ metadata = .null)) ∧
    (∀ fields, ∃ text, jsonStringify (canonicalMetadata fields) = some text ∧
      createCombinedData "" (.obj fields) = .ok ("|" ++ text)) ∧
    (∀ fields, ∃ s, createCombinedData imageData (.obj fields) = .ok s ∧
      generateImageHash digest now imageData (.obj fields) =
        match digest (textEncode s) with
        | .error e => .error ("Failed to generate hash: " ++ e)
        | .ok hashBuffer =>
          .ok { hash := bytesToHex hashBuffer
                algorithm := algorithm
                timestamp := now
                metadata := .obj fields
                dataSize := jsLength s }) := by
  refine ⟨createCombinedData_error_iff imageData metadata, ?_, ?_⟩
  · intro fields
    obtain ⟨text, h1, h2⟩ := createCombinedData_obj "" fields
    exact ⟨text, h1, h2⟩
  · intro fields
    obtain ⟨text, _, h2⟩ := createCombinedData_obj imageData fields
    refine ⟨_, h2, ?_⟩
    simp only [generateImageHash, h2]

/-! ### The format predicates -/

set_option maxRecDepth 100000 in
theorem classMatches_ascii : ∀ n, n < 128 →
    classMatches hexClass (Char.ofNat n) = decide (Char.ofNat n ∈ hexDigits) := by
  decide

theorem classMatches_hexClass (c : Char) : classMatches hexClass c = true ↔ c ∈ hexDigits := by
  by_cases h : c.toNat < 128
  · have := classMatches_ascii c.toNat h
    rw [Char.ofNat_toNat] at this
    rw [this]
    simp
  · have h1 : ∀ a ∈ hexDigits, a.toNat < 128 := by decide
    have h2 : ∀ a ∈ hexClass, (canonicalize a).toNat < 128 := by decide
    have h3 : canonicalize c = c := by
      simp only [canonicalize, Char.toUpper]
      rw [if_neg]
      omega
    constructor
    · intro hm
      simp only [classMatches, List.any_eq_true, beq_iff_eq] at hm
      obtain ⟨a, ha, hac⟩ := hm
      have := h2 a ha
      rw [hac, h3] at this
      exact absurd this h
    · intro hm
      exact absurd (h1 c hm) h

theorem matchRepeat_eq_some (cls : List Char) (n : Nat) (l r : List Char) :
    matchRepeat cls n l = some r ↔
      ∃ p, l = p ++ r ∧ p.length = n ∧ ∀ c ∈ p, classMatches cls c = true := by
  induction n generalizing l with
  | zero =>
    simp only [matchRepeat, Option.some.injEq, List.length_eq_zero]
    constructor
    · rintro rfl
      exact ⟨[], rfl, rfl, by simp⟩
    · rintro ⟨p, rfl, rfl, _⟩
      rfl
  | succ n ih =>
    cases l with
    | nil =>
      simp only [matchRepeat]
      constructor
      · intro h; cases h
      · rintro ⟨p, hp, hl, _⟩
        cases p with
        | nil => simp at hl
        | cons _ _ => simp at hp
    | cons c rest =>
      simp only [matchRepeat]
      by_cases hc : classMatches cls c = true
      · simp only [hc, if_true, ih]
        constructor
        · rintro ⟨p, rfl, hl, hall⟩
          refine ⟨c :: p, rfl, by simp [hl], ?_⟩
          intro x hx
          rcases List.mem_cons.mp hx with rfl | hx
          · exact hc
          · exact hall x hx
        · rintro ⟨p, hp, hl, hall⟩
          cases p with
          | nil => simp at hl
          | cons x p =>
            simp only [List.cons_append, List.cons.injEq] at hp
            obtain ⟨rfl, rfl⟩ := hp
            exact ⟨p, rfl, by simpa using hl, fun y hy => hall y (List.mem_cons_of_mem _ hy)⟩
      · simp only [hc]
        constructor
        · intro h; cases h
        · rintro ⟨p, hp, hl, hall⟩
          cases p with
          | nil => simp at hl
          | cons x p =>
            simp only [List.cons_append, List.cons.injEq] at hp
            obtain ⟨rfl, rfl⟩ := hp
            exact absurd (hall c (List.mem_cons_self _ _)) hc

theorem testAnchoredRepeat_hex (n : Nat) (s : String) :
    testAnchoredRepeat hexClass n s = true ↔ s.length = n ∧ ∀ c ∈ s.data, c ∈ hexDigits := by
  have key := matchRepeat_eq_some hexClass n s.data []
  simp only [List.append_nil, exists_eq_left'] at key
  unfold testAnchoredRepeat
  split
  · next h =>
    simp only [true_iff]
    obtain ⟨hl, hall⟩ := key.mp h
    exact ⟨hl, fun c hc => (classMatches_hexClass c).mp (hall c hc)⟩
  · next h =>
    simp only [false_iff, Bool.false_eq_true]
    rintro ⟨hl, hall⟩
    exact h (key.mpr ⟨hl, fun c hc => (classMatches_hexClass c).mpr (hall c hc)⟩)

/-- C8. `isValidHashFormat s` holds exactly when `s` has 64 characters, each of them one
of `0`-`9`, `a`-`f`, `A`-`F`; in particular a valid string followed by a newline is
rejected. -/
theorem isValidHashFormat_iff (s : String) :
    (isValidHashFormat s = true ↔ s.length = 64 ∧ ∀ c ∈ s.data, c ∈ hexDigits) ∧
      (isValidHashFormat s && isValidHashFormat (s ++ "\n")) = false := by
  have h1 := testAnchoredRepeat_hex 64 s
  have h2 := testAnchoredRepeat_hex 64 (s ++ "\n")
  refine ⟨h1, ?_⟩
  rw [Bool.and_eq_false_iff, ← Bool.not_eq_true, ← Bool.not_eq_true]
  by_cases hs : isValidHashFormat s = true
  · right
    intro hn
    have l1 := (h1.mp hs).1
    have l2 := (h2.mp hn).1
    simp only [String.length_append] at l2
    rw [l1] at l2
    exact absurd l2 (by decide)
  · exact Or.inl hs

/-- C9. `isValidShortHashFormat s` holds exactly when `s` has 16 characters, each of them
one of `0`-`9`, `a`-`f`, `A`-`F`; no string has both the short and the full format. -/
theorem isValidShortHashFormat_iff (s : String) :
    (isValidShortHashFormat s = true ↔ s.length = 16 ∧ ∀ c ∈ s.data, c ∈ hexDigits) ∧
      (isValidShortHashFormat s && isValidHashFormat s) = false := by
  have h1 := testAnchoredRepeat_hex 16 s
  have h2 := testAnchoredRepeat_hex 64 s
  refine ⟨h1, ?_⟩
  rw [Bool.and_eq_false_iff, ← Bool.not_eq_true, ← Bool.not_eq_true]
  by_cases hs : isValidShortHashFormat s = true
  · right
    intro hn
    have l1 := (h1.mp hs).1
    have l2 := (h2.mp hn).1
    rw [l1] at l2
    exact absurd l2 (by decide)
  · exact Or.inl hs

/-! ### The hexadecimal digest, the short hash and verification -/

theorem toDigitsCore_mem (b : Nat) (hb : 0 < b) (fuel n : Nat) (ds : List Char) (c : Char)
    (hc : c ∈ Nat.toDigitsCore b fuel n ds) : c ∈ ds ∨ ∃ d, d < b ∧ c = Nat.digitChar d := by
  induction fuel generalizing n ds with
  | zero => exact Or.inl hc
  | succ fuel ih =>
    simp only [Nat.toDigitsCore] at hc
    split at hc
    · rcases List.mem_cons.mp hc with rfl | h
      · exact Or.inr ⟨n % b, Nat.mod_lt _ hb, rfl⟩
      · exact Or.inl h
    · rcases ih _ _ hc with h | h
      · rcases List.mem_cons.mp h with rfl | h
        · exact Or.inr ⟨n % b, Nat.mod_lt _ hb, rfl⟩
        · exact Or.inl h
      · exact Or.inr h

theorem toDigits_mem (b : Nat) (hb : 0 < b) (n : Nat) (c : Char) (hc : c ∈ Nat.toDigits b n) :
    ∃ d, d < b ∧ c = Nat.digitChar d := by
  rcases toDigitsCore_mem b hb _ _ _ c hc with h | h
  · cases h
  · exact h

theorem digitChar_lowerHex : ∀ d, d < 16 → Nat.digitChar d ∈ lowerHexDigits := by decide

theorem lowerHex_props : ∀ c ∈ lowerHexDigits, c ∈ hexDigits ∧ c.toLower = c ∧ utf16Units c = 1 := by
  decide

set_option maxRecDepth 100000 in
theorem hexPair : ∀ b, b < 256 →
    List.replicate (2 - (Nat.toDigits 16 b).length) '0' ++ Nat.toDigits 16 b =
      [Nat.digitChar (b / 16), Nat.digitChar (b % 16)] := by
  decide

theorem bytesToHex_mem (bytes : List Nat) (c : Char) (hc : c ∈ (bytesToHex bytes).data) :
    c ∈ lowerHexDigits := by
  simp only [bytesToHex, List.mem_flatMap, List.mem_append, List.mem_replicate] at hc
  obtain ⟨b, _, h | h⟩ := hc
  · rw [h.2]
    decide
  · obtain ⟨d, hd, rfl⟩ := toDigits_mem 16 (by decide) b c h
    exact digitChar_lowerHex d hd

theorem bytesToHex_data (bytes : List Nat) (hbyte : ∀ b ∈ bytes, b < 256) :
    (bytesToHex bytes).data =
      bytes.flatMap fun b => [Nat.digitChar (b / 16), Nat.digitChar (b % 16)] := by
  induction bytes with
  | nil => rfl
  | cons b bs ih =>
    have hb := hexPair b (hbyte b (List.mem_cons_self _ _))
    have := ih (fun x hx => hbyte x (List.mem_cons_of_mem _ hx))
    simp only [bytesToHex, List.flatMap_cons] at this ⊢
    rw [this, hb]

theorem toLowerCase_bytesToHex (bytes : List Nat) :
    toLowerCase (bytesToHex bytes) = bytesToHex bytes := by
  have h : ∀ l : List Char, (∀ c ∈ l, c ∈ lowerHexDigits) → l.map Char.toLower = l := by
    intro l hl
    induction l with
    | nil => rfl
    | cons c l ih =>
      simp only [List.map_cons, List.cons.injEq]
      exact ⟨(lowerHex_props c (hl c (List.mem_cons_self _ _))).2.1,
        ih (fun x hx => hl x (List.mem_cons_of_mem _ hx))⟩
  simp only [toLowerCase]
  rw [h _ (bytesToHex_mem bytes)]

theorem takeUnits_eq_take (n : Nat) (l : List Char) (hl : ∀ c ∈ l, utf16Units c = 1) :
    takeUnits n l = l.take n := by
  induction l generalizing n with
  | nil => simp [takeUnits]
  | cons c l ih =>
    have hc := hl c (List.mem_cons_self _ _)
    simp only [takeUnits, hc]
    cases n with
    | zero => simp
    | succ n =>
      simp only [Nat.le_add_left, if_true, Nat.add_sub_cancel, List.take_succ_cons]
      rw [ih _ (fun x hx => hl x (List.mem_cons_of_mem _ hx))]

theorem jsLength_eq_length (s : String) (hs : ∀ c ∈ s.data, utf16Units c = 1) :
    jsLength s = s.length := by
  have h : ∀ l : List Char, (∀ c ∈ l, utf16Units c = 1) → (l.map utf16Units).sum = l.length := by
    intro l hl
    induction l with
    | nil => rfl
    | cons c l ih =>
      simp only [List.map_cons, List.sum_cons, List.length_cons,
        hl c (List.mem_cons_self _ _), ih (fun x hx => hl x (List.mem_cons_of_mem _ hx))]
      omega
  exact h _ hs

/-- C5. Whenever `generateShortHash` returns, its result has `fullHash` equal to `hash`
(the hash of `generateImageHash`) and `shortHash` equal to the first 16 characters of
it, and it returns whenever `generateImageHash` does; every record built by
`createVerificationRecord` has `shortHash` equal to the first 16 characters of its
`hash`. -/
theorem shortHash_derivation :
    (∀ (digest : Digest) (now : Int) (imageData : String) (metadata : JsVal),
      match generateImageHash digest now imageData metadata with
      | .ok full =>
        ∃ r, generateShortHash digest now imageData metadata = .ok r ∧
          r.hash = full.hash ∧ r.fullHash = some r.hash ∧
          r.shortHash = some (substring0 r.hash 16)
      | .error e => generateShortHash digest now imageData metadata = .error e) ∧
    ∀ (id : String) (hashResult : HashResult) (imageData : String),
      (createVerificationRecord id hashResult imageData).shortHash =
        substring0 (createVerificationRecord id hashResult imageData).hash 16 := by
  constructor
  · intro digest now imageData metadata
    cases h : generateImageHash digest now imageData metadata with
    | error e => simp only [generateShortHash, h]
    | ok full =>
      refine ⟨{ full with shortHash := some (substring0 full.hash 16)
                          fullHash := some full.hash }, ?_, rfl, rfl, rfl⟩
      simp only [generateShortHash, h]
  · intro id hashResult imageData
    rfl

/-- C6. For 32 digest bytes, the hexadecimal conversion of `generateImageHash` writes
every byte as its two hexadecimal digits, in order: the hash has 64 characters, all in
`0`-`9`, `a`-`f`; it has the full hash format and its first 16 characters have the short
format.  This conversion is the `hash` that `generateImageHash` returns when the
digest returns these bytes. -/
theorem digest_hex_format (bytes : List Nat) (hlen : bytes.length = 32)
    (hbyte : ∀ b ∈ bytes, b < 256) :
    (bytesToHex bytes).data =
        bytes.flatMap (fun b => [Nat.digitChar (b / 16), Nat.digitChar (b % 16)]) ∧
      (bytesToHex bytes).length = 64 ∧ jsLength (bytesToHex bytes) = 64 ∧
      (∀ c ∈ (bytesToHex bytes).data, c ∈ lowerHexDigits) ∧
      isValidHashFormat (bytesToHex bytes) = true ∧
      isValidShortHashFormat (substring0 (bytesToHex bytes) 16) = true ∧
      ∀ (digest : Digest) (now : Int) (imageData : String) (metadata : JsVal) (s : String),
        createCombinedData imageData metadata = .ok s → digest (textEncode s) = .ok bytes →
        ∃ r, generateImageHash digest now imageData metadata = .ok r ∧
          r.hash = bytesToHex bytes := by
  have hdata := bytesToHex_data bytes hbyte
  have hmem := bytesToHex_mem bytes
  have hunits : ∀ c ∈ (bytesToHex bytes).data, utf16Units c = 1 :=
    fun c hc => (lowerHex_props c (hmem c hc)).2.2
  have hl : (bytesToHex bytes).length = 64 := by
    have : ∀ l : List Nat,
        (l.flatMap fun b => [Nat.digitChar (b / 16), Nat.digitChar (b % 16)]).length =
          2 * l.length := by
      intro l
      induction l with
      | nil => rfl
      | cons b l ih => simp only [List.flatMap_cons, List.length_append, ih, List.length_cons,
          List.length_nil]; omega
    show (bytesToHex bytes).data.length = 64
    rw [hdata, this, hlen]
  refine ⟨hdata, hl, ?_, hmem, ?_, ?_, ?_⟩
  · rw [jsLength_eq_length _ hunits, hl]
  · exact (testAnchoredRepeat_hex 64 _).mpr ⟨hl, fun c hc => (lowerHex_props c (hmem c hc)).1⟩
  · refine (testAnchoredRepeat_hex 16 _).mpr ⟨?_, ?_⟩
    · show (takeUnits 16 (bytesToHex bytes).data).length = 16
      rw [takeUnits_eq_take _ _ hunits, List.length_take]
      have : (bytesToHex bytes).data.length = 64 := hl
      omega
    · intro c hc
      have hc' : c ∈ takeUnits 16 (bytesToHex bytes).data := hc
      rw [takeUnits_eq_take _ _ hunits] at hc'
      exact (lowerHex_props c (hmem c (List.mem_of_mem_take hc'))).1
  · intro digest now imageData metadata s hs hd
    refine ⟨{ hash := bytesToHex bytes, algorithm := algorithm, timestamp := now,
              metadata := metadata, dataSize := jsLength s }, ?_, rfl⟩
    simp only [generateImageHash, hs, hd]

/-- C6 at the digest bytes `0, 1, ..., 15, 240, 241, ..., 255`. -/
theorem digest_hex_format_witness :
    ([0, 1, 2, 3, 4, 5, 6, 7, 8, 9, 10, 11, 12, 13, 14, 15, 240, 241, 242, 243, 244, 245,
        246, 247, 248, 249, 250, 251, 252, 253, 254, 255] : List Nat).length = 32 ∧
      (∀ b ∈ ([0, 1, 2, 3, 4, 5, 6, 7, 8, 9, 10, 11, 12, 13, 14, 15, 240, 241, 242, 243, 244,
        245, 246, 247, 248, 249, 250, 251, 252, 253, 254, 255] : List Nat), b < 256) ∧
      bytesToHex [0, 1, 2, 3, 4, 5, 6, 7, 8, 9, 10, 11, 12, 13, 14, 15, 240, 241, 242, 243,
          244, 245, 246, 247, 248, 249, 250, 251, 252, 253, 254, 255] =
        "000102030405060708090a0b0c0d0e0ff0f1f2f3f4f5f6f7f8f9fafbfcfdfeff" ∧
      isValidHashFormat (bytesToHex [0, 1, 2, 3, 4, 5, 6, 7, 8, 9, 10, 11, 12, 13, 14, 15,
          240, 241, 242, 243, 244, 245, 246, 247, 248, 249, 250, 251, 252, 253, 254, 255]) =
        true :=
  ⟨by decide, by decide, by decide,
    (digest_hex_format [0, 1, 2, 3, 4, 5, 6, 7, 8, 9, 10, 11, 12, 13, 14, 15, 240, 241, 242,
      243, 244, 245, 246, 247, 248, 249, 250, 251, 252, 253, 254, 255]
      (by decide) (by decide)).2.2.2.2.1⟩

/-- C7. `verifyHash` recomputes the hash with `generateImageHash` and compares it with
the lower-cased claimed value: `isValid` is true exactly when the lower-cased claimed
value equals the recomputed hash, `generatedHash` is the recomputed hash, and a claimed
value that differs from the recomputed hash in letter case only is accepted. -/
theorem verifyHash_recomputes (digest : Digest) (genNow now : Int) (imageData : String)
    (metadata : JsVal) (providedHash : String) :
    match generateImageHash digest genNow imageData metadata with
    | .ok g =>
      (∃ v, verifyHash digest genNow now imageData metadata providedHash = .ok v ∧
        (v.isValid = true ↔ toLowerCase providedHash = g.hash) ∧
        v.generatedHash = g.hash) ∧
      ∀ q, toLowerCase q = toLowerCase g.hash →
        (verifyHash digest genNow now imageData metadata q).map (fun v => v.isValid) =
          .ok true
    | .error e =>
      verifyHash digest genNow now imageData metadata providedHash =
        .error ("Failed to verify hash: " ++ e) := by
  cases h : generateImageHash digest genNow imageData metadata with
  | error e => simp only [verifyHash, h]
  | ok g =>
    have hlow : toLowerCase g.hash = g.hash := by
      simp only [generateImageHash] at h
      cases hc : createCombinedData imageData metadata with
      | error e => rw [hc] at h; cases h
      | ok s =>
        rw [hc] at h
        dsimp only at h
        cases hd : digest (textEncode s) with
        | error e => rw [hd] at h; cases h
        | ok bytes =>
          rw [hd] at h
          cases h
          exact toLowerCase_bytesToHex bytes
    refine ⟨⟨{ isValid := g.hash == toLowerCase providedHash, generatedHash := g.hash,
               providedHash := toLowerCase providedHash, timestamp := now }, ?_, ?_, rfl⟩,
      ?_⟩
    · simp only [verifyHash, h]
    · simp only [beq_iff_eq]
      exact eq_comm
    · intro q hq
      simp only [verifyHash, h, Except.map, hq, hlow, beq_self_eq_true]

/-! ### The QR payload text -/

theorem createQRData_eq (r : HashResult) :
    createQRData r = qrText (orString r.shortHash (substring0 r.hash 16)) r.timestamp := by
  apply String.ext
  simp only [createQRData, jsonStringify, serializeJSONProperty, serializeJSONObject, joinComma,
    Option.map, concatOperand, qrText, String.data_append, List.append_assoc, List.cons_append,
    List.nil_append]
  rfl

theorem quoteChar_hex : ∀ c ∈ hexDigits, quoteChar c = [c] := by decide

theorem quoteJSONString_hex (h : String) (hh : ∀ c ∈ h.data, c ∈ hexDigits) :
    quoteJSONString h = dquote :: h.data ++ [dquote] := by
  have key : ∀ l : List Char, (∀ c ∈ l, c ∈ hexDigits) → l.flatMap quoteChar = l := by
    intro l hl
    induction l with
    | nil => rfl
    | cons c l ih =>
      rw [List.flatMap_cons, quoteChar_hex c (hl c (List.mem_cons_self _ _)),
        ih (fun x hx => hl x (List.mem_cons_of_mem _ hx))]
      rfl
  simp only [quoteJSONString, key _ hh]

/-- C10 as stated fails when `shortHash` is present and empty: the code then falls back
to the first 16 characters of `hash`, the statement writes the empty `shortHash`. -/
theorem createQRData_empty_shortHash :
    createQRData emptyShortHashResult =
        "\x7b\"v\":\"1.0\",\"h\":\"0123456789abcdef\",\"t\":5,\"a\":\"SHA256\"\x7d" ∧
      claimedQRData emptyShortHashResult =
        "\x7b\"v\":\"1.0\",\"h\":\"\",\"t\":5,\"a\":\"SHA256\"\x7d" ∧
      createQRData emptyShortHashResult ≠ claimedQRData emptyShortHashResult := by
  decide

/-- C10, amended. `createQRData` returns the compact JSON text
`{"v":"1.0","h":H,"t":T,"a":"SHA256"}` with the keys in this order, where `T` is
`hashResult.timestamp` and `H` is `hashResult.shortHash` when that is present and not
empty, the first 16 characters of `hashResult.hash` otherwise; no other property of
`hashResult` influences the text; a hexadecimal `H` is written between the quotes as it
is. -/
theorem createQRData_text (r : HashResult) :
    createQRData r =
        qrText (match r.shortHash with
          | some s => if s = "" then substring0 r.hash 16 else s
          | none => substring0 r.hash 16) r.timestamp ∧
      (∀ r' : HashResult, r'.shortHash = r.shortHash → r'.hash = r.hash →
        r'.timestamp = r.timestamp → createQRData r' = createQRData r) ∧
      ∀ (h : String) (t : Int), (∀ c ∈ h.data, c ∈ hexDigits) →
        qrText h t = "\x7b\"v\":\"1.0\",\"h\":\"" ++ h ++ "\",\"t\":" ++
          String.mk (numberToString t) ++ ",\"a\":\"SHA256\"\x7d" := by
  refine ⟨?_, ?_, ?_⟩
  · rw [createQRData_eq]
    cases hs : r.shortHash with
    | none => rfl
    | some s =>
      by_cases he : s = ""
      · simp [orString, he]
      · simp [orString, he]
  · intro r' h1 h2 h3
    rw [createQRData_eq, createQRData_eq, h1, h2, h3]
  · intro h t hh
    apply String.ext
    simp only [qrText, quoteJSONString_hex h hh, String.data_append, List.append_assoc,
      List.cons_append, List.nil_append]
    rfl

/-! ### Injectivity of `JSON.stringify` on JSON data -/

theorem char_eq_of_toNat {c : Char} {n : Nat} (h : c.toNat = n) : c = Char.ofNat n := by
  rw [← h, Char.ofNat_toNat]

theorem unquote_control : ∀ n, n < 32 →
    Char.ofNat (hexValue (Nat.digitChar (n / 16)) * 16 + hexValue (Nat.digitChar (n % 16))) =
      Char.ofNat n := by
  decide

theorem unquoteChar_quoteChar (a : Char) (rest : List Char) :
    unquoteChar (quoteChar a ++ rest) = some (a, rest) := by
  unfold quoteChar
  split
  · next h => subst h; rfl
  · split
    · next h => subst h; rfl
    · split
      · next h => rw [char_eq_of_toNat h]; rfl
      · split
        · next h => rw [char_eq_of_toNat h]; rfl
        · split
          · next h => rw [char_eq_of_toNat h]; rfl
          · split
            · next h => rw [char_eq_of_toNat h]; rfl
            · split
              · next h => rw [char_eq_of_toNat h]; rfl
              · split
                · next h =>
                  have := unquote_control a.toNat h
                  rw [Char.ofNat_toNat] at this
                  simp only [List.cons_append, List.nil_append, unquoteChar]
                  rw [if_pos trivial, if_pos trivial, this]
                · next h1 h2 _ _ _ _ _ _ =>
                  simp only [List.cons_append, List.nil_append, unquoteChar, if_neg h2]

theorem quoteChar_head_ne_dquote (a : Char) (rest : List Char) :
    ∀ tail, quoteChar a ++ rest ≠ dquote :: tail := by
  intro tail h
  have h1 := unquoteChar_quoteChar a rest
  rw [h] at h1
  simp only [unquoteChar] at h1
  rw [if_neg (by decide)] at h1
  simp only [Option.some.injEq, Prod.mk.injEq] at h1
  obtain ⟨rfl, rfl⟩ := h1
  revert h
  simp only [quoteChar, if_true, List.cons_append, List.cons.injEq]
  intro h
  exact absurd h.1 (by decide)

theorem quoted_inj (la lb r₁ r₂ : List Char)
    (h : la.flatMap quoteChar ++ dquote :: r₁ = lb.flatMap quoteChar ++ dquote :: r₂) :
    la = lb ∧ r₁ = r₂ := by
  induction la generalizing lb with
  | nil =>
    cases lb with
    | nil => simpa using h
    | cons b lb =>
      simp only [List.flatMap_nil, List.nil_append, List.flatMap_cons, List.append_assoc] at h
      exact absurd h.symm (quoteChar_head_ne_dquote b _ _)
  | cons a la ih =>
    cases lb with
    | nil =>
      simp only [List.flatMap_nil, List.nil_append, List.flatMap_cons, List.append_assoc] at h
      exact absurd h (quoteChar_head_ne_dquote a _ _)
    | cons b lb =>
      simp only [List.flatMap_cons, List.append_assoc] at h
      have h1 := unquoteChar_quoteChar a (la.flatMap quoteChar ++ dquote :: r₁)
      rw [h, unquoteChar_quoteChar] at h1
      simp only [Option.some.injEq, Prod.mk.injEq] at h1
      obtain ⟨hab, hrest⟩ := h1
      obtain ⟨hl, hr⟩ := ih lb hrest.symm
      exact ⟨by rw [hab, hl], hr⟩

theorem quoteJSONString_inj (a b : String) (r₁ r₂ : List Char)
    (h : quoteJSONString a ++ r₁ = quoteJSONString b ++ r₂) : a = b ∧ r₁ = r₂ := by
  simp only [quoteJSONString, List.cons_append, List.append_assoc, List.cons.injEq, true_and,
    List.nil_append] at h
  obtain ⟨hl, hr⟩ := quoted_inj _ _ _ _ h
  exact ⟨String.ext hl, hr⟩

theorem digitChar_value : ∀ d, d < 10 → (Nat.digitChar d).toNat - 48 = d ∧ (Nat.digitChar d).isDigit = true := by
  decide

theorem foldl_toDigitsCore (fuel n : Nat) (ds : List Char) (hf : n < fuel) :
    (Nat.toDigitsCore 10 fuel n ds).foldl (fun acc c => acc * 10 + (c.toNat - 48)) 0 =
      ds.foldl (fun acc c => acc * 10 + (c.toNat - 48)) n := by
  induction fuel generalizing n ds with
  | zero => omega
  | succ fuel ih =>
    have hd := (digitChar_value (n % 10) (Nat.mod_lt _ (by decide))).1
    simp only [Nat.toDigitsCore]
    split
    · next h0 =>
      simp only [List.foldl_cons, hd]
      congr 1
      omega
    · next h0 =>
      rw [ih _ _ (by omega)]
      simp only [List.foldl_cons, hd]
      congr 1
      omega

theorem digitsValue_toDigits (n : Nat) : digitsValue (Nat.toDigits 10 n) = n := by
  simp only [digitsValue, Nat.toDigits]
  rw [foldl_toDigitsCore _ _ _ (Nat.lt_succ_self n)]
  rfl

theorem toDigitsCore_ne_nil (b fuel n : Nat) (ds : List Char) (h : 0 < fuel ∨ ds ≠ []) :
    Nat.toDigitsCore b fuel n ds ≠ [] := by
  induction fuel generalizing n ds with
  | zero =>
    rcases h with h | h
    · omega
    · exact h
  | succ fuel ih =>
    simp only [Nat.toDigitsCore]
    split
    · simp
    · exact ih _ _ (Or.inr (by simp))

theorem toDigits_ne_nil (b n : Nat) : Nat.toDigits b n ≠ [] :=
  toDigitsCore_ne_nil b (n + 1) n [] (Or.inl (Nat.succ_pos n))

theorem toDigits_isDigit (n : Nat) (c : Char) (hc : c ∈ Nat.toDigits 10 n) : c.isDigit = true := by
  obtain ⟨d, hd, rfl⟩ := toDigits_mem 10 (by decide) n c hc
  exact (digitChar_value d hd).2

theorem numberToString_chars (n : Int) (c : Char) (hc : c ∈ numberToString n) :
    isNumberChar c = true := by
  simp only [numberToString] at hc
  split at hc
  · rcases List.mem_cons.mp hc with rfl | h
    · rfl
    · simp only [isNumberChar, toDigits_isDigit _ _ h, Bool.true_or]
  · simp only [isNumberChar, toDigits_isDigit _ _ hc, Bool.true_or]

theorem numberToString_ne_nil (n : Int) : numberToString n ≠ [] := by
  simp only [numberToString]
  split
  · simp
  · exact toDigits_ne_nil _ _

theorem numberToString_inj_aux (n m : Int) (h : numberToString n = numberToString m) : n = m := by
  simp only [numberToString] at h
  have hd : ∀ k : Nat, ∀ t, Nat.toDigits 10 k ≠ '-' :: t := by
    intro k t hk
    have := toDigits_isDigit k '-' (by rw [hk]; exact List.mem_cons_self _ _)
    exact absurd this (by decide)
  split at h <;> split at h
  · next hn hm =>
    simp only [List.cons.injEq, true_and] at h
    have := congrArg digitsValue h
    rw [digitsValue_toDigits, digitsValue_toDigits] at this
    omega
  · next hn hm => exact absurd h.symm (hd _ _)
  · next hn hm => exact absurd h (hd _ _)
  · next hn hm =>
    have := congrArg digitsValue h
    rw [digitsValue_toDigits, digitsValue_toDigits] at this
    omega

theorem takeWhile_append_delimited (t r : List Char) (ht : ∀ c ∈ t, isNumberChar c = true)
    (hr : Delimited r) : (t ++ r).takeWhile isNumberChar = t := by
  induction t with
  | nil =>
    cases r with
    | nil => rfl
    | cons c r =>
      have := hr c (by simp)
      simp [List.takeWhile, this]
  | cons a t ih =>
    have := ih (fun c hc => ht c (List.mem_cons_of_mem _ hc))
    simp only [List.cons_append, List.takeWhile_cons, ht a (List.mem_cons_self _ _), if_true, this]

theorem numberToString_inj (n m : Int) (r₁ r₂ : List Char) (h₁ : Delimited r₁) (h₂ : Delimited r₂)
    (h : numberToString n ++ r₁ = numberToString m ++ r₂) : n = m ∧ r₁ = r₂ := by
  have e := congrArg (List.takeWhile isNumberChar) h
  rw [takeWhile_append_delimited _ _ (numberToString_chars n) h₁,
    takeWhile_append_delimited _ _ (numberToString_chars m) h₂] at e
  rw [e] at h
  exact ⟨numberToString_inj_aux n m e, List.append_cancel_left h⟩

theorem toDigitsCore_head (fuel n : Nat) (ds : List Char) (hf : n < fuel) (hn : n ≠ 0) :
    ∃ d rest, Nat.toDigitsCore 10 fuel n ds = d :: rest ∧ d ≠ '0' := by
  induction fuel generalizing n ds with
  | zero => omega
  | succ fuel ih =>
    simp only [Nat.toDigitsCore]
    split
    · next h0 =>
      refine ⟨_, _, rfl, ?_⟩
      have hl : n % 10 < 10 := Nat.mod_lt _ (by decide)
      have hp : n % 10 ≠ 0 := by omega
      revert hp
      generalize n % 10 = d at hl
      revert d
      decide
    · next h0 => exact ih _ _ (by omega) h0

theorem toDigits_no_leading_zero (n : Nat) (d : Char) (ds : List Char)
    (h : Nat.toDigits 10 n = d :: ds) : ¬ (d = '0' ∧ ds ≠ []) := by
  by_cases hn : n = 0
  · subst hn
    have : Nat.toDigits 10 0 = ['0'] := rfl
    rw [this] at h
    simp only [List.cons.injEq] at h
    rintro ⟨_, h2⟩
    exact h2 h.2.symm
  · obtain ⟨d', rest, he, hd⟩ := toDigitsCore_head (n + 1) n [] (Nat.lt_succ_self n) hn
    rw [Nat.toDigits, he] at h
    simp only [List.cons.injEq] at h
    rintro ⟨h1, _⟩
    exact hd (h.1.trans h1)

theorem spanDigits_append (t r : List Char) (ht : ∀ c ∈ t, c.isDigit = true)
    (hr : ∀ c ∈ r.head?, c.isDigit = false) : spanDigits (t ++ r) = (t, r) := by
  rw [spanDigits, List.span_eq_take_drop]
  induction t with
  | nil =>
    cases r with
    | nil => rfl
    | cons c r =>
      have := hr c (by simp)
      simp [List.takeWhile, List.dropWhile, this]
  | cons a t ih =>
    have h := ih (fun c hc => ht c (List.mem_cons_of_mem _ hc))
    simp only [Prod.mk.injEq] at h
    simp only [List.cons_append, List.takeWhile_cons, List.dropWhile_cons,
      ht a (List.mem_cons_self _ _), if_true, h.1, h.2]

theorem toDigits_head_ne_zero (n : Nat) (hn : n ≠ 0) :
    ∃ d rest, Nat.toDigits 10 n = d :: rest ∧ d ≠ '0' :=
  toDigitsCore_head (n + 1) n [] (Nat.lt_succ_self n) hn

theorem digitsValue_append_zeros (k : Nat) (l : List Char) :
    digitsValue ('0' :: (List.replicate k '0' ++ l)) = digitsValue l := by
  have key : ∀ k : Nat, ∀ l : List Char,
      (List.replicate k '0' ++ l).foldl (fun acc c => acc * 10 + (c.toNat - 48)) 0 =
        l.foldl (fun acc c => acc * 10 + (c.toNat - 48)) 0 := by
    intro k
    induction k with
    | zero => intro l; rfl
    | succ k ih =>
      intro l
      rw [List.replicate_succ, List.cons_append, List.foldl_cons]
      exact ih l
  simp only [digitsValue, List.foldl_cons]
  exact key k l

theorem parseExponent_end : parseExponent [] = some (0, []) := rfl

theorem parseExponent_plus (k : Nat) :
    parseExponent ('e' :: '+' :: Nat.toDigits 10 k) = some ((k : Int), []) := by
  have hs := spanDigits_append (Nat.toDigits 10 k) [] (toDigits_isDigit k) (by simp)
  rw [List.append_nil] at hs
  cases hd : Nat.toDigits 10 k with
  | nil => exact absurd hd (toDigits_ne_nil _ _)
  | cons d ds =>
    rw [hd] at hs
    have hv := digitsValue_toDigits k
    rw [hd] at hv
    simp [parseExponent, parseExponentDigits, hs, hv]

theorem parseExponent_minus (k : Nat) :
    parseExponent ('e' :: '-' :: Nat.toDigits 10 k) = some (-(k : Int), []) := by
  have hs := spanDigits_append (Nat.toDigits 10 k) [] (toDigits_isDigit k) (by simp)
  rw [List.append_nil] at hs
  cases hd : Nat.toDigits 10 k with
  | nil => exact absurd hd (toDigits_ne_nil _ _)
  | cons d ds =>
    rw [hd] at hs
    have hv := digitsValue_toDigits k
    rw [hd] at hv
    simp [parseExponent, parseExponentDigits, hs, hv]

/-- The parts of a number text with a point: the digits `d :: ds` before it, the digits
`F` after it and the exponent text `E`. -/
theorem parseDecimal_point (d : Char) (ds F E : List Char) (x : Int)
    (hI : ∀ c ∈ d :: ds, c.isDigit = true) (hz : ¬ (d = '0' ∧ ds ≠ []))
    (hF : ∀ c ∈ F, c.isDigit = true) (hne : F ≠ [])
    (hE : ∀ c ∈ E.head?, c.isDigit = false) (hx : parseExponent E = some (x, [])) :
    parseDecimal (d :: ds ++ '.' :: (F ++ E)) =
      some ((digitsValue (d :: ds ++ F), F.length, x), []) := by
  have h1 : spanDigits (d :: ds ++ '.' :: (F ++ E)) = (d :: ds, '.' :: (F ++ E)) :=
    spanDigits_append (d :: ds) _ hI (by simp)
  have h2 : spanDigits (F ++ E) = (F, E) := spanDigits_append F E hF hE
  have h3 : parseFraction ('.' :: (F ++ E)) = some (F, E) := by
    cases F with
    | nil => exact absurd rfl hne
    | cons a F =>
      rw [List.cons_append] at h2
      simp [parseFraction, h2]
  simp only [parseDecimal, h1, hz, if_false, h3, hx]

/-- The parts of a number text without a point. -/
theorem parseDecimal_plain (d : Char) (ds E : List Char) (x : Int)
    (hI : ∀ c ∈ d :: ds, c.isDigit = true) (hz : ¬ (d = '0' ∧ ds ≠ []))
    (hE : ∀ c ∈ E.head?, c.isDigit = false ∧ c ≠ '.') (hx : parseExponent E = some (x, [])) :
    parseDecimal (d :: ds ++ E) = some ((digitsValue (d :: ds), 0, x), []) := by
  have h1 : spanDigits (d :: ds ++ E) = (d :: ds, E) :=
    spanDigits_append (d :: ds) _ hI (fun c hc => (hE c hc).1)
  have h3 : parseFraction E = some ([], E) := by
    cases E with
    | nil => rfl
    | cons c E =>
      have := (hE c (by simp)).2
      simp [parseFraction, this]
  simp only [parseDecimal, h1, hz, if_false, h3, hx, List.append_nil, List.length_nil]

theorem normalizeFraction_normal (m e : Nat) (he : 0 < e) (hm : m % 10 ≠ 0) :
    normalizeFraction m e = (m, e) := by
  cases e with
  | zero => omega
  | succ e => simp [normalizeFraction, hm]

theorem exactNumber_frac (m : Int) (e f : Nat) (x : Int) (he : 0 < e)
    (hm : m.natAbs % 10 ≠ 0) (hfx : (f : Int) - x = e) :
    exactNumber (decide (m < 0)) m.natAbs f x = .frac m e := by
  have h0 : m.natAbs ≠ 0 := by
    intro h
    rw [h] at hm
    exact hm rfl
  have hle : ¬ (f : Int) ≤ x := by omega
  have hn : (↑f - x).toNat = e := by omega
  unfold exactNumber
  simp only [h0, if_false, hle, hn, normalizeFraction_normal m.natAbs e he hm]
  cases e with
  | zero => omega
  | succ e =>
    simp only [JsVal.frac.injEq, and_true]
    by_cases hneg : m < 0
    · simp only [hneg, decide_True, if_true]
      omega
    · simp only [hneg, decide_False, Bool.false_eq_true, if_false]
      omega

theorem exactNumber_num (n : Int) :
    exactNumber (decide (n < 0)) n.natAbs 0 0 = .num n := by
  unfold exactNumber
  by_cases h0 : n.natAbs = 0
  · have : n = 0 := Int.natAbs_eq_zero.mp h0
    simp [h0, this]
  · simp only [h0, if_false, Nat.cast_zero, le_refl, if_true, sub_self, Int.toNat_zero, pow_zero,
      mul_one, JsVal.num.injEq]
    by_cases hneg : n < 0
    · simp only [hneg, decide_True, if_true]
      omega
    · simp only [hneg, decide_False, Bool.false_eq_true, if_false]
      omega

theorem fractionToString_natCast (n e : Nat) (he : 0 < e) (hn : n % 10 ≠ 0) :
    ∃ (f : Nat) (x : Int) (c : Char) (rest : List Char),
      fractionToString (n : Int) e = c :: rest ∧
      c ≠ '-' ∧ (∀ a ∈ c :: rest, isNumberChar a = true) ∧
      parseDecimal (c :: rest) = some ((n, f, x), []) ∧ (f : Int) - x = e := by
  have h0 : n ≠ 0 := by
    intro h
    rw [h] at hn
    exact hn rfl
  obtain ⟨d, t, hD, hd0⟩ := toDigits_head_ne_zero n h0
  have hdig := toDigits_isDigit n
  have hval := digitsValue_toDigits n
  rw [hD] at hdig hval
  have hnn : ¬ ((n : Int) < 0) := by omega
  simp only [fractionToString, Int.natAbs_ofNat, hD, hnn, if_false, List.nil_append]
  rw [← hval]
  have hdd : d.isDigit = true := hdig d (List.mem_cons_self _ _)
  have hdm : d ≠ '-' := by
    rintro rfl
    exact absurd hdd (by decide)
  have hz : ∀ ds : List Char, ¬ (d = '0' ∧ ds ≠ []) := fun ds h => hd0 h.1
  have hnum : ∀ c : Char, c.isDigit = true → isNumberChar c = true := by
    intro c hc
    simp [isNumberChar, hc]
  have hEd : ∀ (s : Char) (k : Nat), ∀ c ∈ ('e' :: s :: Nat.toDigits 10 k).head?,
      c.isDigit = false := by
    intro s k c hc
    simp only [List.head?_cons, Option.mem_def, Option.some.injEq] at hc
    rw [← hc]
    decide
  have hEn : ∀ (s : Char) (k : Nat), isNumberChar s = true →
      ∀ c ∈ 'e' :: s :: Nat.toDigits 10 k, isNumberChar c = true := by
    intro s k hs c hc
    simp only [List.mem_cons] at hc
    rcases hc with rfl | rfl | hc
    · decide
    · exact hs
    · exact hnum c (toDigits_isDigit k c hc)
  by_cases h1 : e < (d :: t).length
  · by_cases h2 : (d :: t).length - e ≤ 21
    · simp only [h1, h2, if_true]
      obtain ⟨n, hn⟩ : ∃ n, (d :: t).length - e = n + 1 := ⟨(d :: t).length - e - 1, by omega⟩
      rw [hn, List.take_succ_cons, List.drop_succ_cons]
      have hF : ∀ c ∈ List.drop n t, c.isDigit = true := fun c hc =>
        hdig c (List.mem_cons_of_mem _ (List.mem_of_mem_drop hc))
      have hI : ∀ c ∈ d :: List.take n t, c.isDigit = true := by
        intro c hc
        rcases List.mem_cons.mp hc with rfl | hc
        · exact hdd
        · exact hdig c (List.mem_cons_of_mem _ (List.mem_of_mem_take hc))
      have hlen : (List.drop n t).length = e := by
        rw [List.length_drop]
        simp only [List.length_cons] at hn h1
        omega
      have hne : List.drop n t ≠ [] := by
        intro h
        rw [h] at hlen
        simp only [List.length_nil] at hlen
        omega
      have hp := parseDecimal_point d (List.take n t) (List.drop n t) [] 0 hI (hz _) hF hne
        (by simp) rfl
      rw [List.append_nil, hlen] at hp
      have hv : d :: List.take n t ++ List.drop n t = d :: t := by
        rw [List.cons_append, List.take_append_drop]
      rw [hv] at hp
      refine ⟨e, 0, d, _, rfl, hdm, ?_, hp, by omega⟩
      intro a ha
      simp only [List.cons_append, List.append_eq, List.mem_cons, List.mem_append] at ha
      rcases ha with rfl | ha | rfl | ha
      · exact hnum _ hdd
      · exact hnum _ (hI a (List.mem_cons_of_mem _ ha))
      · decide
      · exact hnum _ (hF a ha)
    · cases t with
      | nil =>
        simp only [List.length_cons, List.length_nil] at h2
        omega
      | cons d' ds =>
        simp only [h1, h2, if_true, if_false]
        have hF : ∀ c ∈ d' :: ds, c.isDigit = true := fun c hc =>
          hdig c (List.mem_cons_of_mem _ hc)
        have hp := parseDecimal_point d [] (d' :: ds)
          ('e' :: '+' :: Nat.toDigits 10 ((d :: d' :: ds).length - e - 1)) _
          (by intro c hc; simp only [List.mem_singleton] at hc; rw [hc]; exact hdd) (hz _) hF
          (by simp) (hEd _ _) (parseExponent_plus _)
        refine ⟨_, _, d, _, rfl, hdm, ?_, hp, ?_⟩
        · intro a ha
          simp only [List.cons_append, List.append_eq, List.mem_cons, List.mem_append] at ha
          rcases ha with rfl | rfl | rfl | ha | ha
          · exact hnum _ hdd
          · decide
          · exact hnum _ (hF _ (List.mem_cons_self _ _))
          · exact hnum _ (hF _ (List.mem_cons_of_mem _ ha))
          · exact hEn '+' _ (by decide) a (by simpa using ha)
        · simp only [List.length_cons] at h1 h2 ⊢
          omega
  · by_cases h2 : e - (d :: t).length < 6
    · simp only [h1, h2, if_true, if_false]
      have hF : ∀ c ∈ List.replicate (e - (d :: t).length) '0' ++ d :: t, c.isDigit = true := by
        intro c hc
        rcases List.mem_append.mp hc with hc | hc
        · rw [(List.mem_replicate.mp hc).2]
          decide
        · exact hdig c hc
      have hp := parseDecimal_point '0' [] (List.replicate (e - (d :: t).length) '0' ++ d :: t) [] 0
        (by intro c hc; simp only [List.mem_singleton] at hc; rw [hc]; decide) (by simp) hF
        (by simp) (by simp) rfl
      have hlen : (List.replicate (e - (d :: t).length) '0' ++ d :: t).length = e := by
        rw [List.length_append, List.length_replicate]
        omega
      rw [List.append_nil, hlen] at hp
      have hv : digitsValue (['0'] ++ (List.replicate (e - (d :: t).length) '0' ++ d :: t)) =
          digitsValue (d :: t) := digitsValue_append_zeros _ _
      rw [hv] at hp
      refine ⟨e, 0, '0', _, rfl, by decide, ?_, hp, by omega⟩
      intro a ha
      simp only [List.cons_append, List.append_eq, List.mem_cons, List.mem_append] at ha
      rcases ha with rfl | rfl | ha
      · decide
      · decide
      · exact hnum _ (hF a (by simpa using ha))
    · cases t with
      | nil =>
        simp only [h1, h2, if_false]
        have hp := parseDecimal_plain d []
          ('e' :: '-' :: Nat.toDigits 10 (e - [d].length + 1)) _
          (by intro c hc; simp only [List.mem_singleton] at hc; rw [hc]; exact hdd) (hz _)
          (by
            intro c hc
            simp only [List.head?_cons, Option.mem_def, Option.some.injEq] at hc
            rw [← hc]
            decide) (parseExponent_minus _)
        refine ⟨_, _, d, _, rfl, hdm, ?_, hp, ?_⟩
        · intro a ha
          simp only [List.cons_append, List.append_eq, List.nil_append, List.mem_cons] at ha
          rcases ha with rfl | ha
          · exact hnum _ hdd
          · exact hEn '-' _ (by decide) a (by simpa using ha)
        · simp only [List.length_cons, List.length_nil] at h1 h2 ⊢
          omega
      | cons d' ds =>
        simp only [h1, h2, if_false]
        have hF : ∀ c ∈ d' :: ds, c.isDigit = true := fun c hc =>
          hdig c (List.mem_cons_of_mem _ hc)
        have hp := parseDecimal_point d [] (d' :: ds)
          ('e' :: '-' :: Nat.toDigits 10 (e - (d :: d' :: ds).length + 1)) _
          (by intro c hc; simp only [List.mem_singleton] at hc; rw [hc]; exact hdd) (hz _) hF
          (by simp) (hEd _ _) (parseExponent_minus _)
        refine ⟨_, _, d, _, rfl, hdm, ?_, hp, ?_⟩
        · intro a ha
          simp only [List.cons_append, List.append_eq, List.mem_cons, List.mem_append] at ha
          rcases ha with rfl | rfl | rfl | ha | ha
          · exact hnum _ hdd
          · decide
          · exact hnum _ (hF _ (List.mem_cons_self _ _))
          · exact hnum _ (hF _ (List.mem_cons_of_mem _ ha))
          · exact hEn '-' _ (by decide) a (by simpa using ha)
        · simp only [List.length_cons] at h1 h2 ⊢
          omega

theorem fractionToString_sign (m : Int) (e : Nat) (hneg : m < 0) :
    fractionToString m e = '-' :: fractionToString (m.natAbs : Int) e := by
  have hnn : ¬ ((m.natAbs : Int) < 0) := by omega
  simp only [fractionToString, hneg, hnn, if_true, if_false, Int.natAbs_ofNat, List.nil_append,
    List.cons_append]

theorem fractionToString_read (m : Int) (e : Nat) (he : 0 < e) (hm : m.natAbs % 10 ≠ 0) :
    readNumber (fractionToString m e) = some (.frac m e) ∧
      fractionToString m e ≠ [] ∧ ∀ c ∈ fractionToString m e, isNumberChar c = true := by
  obtain ⟨f, x, c, rest, hb, hc, hch, hp, hfx⟩ := fractionToString_natCast m.natAbs e he hm
  have hex := exactNumber_frac m e f x he hm hfx
  by_cases hneg : m < 0
  · simp only [hneg, decide_True] at hex
    rw [fractionToString_sign m e hneg, hb]
    simp only [readNumber, if_true, hp, hex, ne_eq, not_false_eq_true, List.mem_cons, true_and,
      reduceCtorEq]
    intro a ha
    rcases ha with rfl | ha
    · decide
    · exact hch a (List.mem_cons.mpr ha)
  · simp only [hneg, decide_False] at hex
    have hcast : (m.natAbs : Int) = m := by omega
    rw [hcast] at hb
    rw [hb]
    simp only [readNumber, hc, if_false, hp, hex, ne_eq, not_false_eq_true, true_and,
      reduceCtorEq]
    exact hch

theorem numberToString_read (n : Int) : readNumber (numberToString n) = some (.num n) := by
  have hex := exactNumber_num n
  unfold numberToString
  split
  · next hneg =>
    simp only [hneg, decide_True] at hex
    cases hd : Nat.toDigits 10 n.natAbs with
    | nil => exact absurd hd (toDigits_ne_nil _ _)
    | cons d ds =>
      have hp := parseDecimal_plain d ds [] 0
        (by rw [← hd]; exact toDigits_isDigit _) (toDigits_no_leading_zero _ d ds hd) (by simp) rfl
      have hv := digitsValue_toDigits n.natAbs
      rw [hd] at hv
      rw [List.append_nil, hv] at hp
      simp only [readNumber, if_true, hp, hex]
  · next hpos =>
    simp only [hpos, decide_False] at hex
    cases hd : Nat.toDigits 10 n.toNat with
    | nil => exact absurd hd (toDigits_ne_nil _ _)
    | cons d ds =>
      have hdig : d.isDigit = true := toDigits_isDigit n.toNat d (by rw [hd]; simp)
      have hne : d ≠ '-' := by
        rintro rfl
        exact absurd hdig (by decide)
      have hp := parseDecimal_plain d ds [] 0
        (by rw [← hd]; exact toDigits_isDigit _) (toDigits_no_leading_zero _ d ds hd) (by simp) rfl
      have hv := digitsValue_toDigits n.toNat
      rw [hd] at hv
      have habs : n.natAbs = n.toNat := by omega
      rw [List.append_nil, hv, ← habs] at hp
      simp only [readNumber, hne, if_false, hp, hex]

theorem numberText_read (v : JsVal) (hv : v.isJSON = true) (hk : v.kind = 3) :
    readNumber (jsonText v) = some v ∧ ∀ c ∈ jsonText v, isNumberChar c = true := by
  cases v with
  | num n => exact ⟨numberToString_read n, numberToString_chars n⟩
  | frac m e =>
    simp only [JsVal.isJSON, Bool.and_eq_true, decide_eq_true_eq, bne_iff_ne, ne_eq] at hv
    obtain ⟨h1, _, h3⟩ := fractionToString_read m e hv.1 hv.2
    exact ⟨h1, h3⟩
  | bool b => cases b <;> simp [JsVal.kind] at hk
  | _ => simp [JsVal.kind] at hk

theorem numberText_inj (v w : JsVal) (hv : v.isJSON = true) (hw : w.isJSON = true)
    (hkv : v.kind = 3) (hkw : w.kind = 3) (r₁ r₂ : List Char) (h₁ : Delimited r₁)
    (h₂ : Delimited r₂) (h : jsonText v ++ r₁ = jsonText w ++ r₂) : v = w ∧ r₁ = r₂ := by
  obtain ⟨hrv, hcv⟩ := numberText_read v hv hkv
  obtain ⟨hrw, hcw⟩ := numberText_read w hw hkw
  have e := congrArg (List.takeWhile isNumberChar) h
  rw [takeWhile_append_delimited _ _ hcv h₁, takeWhile_append_delimited _ _ hcw h₂] at e
  rw [e] at h hrv
  rw [hrw] at hrv
  exact ⟨(Option.some.inj hrv).symm, List.append_cancel_left h⟩

theorem serialize_of_isJSON (v : JsVal) (hv : v.isJSON = true) :
    serializeJSONProperty v = some (jsonText v) := by
  cases v with
  | undefined => simp [JsVal.isJSON] at hv
  | bool b => cases b <;> rfl
  | _ => rfl

theorem headKind_number (c : Char) (hc : isNumberChar c = true) : headKind c = 3 := by
  unfold headKind
  split
  · next h => subst h; exact absurd hc (by decide)
  · split
    · next h => subst h; exact absurd hc (by decide)
    · split
      · next h => subst h; exact absurd hc (by decide)
      · simp [hc]

theorem delimited_of_head (c : Char) (r : List Char) (hc : isNumberChar c = false) :
    Delimited (c :: r) := by
  intro x hx
  simp only [List.head?_cons, Option.mem_def, Option.some.injEq] at hx
  rw [← hx]
  exact hc

theorem jsonText_head (v : JsVal) (hv : v.isJSON = true) :
    ∃ c t, jsonText v = c :: t ∧ headKind c = v.kind := by
  cases v with
  | undefined => simp [JsVal.isJSON] at hv
  | null => exact ⟨_, _, rfl, rfl⟩
  | bool b => cases b <;> exact ⟨_, _, rfl, rfl⟩
  | num n =>
    have h1 := numberToString_ne_nil n
    have h2 := numberToString_chars n
    show ∃ c t, numberToString n = c :: t ∧ headKind c = 3
    cases hn : numberToString n with
    | nil => exact absurd hn h1
    | cons c t =>
      refine ⟨c, t, rfl, headKind_number c (h2 c ?_)⟩
      rw [hn]
      exact List.mem_cons_self _ _
  | frac m e =>
    simp only [JsVal.isJSON, Bool.and_eq_true, decide_eq_true_eq, bne_iff_ne, ne_eq] at hv
    obtain ⟨_, h1, h2⟩ := fractionToString_read m e hv.1 hv.2
    show ∃ c t, fractionToString m e = c :: t ∧ headKind c = 3
    cases hn : fractionToString m e with
    | nil => exact absurd hn h1
    | cons c t =>
      refine ⟨c, t, rfl, headKind_number c (h2 c ?_)⟩
      rw [hn]
      exact List.mem_cons_self _ _
  | str s => exact ⟨_, _, rfl, rfl⟩
  | arr xs => exact ⟨_, _, rfl, rfl⟩
  | obj fs => exact ⟨_, _, rfl, rfl⟩

theorem kind_eq_of_text (v w : JsVal) (r₁ r₂ : List Char) (hv : v.isJSON = true)
    (hw : w.isJSON = true) (h : jsonText v ++ r₁ = jsonText w ++ r₂) : v.kind = w.kind := by
  obtain ⟨c, t, hc, hk⟩ := jsonText_head v hv
  obtain ⟨c', t', hc', hk'⟩ := jsonText_head w hw
  rw [hc, hc'] at h
  simp only [List.cons_append, List.cons.injEq] at h
  rw [← hk, ← hk', h.1]

theorem joinComma_cons (t : List Char) (ts : List (List Char)) (r : List Char) (close : Char) :
    joinComma (t :: ts) ++ close :: r = t ++ tailText ts close r := by
  cases ts with
  | nil => rfl
  | cons t' ts' => simp [joinComma, tailText]

theorem delimited_tailText (ts : List (List Char)) (close : Char) (r : List Char)
    (hc : isNumberChar close = false) : Delimited (tailText ts close r) := by
  cases ts with
  | nil => exact delimited_of_head _ _ hc
  | cons t ts => exact delimited_of_head _ _ (by decide)

theorem tailText_inj (ts ts' : List (List Char)) (close : Char) (r₁ r₂ : List Char)
    (hc : close ≠ ',') (h : tailText ts close r₁ = tailText ts' close r₂) :
    joinComma ts ++ close :: r₁ = joinComma ts' ++ close :: r₂ := by
  cases ts with
  | nil =>
    cases ts' with
    | nil => exact h
    | cons t' ts' =>
      simp only [tailText, List.cons.injEq] at h
      exact absurd h.1 hc
  | cons t ts =>
    cases ts' with
    | nil =>
      simp only [tailText, List.cons.injEq] at h
      exact absurd h.1.symm hc
    | cons t' ts' =>
      simp only [tailText, List.cons.injEq, true_and] at h
      exact h

theorem jsonText_head_ne (v : JsVal) (hv : v.isJSON = true) (c : Char) (hc : headKind c = 7)
    (r l : List Char) : jsonText v ++ r ≠ c :: l := by
  intro h
  obtain ⟨c', t, hc', hk⟩ := jsonText_head v hv
  rw [hc'] at h
  simp only [List.cons_append, List.cons.injEq] at h
  rw [h.1, hc] at hk
  cases v with
  | undefined => simp [JsVal.isJSON] at hv
  | bool b => cases b <;> simp [JsVal.kind] at hk
  | _ => simp [JsVal.kind] at hk

theorem serializeJSONObject_cons (k : String) (v : JsVal) (fs : List (String × JsVal))
    (hv : v.isJSON = true) :
    serializeJSONObject ((k, v) :: fs) =
      (quoteJSONString k ++ ':' :: jsonText v) :: serializeJSONObject fs := by
  simp only [serializeJSONObject, serialize_of_isJSON v hv]

mutual
theorem jsonText_inj : (v w : JsVal) → (r₁ r₂ : List Char) → v.isJSON = true →
    w.isJSON = true → Delimited r₁ → Delimited r₂ →
    jsonText v ++ r₁ = jsonText w ++ r₂ → v = w ∧ r₁ = r₂
  | .undefined, _, _, _, hv, _, _, _, _ => by simp [JsVal.isJSON] at hv
  | .null, w, r₁, r₂, hv, hw, _, _, h => by
    have hk := kind_eq_of_text _ _ _ _ hv hw h
    cases w with
    | null => exact ⟨rfl, List.append_cancel_left h⟩
    | bool b => cases b <;> simp [JsVal.kind] at hk
    | _ => simp [JsVal.kind] at hk
  | .bool true, w, r₁, r₂, hv, hw, _, _, h => by
    have hk := kind_eq_of_text _ _ _ _ hv hw h
    cases w with
    | bool b =>
      cases b with
      | true => exact ⟨rfl, List.append_cancel_left h⟩
      | false => simp [JsVal.kind] at hk
    | _ => simp [JsVal.kind] at hk
  | .bool false, w, r₁, r₂, hv, hw, _, _, h => by
    have hk := kind_eq_of_text _ _ _ _ hv hw h
    cases w with
    | bool b =>
      cases b with
      | false => exact ⟨rfl, List.append_cancel_left h⟩
      | true => simp [JsVal.kind] at hk
    | _ => simp [JsVal.kind] at hk
  | .num n, w, r₁, r₂, hv, hw, h₁, h₂, h => by
    have hk := kind_eq_of_text _ _ _ _ hv hw h
    exact numberText_inj _ _ hv hw rfl hk.symm _ _ h₁ h₂ h
  | .frac m e, w, r₁, r₂, hv, hw, h₁, h₂, h => by
    have hk := kind_eq_of_text _ _ _ _ hv hw h
    exact numberText_inj _ _ hv hw rfl hk.symm _ _ h₁ h₂ h
  | .str s, w, r₁, r₂, hv, hw, _, _, h => by
    have hk := kind_eq_of_text _ _ _ _ hv hw h
    cases w with
    | str s' =>
      obtain ⟨hs, hr⟩ := quoteJSONString_inj s s' r₁ r₂ h
      exact ⟨by rw [hs], hr⟩
    | bool b => cases b <;> simp [JsVal.kind] at hk
    | _ => simp [JsVal.kind] at hk
  | .arr xs, w, r₁, r₂, hv, hw, _, _, h => by
    have hk := kind_eq_of_text _ _ _ _ hv hw h
    cases w with
    | arr ys =>
      have h' : joinComma (serializeJSONArray xs) ++ ']' :: r₁ =
          joinComma (serializeJSONArray ys) ++ ']' :: r₂ := by
        simpa [jsonText, serializeJSONProperty] using h
      obtain ⟨hl, hr⟩ := arrayText_inj xs ys r₁ r₂ hv hw h'
      exact ⟨by rw [hl], hr⟩
    | bool b => cases b <;> simp [JsVal.kind] at hk
    | _ => simp [JsVal.kind] at hk
  | .obj fs, w, r₁, r₂, hv, hw, _, _, h => by
    have hk := kind_eq_of_text _ _ _ _ hv hw h
    cases w with
    | obj gs =>
      have h' : joinComma (serializeJSONObject fs) ++ '}' :: r₁ =
          joinComma (serializeJSONObject gs) ++ '}' :: r₂ := by
        simpa [jsonText, serializeJSONProperty] using h
      obtain ⟨hl, hr⟩ := objectText_inj fs gs r₁ r₂ hv hw h'
      exact ⟨by rw [hl], hr⟩
    | bool b => cases b <;> simp [JsVal.kind] at hk
    | _ => simp [JsVal.kind] at hk
theorem arrayText_inj : (xs ys : List JsVal) → (r₁ r₂ : List Char) → allJSON xs = true →
    allJSON ys = true →
    joinComma (serializeJSONArray xs) ++ ']' :: r₁ =
      joinComma (serializeJSONArray ys) ++ ']' :: r₂ → xs = ys ∧ r₁ = r₂
  | [], ys, r₁, r₂, _, hys, h => by
    cases ys with
    | nil => simpa [serializeJSONArray, joinComma] using h
    | cons y ys =>
      simp only [allJSON, Bool.and_eq_true] at hys
      have e : serializeJSONArray (y :: ys) = jsonText y :: serializeJSONArray ys := rfl
      rw [e, joinComma_cons] at h
      exact absurd h.symm (jsonText_head_ne y hys.1 ']' (by decide) _ _)
  | x :: xs, ys, r₁, r₂, hxs, hys, h => by
    simp only [allJSON, Bool.and_eq_true] at hxs
    have ex : serializeJSONArray (x :: xs) = jsonText x :: serializeJSONArray xs := rfl
    cases ys with
    | nil =>
      rw [ex, joinComma_cons] at h
      exact absurd h (jsonText_head_ne x hxs.1 ']' (by decide) _ _)
    | cons y ys =>
      simp only [allJSON, Bool.and_eq_true] at hys
      have ey : serializeJSONArray (y :: ys) = jsonText y :: serializeJSONArray ys := rfl
      rw [ex, ey, joinComma_cons, joinComma_cons] at h
      obtain ⟨hxy, hr⟩ := jsonText_inj x y _ _ hxs.1 hys.1
        (delimited_tailText _ _ _ (by decide)) (delimited_tailText _ _ _ (by decide)) h
      obtain ⟨hl, hr'⟩ := arrayText_inj xs ys r₁ r₂ hxs.2 hys.2
        (tailText_inj _ _ _ _ _ (by decide) hr)
      exact ⟨by rw [hxy, hl], hr'⟩
theorem objectText_inj : (fs gs : List (String × JsVal)) → (r₁ r₂ : List Char) →
    allJSONFields fs = true → allJSONFields gs = true →
    joinComma (serializeJSONObject fs) ++ '}' :: r₁ =
      joinComma (serializeJSONObject gs) ++ '}' :: r₂ → fs = gs ∧ r₁ = r₂
  | [], gs, r₁, r₂, _, hgs, h => by
    cases gs with
    | nil => simpa [serializeJSONObject, joinComma] using h
    | cons g gs =>
      obtain ⟨k', v'⟩ := g
      simp only [allJSONFields, Bool.and_eq_true] at hgs
      rw [serializeJSONObject_cons k' v' gs hgs.1, joinComma_cons] at h
      simp [serializeJSONObject, joinComma, quoteJSONString, dquote] at h
  | (k, v) :: fs, gs, r₁, r₂, hfs, hgs, h => by
    simp only [allJSONFields, Bool.and_eq_true] at hfs
    cases gs with
    | nil =>
      rw [serializeJSONObject_cons k v fs hfs.1, joinComma_cons] at h
      simp [serializeJSONObject, joinComma, quoteJSONString, dquote] at h
    | cons g gs =>
      obtain ⟨k', v'⟩ := g
      simp only [allJSONFields, Bool.and_eq_true] at hgs
      rw [serializeJSONObject_cons k v fs hfs.1, serializeJSONObject_cons k' v' gs hgs.1,
        joinComma_cons, joinComma_cons] at h
      simp only [List.append_assoc] at h
      obtain ⟨hk, hrest⟩ := quoteJSONString_inj k k' _ _ h
      simp only [List.cons_append, List.cons.injEq, true_and] at hrest
      obtain ⟨hv, hr⟩ := jsonText_inj v v' _ _ hfs.1 hgs.1
        (delimited_tailText _ _ _ (by decide)) (delimited_tailText _ _ _ (by decide)) hrest
      obtain ⟨hl, hr'⟩ := objectText_inj fs gs r₁ r₂ hfs.2 hgs.2
        (tailText_inj _ _ _ _ _ (by decide) hr)
      exact ⟨by rw [hk, hv, hl], hr'⟩
end

theorem serialize_none_iff (v : JsVal) : serializeJSONProperty v = none ↔ v.isDefined = false := by
  cases v with
  | bool b => cases b <;> simp [serializeJSONProperty, JsVal.isDefined]
  | _ => simp [serializeJSONProperty, JsVal.isDefined]

theorem serializeJSONObject_filter (fs : List (String × JsVal)) :
    serializeJSONObject fs = serializeJSONObject (fs.filter fun p => p.2.isDefined) := by
  induction fs with
  | nil => rfl
  | cons p fs ih =>
    obtain ⟨k, v⟩ := p
    cases hv : v.isDefined with
    | false =>
      have := (serialize_none_iff v).mpr hv
      simp only [serializeJSONObject, this, List.filter_cons, hv, Bool.false_eq_true, if_false, ih]
    | true =>
      simp only [List.filter_cons, hv, if_true, serializeJSONObject, ih]

theorem allJSONFields_filter (fs : List (String × JsVal))
    (h : ∀ p ∈ fs, p.2 = JsVal.undefined ∨ p.2.isJSON = true) :
    allJSONFields (fs.filter fun p => p.2.isDefined) = true := by
  induction fs with
  | nil => rfl
  | cons p fs ih =>
    obtain ⟨k, v⟩ := p
    have ih' := ih (fun q hq => h q (List.mem_cons_of_mem _ hq))
    rcases h (k, v) (List.mem_cons_self _ _) with hv | hv
    · simp only at hv
      subst hv
      simpa [List.filter_cons, JsVal.isDefined] using ih'
    · have hd : v.isDefined = true := by
        cases v with
        | undefined => simp [JsVal.isJSON] at hv
        | _ => rfl
      simp only [List.filter_cons, hd, if_true, allJSONFields, Bool.and_eq_true]
      exact ⟨hv, ih'⟩

theorem filter_defined_inj (l₁ l₂ : List (String × JsVal))
    (hk : l₁.map Prod.fst = l₂.map Prod.fst) (hn : (l₁.map Prod.fst).Nodup)
    (h : (l₁.filter fun p => p.2.isDefined) = l₂.filter fun p => p.2.isDefined) : l₁ = l₂ := by
  induction l₁ generalizing l₂ with
  | nil =>
    cases l₂ with
    | nil => rfl
    | cons _ _ => simp at hk
  | cons p l₁ ih =>
    cases l₂ with
    | nil => simp at hk
    | cons q l₂ =>
      obtain ⟨k, v⟩ := p
      obtain ⟨k', v'⟩ := q
      simp only [List.map_cons, List.cons.injEq] at hk
      obtain ⟨hkk, hk⟩ := hk
      subst hkk
      simp only [List.map_cons, List.nodup_cons] at hn
      have hn2 : k ∉ l₂.map Prod.fst := hk ▸ hn.1
      have key : ∀ (l : List (String × JsVal)) (x : JsVal), k ∉ l.map Prod.fst →
          (k, x) ∉ l.filter fun p => p.2.isDefined := by
        intro l x hl hx
        exact hl (List.mem_map.mpr ⟨(k, x), (List.mem_filter.mp hx).1, rfl⟩)
      cases hv : v.isDefined <;> cases hv' : v'.isDefined
      · have e1 : v = .undefined := by cases v <;> simp [JsVal.isDefined] at hv ⊢
        have e2 : v' = .undefined := by cases v' <;> simp [JsVal.isDefined] at hv' ⊢
        simp only [List.filter_cons, hv, hv', Bool.false_eq_true, if_false] at h
        rw [e1, e2, ih l₂ hk hn.2 h]
      · simp only [List.filter_cons, hv, hv', Bool.false_eq_true, if_false, if_true] at h
        exact absurd (h ▸ List.mem_cons_self _ _) (key l₁ v' hn.1)
      · simp only [List.filter_cons, hv, hv', Bool.false_eq_true, if_false, if_true] at h
        exact absurd (h ▸ List.mem_cons_self _ _) (key l₂ v hn2)
      · simp only [List.filter_cons, hv, hv', if_true, List.cons.injEq, Prod.mk.injEq,
          true_and] at h
        rw [h.1, ih l₂ hk hn.2 h.2]

theorem jsonStringify_obj_inj (l₁ l₂ : List (String × JsVal))
    (h₁ : ∀ p ∈ l₁, p.2 = JsVal.undefined ∨ p.2.isJSON = true)
    (h₂ : ∀ p ∈ l₂, p.2 = JsVal.undefined ∨ p.2.isJSON = true)
    (hk : l₁.map Prod.fst = l₂.map Prod.fst) (hn : (l₁.map Prod.fst).Nodup)
    (h : jsonStringify (.obj l₁) = jsonStringify (.obj l₂)) : l₁ = l₂ := by
  simp only [jsonStringify, serializeJSONProperty, Option.map, Option.some.injEq] at h
  have h' := congrArg String.data h
  simp only [List.cons_append, List.cons.injEq, true_and] at h'
  rw [serializeJSONObject_filter l₁, serializeJSONObject_filter l₂] at h'
  obtain ⟨hf, _⟩ := objectText_inj _ _ [] [] (allJSONFields_filter l₁ h₁)
    (allJSONFields_filter l₂ h₂) h'
  exact filter_defined_inj l₁ l₂ hk hn hf

/-! ### Injectivity of the UTF-8 encoding -/

theorem char_toNat_lt (c : Char) : c.toNat < 1114112 := by
  have h := c.valid
  simp only [UInt32.isValidChar, Nat.isValidChar] at h
  show c.val.toNat < 1114112
  omega

theorem utf8EncodeChar_inj (a b : Char) (X Y : List Nat)
    (h : utf8EncodeChar a ++ X = utf8EncodeChar b ++ Y) : a = b ∧ X = Y := by
  have ha := char_toNat_lt a
  have hb := char_toNat_lt b
  have hn : a.toNat = b.toNat := by
    simp only [utf8EncodeChar] at h
    split_ifs at h <;> simp only [List.cons_append, List.nil_append, List.cons.injEq] at h <;> omega
  have hab : a = b := by
    rw [← Char.ofNat_toNat a, ← Char.ofNat_toNat b, hn]
  subst hab
  exact ⟨rfl, List.append_cancel_left h⟩

theorem utf8EncodeChar_ne_nil (a : Char) : utf8EncodeChar a ≠ [] := by
  simp only [utf8EncodeChar]
  split_ifs <;> simp

theorem textEncode_inj (s t : String) (h : textEncode s = textEncode t) : s = t := by
  have key : ∀ la lb : List Char, la.flatMap utf8EncodeChar = lb.flatMap utf8EncodeChar →
      la = lb := by
    intro la
    induction la with
    | nil =>
      intro lb h
      cases lb with
      | nil => rfl
      | cons b lb =>
        simp only [List.flatMap_nil, List.flatMap_cons] at h
        have := utf8EncodeChar_ne_nil b
        cases hb : utf8EncodeChar b with
        | nil => exact absurd hb this
        | cons _ _ => rw [hb] at h; simp at h
    | cons a la ih =>
      intro lb h
      cases lb with
      | nil =>
        simp only [List.flatMap_nil, List.flatMap_cons] at h
        have := utf8EncodeChar_ne_nil a
        cases ha : utf8EncodeChar a with
        | nil => exact absurd ha this
        | cons _ _ => rw [ha] at h; simp at h
      | cons b lb =>
        simp only [List.flatMap_cons] at h
        obtain ⟨hab, hrest⟩ := utf8EncodeChar_inj a b _ _ h
        rw [hab, ih lb hrest]
  exact String.ext (key _ _ h)

/-! ### Context sensitivity of the canonical string -/

theorem canonicalMetadata_inj (f₁ f₂ : List (String × JsVal))
    (h₁ : ∀ k ∈ includedFields,
      JsVal.lookup k f₁ = .undefined ∨ (JsVal.lookup k f₁).isJSON = true)
    (h₂ : ∀ k ∈ includedFields,
      JsVal.lookup k f₂ = .undefined ∨ (JsVal.lookup k f₂).isJSON = true)
    (h : jsonStringify (canonicalMetadata f₁) = jsonStringify (canonicalMetadata f₂)) :
    canonicalMetadata f₁ = canonicalMetadata f₂ := by
  have hsafe : ∀ f : List (String × JsVal),
      (∀ k ∈ includedFields, JsVal.lookup k f = .undefined ∨ (JsVal.lookup k f).isJSON = true) →
      ∀ p ∈ [("timestamp", JsVal.lookup "timestamp" f), ("userAgent", JsVal.lookup "userAgent" f),
        ("platform", JsVal.lookup "platform" f),
        ("devicePixelRatio", JsVal.lookup "devicePixelRatio" f),
        ("screenResolution", JsVal.lookup "screenResolution" f),
        ("imageSize", if (JsVal.lookup "dimensions" f).truthy then JsVal.lookup "dimensions" f
          else .obj [])],
        p.2 = JsVal.undefined ∨ p.2.isJSON = true := by
    intro f hf p hp
    simp only [List.mem_cons, List.mem_singleton, List.not_mem_nil, or_false] at hp
    rcases hp with rfl | rfl | rfl | rfl | rfl | rfl
    · exact hf "timestamp" (by simp [includedFields])
    · exact hf "userAgent" (by simp [includedFields])
    · exact hf "platform" (by simp [includedFields])
    · exact hf "devicePixelRatio" (by simp [includedFields])
    · exact hf "screenResolution" (by simp [includedFields])
    · by_cases ht : (JsVal.lookup "dimensions" f).truthy = true
      · simp only [ht, if_true]
        exact hf "dimensions" (by simp [includedFields])
      · simp only [ht]
        exact Or.inr rfl
  simp only [canonicalMetadata] at h ⊢
  rw [jsonStringify_obj_inj _ _ (hsafe f₁ h₁) (hsafe f₂ h₂) rfl (by simp) h]

/-- C3 as stated fails: two contexts that differ in an included field can have the same
canonical string, and then the same hash for every digest.  A `dimensions` that is
`null` and one that is `{}` both give `"imageSize":{}`; a `screenResolution` whose
`width` is `undefined` and one without properties both give `"screenResolution":{}`. -/
theorem canonical_string_collision :
    (JsVal.lookup "dimensions" [("platform", .str "Y"), ("dimensions", .null)] ≠
        JsVal.lookup "dimensions" [("platform", .str "Y"), ("dimensions", .obj [])] ∧
      createCombinedData "AAAA" (.obj [("platform", .str "Y"), ("dimensions", .null)]) =
        .ok "AAAA|\x7b\"platform\":\"Y\",\"imageSize\":\x7b\x7d\x7d" ∧
      createCombinedData "AAAA" (.obj [("platform", .str "Y"), ("dimensions", .obj [])]) =
        .ok "AAAA|\x7b\"platform\":\"Y\",\"imageSize\":\x7b\x7d\x7d" ∧
      ∀ (digest : Digest) (now : Int),
        (generateImageHash digest now "AAAA"
            (.obj [("platform", .str "Y"), ("dimensions", .null)])).map (fun r => r.hash) =
          (generateImageHash digest now "AAAA"
            (.obj [("platform", .str "Y"), ("dimensions", .obj [])])).map (fun r => r.hash)) ∧
    (JsVal.lookup "screenResolution" [("screenResolution", .obj [("width", .undefined)])] ≠
        JsVal.lookup "screenResolution" [("screenResolution", .obj [])] ∧
      createCombinedData "AAAA" (.obj [("screenResolution", .obj [("width", .undefined)])]) =
        .ok "AAAA|\x7b\"screenResolution\":\x7b\x7d,\"imageSize\":\x7b\x7d\x7d" ∧
      createCombinedData "AAAA" (.obj [("screenResolution", .obj [])]) =
        .ok "AAAA|\x7b\"screenResolution\":\x7b\x7d,\"imageSize\":\x7b\x7d\x7d") := by
  refine ⟨⟨?_, rfl, rfl, ?_⟩, ?_, rfl, rfl⟩
  · simp [JsVal.lookup]
  · intro digest now
    have e : createCombinedData "AAAA" (.obj [("platform", .str "Y"), ("dimensions", .null)]) =
        createCombinedData "AAAA" (.obj [("platform", .str "Y"), ("dimensions", .obj [])]) := rfl
    simp only [generateImageHash, e]
    cases createCombinedData "AAAA" (.obj [("platform", .str "Y"), ("dimensions", .obj [])]) with
    | error e => rfl
    | ok s =>
      dsimp only
      cases digest (textEncode s) <;> rfl
  · simp [JsVal.lookup]

/-- C3, amended. For every image data and every two metadata objects whose included
properties are each absent or JSON data (a value with no `undefined` inside; its
numbers are integers or decimal fractions such as 1.5), if they differ in the
value of `timestamp`, `userAgent`, `platform`, `devicePixelRatio` or `screenResolution`,
or in the image size `dimensions || {}`, then the canonical strings built by
`createCombinedData` differ, and so do the bytes handed to the digest;
`generateImageHash` returns equal hashes for them only if the digest gives the same
hexadecimal value for these two different inputs. -/
theorem canonical_strings_differ (imageData : String) (f₁ f₂ : List (String × JsVal))
    (h₁ : ∀ k ∈ includedFields,
      JsVal.lookup k f₁ = .undefined ∨ (JsVal.lookup k f₁).isJSON = true)
    (h₂ : ∀ k ∈ includedFields,
      JsVal.lookup k f₂ = .undefined ∨ (JsVal.lookup k f₂).isJSON = true)
    (hdiff : (∃ k ∈ ["timestamp", "userAgent", "platform", "devicePixelRatio",
        "screenResolution"], JsVal.lookup k f₁ ≠ JsVal.lookup k f₂) ∨
      (JsVal.lookup "dimensions" f₁).or (.obj []) ≠ (JsVal.lookup "dimensions" f₂).or (.obj [])) :
    ∃ s₁ s₂, createCombinedData imageData (.obj f₁) = .ok s₁ ∧
      createCombinedData imageData (.obj f₂) = .ok s₂ ∧ s₁ ≠ s₂ ∧
      textEncode s₁ ≠ textEncode s₂ ∧
      ∀ (digest : Digest) (now₁ now₂ : Int) (r₁ r₂ : HashResult),
        generateImageHash digest now₁ imageData (.obj f₁) = .ok r₁ →
        generateImageHash digest now₂ imageData (.obj f₂) = .ok r₂ →
        r₁.hash = r₂.hash →
        ∃ b₁ b₂, digest (textEncode s₁) = .ok b₁ ∧ digest (textEncode s₂) = .ok b₂ ∧
          bytesToHex b₁ = bytesToHex b₂ := by
  obtain ⟨t₁, ht₁, hc₁⟩ := createCombinedData_obj imageData f₁
  obtain ⟨t₂, ht₂, hc₂⟩ := createCombinedData_obj imageData f₂
  have hne : concatOperand (if startsWith imageData "data:" then (split imageData ',')[1]?
        else some imageData) ++ "|" ++ t₁ ≠
      concatOperand (if startsWith imageData "data:" then (split imageData ',')[1]?
        else some imageData) ++ "|" ++ t₂ := by
    intro h
    have hd := congrArg String.data h
    simp only [String.data_append, List.append_assoc] at hd
    have ht : t₁ = t₂ := String.ext (List.append_cancel_left (List.append_cancel_left hd))
    have hj : jsonStringify (canonicalMetadata f₁) = jsonStringify (canonicalMetadata f₂) := by
      rw [ht₁, ht₂, ht]
    have hm := canonicalMetadata_inj f₁ f₂ h₁ h₂ hj
    simp only [canonicalMetadata, JsVal.obj.injEq, List.cons.injEq, Prod.mk.injEq, true_and,
      and_true] at hm
    obtain ⟨e1, e2, e3, e4, e5, e6⟩ := hm
    rcases hdiff with ⟨k, hk, hkne⟩ | hd6
    · simp only [List.mem_cons, List.mem_singleton, List.not_mem_nil, or_false] at hk
      rcases hk with rfl | rfl | rfl | rfl | rfl
      · exact hkne e1
      · exact hkne e2
      · exact hkne e3
      · exact hkne e4
      · exact hkne e5
    · exact hd6 e6
  refine ⟨_, _, hc₁, hc₂, hne, fun h => hne (textEncode_inj _ _ h), ?_⟩
  intro digest now₁ now₂ r₁ r₂ hr₁ hr₂ hh
  simp only [generateImageHash, hc₁] at hr₁
  simp only [generateImageHash, hc₂] at hr₂
  split at hr₁
  · cases hr₁
  · next b₁ hb₁ =>
    split at hr₂
    · cases hr₂
    · next b₂ hb₂ =>
      refine ⟨b₁, b₂, hb₁, hb₂, ?_⟩
      cases hr₁
      cases hr₂
      exact hh

/-- C3, amended, at two contexts with the fractional `devicePixelRatio` 1.5 that differ in
the timestamp only. -/
theorem canonical_strings_differ_witness :
    (∀ t : String, ∀ k ∈ includedFields,
      JsVal.lookup k [("timestamp", .str t), ("devicePixelRatio", .frac 15 1)] = .undefined ∨
        (JsVal.lookup k [("timestamp", .str t), ("devicePixelRatio", .frac 15 1)]).isJSON =
          true) ∧
      JsVal.lookup "timestamp" [("timestamp", .str "2024-01-01T00:00:00.000Z"),
          ("devicePixelRatio", .frac 15 1)] ≠
        JsVal.lookup "timestamp" [("timestamp", .str "2024-01-01T00:00:00.001Z"),
          ("devicePixelRatio", .frac 15 1)] ∧
      createCombinedData "AAAA" (.obj [("timestamp", .str "2024-01-01T00:00:00.000Z"),
          ("devicePixelRatio", .frac 15 1)]) =
        .ok "AAAA|\x7b\"timestamp\":\"2024-01-01T00:00:00.000Z\",\"devicePixelRatio\":1.5,\"imageSize\":\x7b\x7d\x7d" ∧
      createCombinedData "AAAA" (.obj [("timestamp", .str "2024-01-01T00:00:00.001Z"),
          ("devicePixelRatio", .frac 15 1)]) =
        .ok "AAAA|\x7b\"timestamp\":\"2024-01-01T00:00:00.001Z\",\"devicePixelRatio\":1.5,\"imageSize\":\x7b\x7d\x7d" ∧
      ∃ s₁ s₂, createCombinedData "AAAA" (.obj [("timestamp", .str "2024-01-01T00:00:00.000Z"),
          ("devicePixelRatio", .frac 15 1)]) = .ok s₁ ∧
        createCombinedData "AAAA" (.obj [("timestamp", .str "2024-01-01T00:00:00.001Z"),
          ("devicePixelRatio", .frac 15 1)]) = .ok s₂ ∧ s₁ ≠ s₂ ∧
        textEncode s₁ ≠ textEncode s₂ := by
  have hyp : ∀ t : String, ∀ k ∈ includedFields,
      JsVal.lookup k [("timestamp", .str t), ("devicePixelRatio", .frac 15 1)] = .undefined ∨
        (JsVal.lookup k [("timestamp", .str t), ("devicePixelRatio", .frac 15 1)]).isJSON =
          true := by
    intro t k hk
    simp only [includedFields, List.mem_cons, List.mem_singleton, List.not_mem_nil,
      or_false] at hk
    rcases hk with rfl | rfl | rfl | rfl | rfl | rfl <;>
      first
        | exact Or.inl rfl
        | exact Or.inr rfl
  have hne : JsVal.lookup "timestamp" [("timestamp", .str "2024-01-01T00:00:00.000Z"),
        ("devicePixelRatio", .frac 15 1)] ≠
      JsVal.lookup "timestamp" [("timestamp", .str "2024-01-01T00:00:00.001Z"),
        ("devicePixelRatio", .frac 15 1)] := by
    simp [JsVal.lookup]
  obtain ⟨s₁, s₂, e₁, e₂, hs, hb, _⟩ := canonical_strings_differ "AAAA"
    [("timestamp", .str "2024-01-01T00:00:00.000Z"), ("devicePixelRatio", .frac 15 1)]
    [("timestamp", .str "2024-01-01T00:00:00.001Z"), ("devicePixelRatio", .frac 15 1)]
    (hyp _) (hyp _) (Or.inl ⟨"timestamp", by simp, hne⟩)
  exact ⟨hyp, hne, rfl, rfl, s₁, s₂, e₁, e₂, hs, hb⟩

/-! ### The recursion budget of `JSON.parse` -/

theorem skipWhitespace_length (l : List Char) : (skipWhitespace l).length ≤ l.length :=
  (List.dropWhile_sublist _).length_le

theorem skipWhitespace_cons_length {l rest : List Char} {c : Char}
    (h : skipWhitespace l = c :: rest) : rest.length + 1 ≤ l.length := by
  have := skipWhitespace_length l
  rw [h] at this
  exact this

theorem parseStringUnits_length (l : List Char) :
    ∀ (st : StringState) (us : List Nat) (r : List Char),
      parseStringUnits st l = some (us, r) → r.length < l.length := by
  induction l with
  | nil =>
    intro st us r h
    cases st <;> simp [parseStringUnits] at h
  | cons c l ih =>
    intro st us r h
    cases st with
    | normal =>
      simp only [parseStringUnits] at h
      split at h
      · simp only [Option.some.injEq, Prod.mk.injEq] at h
        rw [← h.2]
        simp
      · split at h
        · have := ih _ _ _ h
          simp only [List.length_cons]
          omega
        · split at h
          · cases h
          · split at h
            · next us' r' hp =>
              simp only [Option.some.injEq, Prod.mk.injEq] at h
              have := ih _ _ _ hp
              rw [← h.2]
              simp only [List.length_cons]
              omega
            · cases h
    | escape =>
      simp only [parseStringUnits] at h
      split at h
      · have := ih _ _ _ h
        simp only [List.length_cons]
        omega
      · split at h
        · next ch us' r' _ hp =>
          simp only [Option.some.injEq, Prod.mk.injEq] at h
          have := ih _ _ _ hp
          rw [← h.2]
          simp only [List.length_cons]
          omega
        · cases h
    | unicode remaining value =>
      simp only [parseStringUnits] at h
      split at h
      · cases h
      · split at h
        · split at h
          · next us' r' hp =>
            simp only [Option.some.injEq, Prod.mk.injEq] at h
            have := ih _ _ _ hp
            rw [← h.2]
            simp only [List.length_cons]
            omega
          · cases h
        · have := ih _ _ _ h
          simp only [List.length_cons]
          omega

theorem parseStringBody_length {l r s : List Char} (h : parseStringBody l = some (s, r)) :
    r.length < l.length := by
  unfold parseStringBody at h
  split at h
  · next us r' hp =>
    simp only [Option.some.injEq, Prod.mk.injEq] at h
    rw [← h.2]
    exact parseStringUnits_length l _ _ _ hp
  · cases h

theorem spanDigits_length {l a b : List Char} (h : spanDigits l = (a, b)) :
    a.length + b.length = l.length := by
  rw [spanDigits, List.span_eq_take_drop] at h
  simp only [Prod.mk.injEq] at h
  rw [← h.1, ← h.2, ← List.length_append, List.takeWhile_append_dropWhile]

theorem parseFraction_length {l f r : List Char} (h : parseFraction l = some (f, r)) :
    r.length ≤ l.length := by
  unfold parseFraction at h
  split at h
  · simp only [Option.some.injEq, Prod.mk.injEq] at h
    rw [← h.2]
  · split at h
    · split at h
      · cases h
      · next f' r' _ hs =>
        simp only [Option.some.injEq, Prod.mk.injEq] at h
        have := spanDigits_length hs
        rw [← h.2]
        simp only [List.length_cons]
        omega
    · simp only [Option.some.injEq, Prod.mk.injEq] at h
      rw [← h.2]

theorem parseExponentDigits_length {negative : Bool} {l r : List Char} {x : Int}
    (h : parseExponentDigits negative l = some (x, r)) : r.length ≤ l.length := by
  unfold parseExponentDigits at h
  split at h
  · cases h
  · next x' r' _ hs =>
    simp only [Option.some.injEq, Prod.mk.injEq] at h
    have := spanDigits_length hs
    rw [← h.2]
    omega

theorem parseExponent_length {l r : List Char} {x : Int}
    (h : parseExponent l = some (x, r)) : r.length ≤ l.length := by
  unfold parseExponent at h
  split at h
  · simp only [Option.some.injEq, Prod.mk.injEq] at h
    rw [← h.2]
  · split at h
    · split at h
      · cases h
      · split at h
        · have := parseExponentDigits_length h
          simp only [List.length_cons]
          omega
        · split at h
          · have := parseExponentDigits_length h
            simp only [List.length_cons]
            omega
          · have := parseExponentDigits_length h
            simp only [List.length_cons] at this ⊢
            omega
    · simp only [Option.some.injEq, Prod.mk.injEq] at h
      rw [← h.2]

theorem parseDecimal_length {l r : List Char} {v : Nat × Nat × Int}
    (h : parseDecimal l = some (v, r)) : r.length < l.length := by
  unfold parseDecimal at h
  split at h
  · cases h
  · next d ds l₁ hs =>
    have h1 := spanDigits_length hs
    split at h
    · cases h
    · split at h
      · cases h
      · next f l₂ hf =>
        have h2 := parseFraction_length hf
        split at h
        · cases h
        · next x l₃ he =>
          have h3 := parseExponent_length he
          simp only [Option.some.injEq, Prod.mk.injEq] at h
          rw [← h.2]
          simp only [List.length_cons] at h1
          omega

theorem parseUnsigned_length {negative : Bool} {l r : List Char} {v : JsVal}
    (h : parseUnsigned negative l = some (v, r)) : r.length < l.length := by
  unfold parseUnsigned at h
  split at h
  · next hp =>
    simp only [Option.some.injEq, Prod.mk.injEq] at h
    rw [← h.2]
    exact parseDecimal_length hp
  · cases h

theorem parseNumber_length {l r : List Char} {v : JsVal}
    (h : parseNumber l = some (v, r)) : r.length < l.length := by
  unfold parseNumber at h
  split at h
  · cases h
  · split at h
    · have := parseUnsigned_length h
      simp only [List.length_cons]
      omega
    · exact parseUnsigned_length h

theorem expectWord_length {word l r : List Char} (h : expectWord word l = some r) :
    r.length ≤ l.length := by
  unfold expectWord at h
  split at h
  · simp only [Option.some.injEq] at h
    rw [← h, List.length_drop]
    omega
  · cases h

theorem within_error {α β : Type} {n m : Nat} {e : ParseError}
    (h : Parsed.within n (.error e : Parsed α)) : Parsed.within m (.error e : Parsed β) := by
  cases e with
  | syntaxError => trivial
  | outOfFuel => exact h


theorem parse_within (fuel : Nat) :
    (∀ l : List Char, 2 * l.length + 1 ≤ fuel → Parsed.within l.length (parseValue fuel l)) ∧
      (∀ l : List Char, 2 * l.length + 2 ≤ fuel →
        Parsed.within l.length (parseElements fuel l)) ∧
      (∀ l : List Char, 2 * l.length + 2 ≤ fuel →
        Parsed.within l.length (parseMembers fuel l)) := by
  induction fuel with
  | zero =>
    refine ⟨fun l h => ?_, fun l h => ?_, fun l h => ?_⟩ <;> omega
  | succ fuel ih =>
    obtain ⟨ihv, ihe, ihm⟩ := ih
    refine ⟨fun l hl => ?_, fun l hl => ?_, fun l hl => ?_⟩
    · unfold parseValue
      split
      · trivial
      · next c rest hs =>
        have h0 := skipWhitespace_cons_length hs
        split
        · split
          · trivial
          · next c' rest' hs' =>
            have h1 := skipWhitespace_cons_length hs'
            split
            · show rest'.length < l.length
              omega
            · have hm := ihm (c' :: rest') (by simp only [List.length_cons]; omega)
              split
              · next members rest'' hp =>
                rw [hp] at hm
                show rest''.length < l.length
                have : rest''.length < (c' :: rest').length := hm
                simp only [List.length_cons] at this
                omega
              · next e hp =>
                rw [hp] at hm
                exact within_error hm
        · split
          · split
            · trivial
            · next c' rest' hs' =>
              have h1 := skipWhitespace_cons_length hs'
              split
              · show rest'.length < l.length
                omega
              · have hm := ihe (c' :: rest') (by simp only [List.length_cons]; omega)
                split
                · next items rest'' hp =>
                  rw [hp] at hm
                  show rest''.length < l.length
                  have : rest''.length < (c' :: rest').length := hm
                  simp only [List.length_cons] at this
                  omega
                · next e hp =>
                  rw [hp] at hm
                  exact within_error hm
          · split
            · split
              · next s rest' hp =>
                have := parseStringBody_length hp
                show rest'.length < l.length
                omega
              · trivial
            · split
              · split
                · next rest' hp =>
                  have := expectWord_length hp
                  show rest'.length < l.length
                  omega
                · trivial
              · split
                · split
                  · next rest' hp =>
                    have := expectWord_length hp
                    show rest'.length < l.length
                    omega
                  · trivial
                · split
                  · split
                    · next rest' hp =>
                      have := expectWord_length hp
                      show rest'.length < l.length
                      omega
                    · trivial
                  · split
                    · next v rest' hp =>
                      have := parseNumber_length hp
                      show rest'.length < l.length
                      simp only [List.length_cons] at this
                      omega
                    · trivial
    · unfold parseElements
      have hv := ihv l (by omega)
      split
      · next e hp =>
        rw [hp] at hv
        exact within_error hv
      · next v rest hp =>
        rw [hp] at hv
        have hr : rest.length < l.length := hv
        split
        · next c rest' hs =>
          have h1 := skipWhitespace_cons_length hs
          split
          · have hm := ihe rest' (by omega)
            split
            · next vs rest'' hp' =>
              rw [hp'] at hm
              show rest''.length < l.length
              have : rest''.length < rest'.length := hm
              omega
            · next e hp' =>
              rw [hp'] at hm
              exact within_error hm
          · split
            · show rest'.length < l.length
              omega
            · trivial
        · trivial
    · unfold parseMembers
      split
      · next c rest hs =>
        have h0 := skipWhitespace_cons_length hs
        split
        · split
          · trivial
          · next k rest₁ hk =>
            have h1 := parseStringBody_length hk
            split
            · next c₁ rest₂ hs₁ =>
              have h2 := skipWhitespace_cons_length hs₁
              split
              · have hv := ihv rest₂ (by omega)
                split
                · next e hp =>
                  rw [hp] at hv
                  exact within_error hv
                · next v rest₃ hp =>
                  rw [hp] at hv
                  have h3 : rest₃.length < rest₂.length := hv
                  split
                  · next c₂ rest₄ hs₂ =>
                    have h4 := skipWhitespace_cons_length hs₂
                    split
                    · have hm := ihm rest₄ (by omega)
                      split
                      · next ms rest₅ hp' =>
                        rw [hp'] at hm
                        show rest₅.length < l.length
                        have : rest₅.length < rest₄.length := hm
                        omega
                      · next e hp' =>
                        rw [hp'] at hm
                        exact within_error hm
                    · split
                      · show rest₄.length < l.length
                        omega
                      · trivial
                  · trivial
              · trivial
            · trivial
        · trivial
      · trivial

/-- The budget `2 * length + 1` of `jsonParse` is never used up. -/
theorem parseValue_budget (l : List Char) :
    parseValue (2 * l.length + 1) l ≠ .error .outOfFuel := by
  intro h
  have := (parse_within (2 * l.length + 1)).1 l (le_refl _)
  rw [h] at this
  exact this

/-! ### Decoding the QR payload -/

theorem parseQRData_error {s : String} {e : String} (h : jsonParse s = .error e) :
    parseQRData s = parseFailure := by
  simp only [parseQRData, h]; rfl

theorem parseQRData_ok {s : String} {data : JsVal} (h : jsonParse s = .ok data) :
    parseQRData s =
      match data with
      | .undefined => parseFailure
      | .null => parseFailure
      | .obj fields => if allTruthy fields then validResult fields else formatFailure
      | _ => formatFailure := by
  simp only [parseQRData, h]
  cases data with
  | undefined => rfl
  | null => rfl
  | bool b => rfl
  | num n => rfl
  | frac m e => rfl
  | str s => rfl
  | arr items => rfl
  | obj fields =>
    simp only [allTruthy, validResult, formatFailure]
    cases hv : (JsVal.lookup "v" fields).truthy <;>
    cases hh : (JsVal.lookup "h" fields).truthy <;>
    cases ht : (JsVal.lookup "t" fields).truthy <;>
    cases ha : (JsVal.lookup "a" fields).truthy <;>
    simp [JsVal.getProp, andAlso, bind, Except.bind, pure, Except.pure, hv, hh, ht, ha]


/-! ### Reading back what `JSON.stringify` wrote -/

theorem skipWhitespace_cons (c : Char) (l : List Char) (hc : isJsonWhitespace c = false) :
    skipWhitespace (c :: l) = c :: l := by
  simp [skipWhitespace, List.dropWhile, hc]

theorem char_not_surrogate (c : Char) : c.toNat < 55296 ∨ 57343 < c.toNat := by
  have h := c.valid
  simp only [UInt32.isValidChar, Nat.isValidChar] at h
  show c.val.toNat < 55296 ∨ 57343 < c.val.toNat
  omega

theorem unitChar_toNat (c : Char) : unitChar c.toNat = c := by
  have h : ¬ (55296 ≤ c.toNat ∧ c.toNat ≤ 57343) := by
    have := char_not_surrogate c
    omega
  simp only [unitChar, h, if_false]
  exact Char.ofNat_toNat c

theorem utf16Decode_encode (c : Char) (us : List Nat) :
    utf16Decode (utf16Encode c ++ us) = c :: utf16Decode us := by
  have hs := char_not_surrogate c
  have hlt := char_toNat_lt c
  unfold utf16Encode
  split
  · next hb =>
    cases us with
    | nil => simp [utf16Decode, unitChar_toNat]
    | cons v rest =>
      have h : ¬ (55296 ≤ c.toNat ∧ c.toNat ≤ 56319 ∧ 56320 ≤ v ∧ v ≤ 57343) := by omega
      simp [utf16Decode, h, unitChar_toNat]
  · next hb =>
    have h : 55296 ≤ 55296 + (c.toNat - 65536) / 1024 ∧
        55296 + (c.toNat - 65536) / 1024 ≤ 56319 ∧
        56320 ≤ 56320 + (c.toNat - 65536) % 1024 ∧
        56320 + (c.toNat - 65536) % 1024 ≤ 57343 := by omega
    have e : 65536 + (55296 + (c.toNat - 65536) / 1024 - 55296) * 1024 +
        (56320 + (c.toNat - 65536) % 1024 - 56320) = c.toNat := by omega
    simp only [List.cons_append, List.nil_append, utf16Decode, h, and_self, if_true, e,
      Char.ofNat_toNat]
    rfl

theorem utf16Decode_flatMap (body : List Char) :
    utf16Decode (body.flatMap utf16Encode) = body := by
  induction body with
  | nil => rfl
  | cons c body ih => rw [List.flatMap_cons, utf16Decode_encode, ih]

/-! ### Reading back a number -/

theorem one_lt_twoToThe1075 : 1 < twoToThe1075 := by
  unfold twoToThe1075
  exact Nat.one_lt_pow (by decide) (Nat.one_lt_pow (by decide) (by decide))

theorem roundsToZero_integer (n : Nat) : roundsToZero n 0 = decide (n = 0) := by
  have h := one_lt_twoToThe1075
  unfold roundsToZero powerOfTen
  by_cases h0 : n = 0
  · subst h0
    simp
  · have h1 : 1 ≤ n := Nat.one_le_iff_ne_zero.mpr h0
    have h2 : twoToThe1075 ≤ n * twoToThe1075 := Nat.le_mul_of_pos_left _ h1
    have h3 : ¬ n * twoToThe1075 ≤ 1 := by omega
    simp [h0, h3]

theorem parseUnsigned_toDigits (negative : Bool) (n : Nat) (r : List Char) (hr : EndsNumber r) :
    parseUnsigned negative (Nat.toDigits 10 n ++ r) =
      some (.num (if negative then -(n : Int) else n), r) := by
  have hspan := spanDigits_append (Nat.toDigits 10 n) r (toDigits_isDigit n)
    (fun c hc => (hr c hc).1)
  have hval := digitsValue_toDigits n
  cases hd : Nat.toDigits 10 n with
  | nil => exact absurd hd (toDigits_ne_nil _ _)
  | cons d ds =>
    have hz := toDigits_no_leading_zero n d ds hd
    rw [hd] at hspan hval
    have hfrac : parseFraction r = some ([], r) := by
      cases r with
      | nil => rfl
      | cons c r =>
        have := (hr c (by simp)).2.1
        simp [parseFraction, this]
    have hexp : parseExponent r = some (0, r) := by
      cases r with
      | nil => rfl
      | cons c r =>
        have := (hr c (by simp)).2.2
        simp [parseExponent, this.1, this.2]
    simp only [parseUnsigned, parseDecimal, hspan, hz, if_false, hfrac, hexp, List.append_nil,
      hval, List.length_nil, mkNumber, Nat.cast_zero, sub_self, Int.toNat_zero,
      roundsToZero_integer, exactNumber]
    by_cases h0 : n = 0
    · subst h0
      cases negative <;> simp
    · cases negative <;> simp [h0]

theorem parseNumber_numberToString (n : Int) (r : List Char) (hr : EndsNumber r) :
    parseNumber (numberToString n ++ r) = some (.num n, r) := by
  unfold numberToString
  split
  · next hneg =>
    have := parseUnsigned_toDigits true n.natAbs r hr
    simp only [List.cons_append, parseNumber, if_true, this]
    congr 3
    omega
  · next hpos =>
    have hu := parseUnsigned_toDigits false n.toNat r hr
    cases hd : Nat.toDigits 10 n.toNat with
    | nil => exact absurd hd (toDigits_ne_nil _ _)
    | cons d ds =>
      have hdig : d.isDigit = true := toDigits_isDigit n.toNat d (by rw [hd]; simp)
      have hne : d ≠ '-' := by
        rintro rfl
        exact absurd hdig (by decide)
      rw [hd] at hu
      simp only [List.cons_append, parseNumber, hne, if_false] at hu ⊢
      rw [hu]
      congr 3
      simp only [Bool.false_eq_true, if_false]
      omega

theorem hexDigitValue_digitChar : ∀ d, d < 16 → hexDigitValue (Nat.digitChar d) = some d := by
  decide

theorem parseStringUnits_escape (e ch : Char) (l : List Char) (he : e ≠ 'u')
    (hs : simpleEscape e = some ch) :
    parseStringUnits .normal (backslash :: e :: l) =
      match parseStringUnits .normal l with
      | some (us, r) => some (ch.toNat :: us, r)
      | none => none := by
  have h1 : backslash ≠ dquote := by decide
  simp only [parseStringUnits, h1, if_false, if_true, he, hs]
  cases parseStringUnits .normal l with
  | none => rfl
  | some p => rfl

theorem parseStringUnits_control (n : Nat) (hn : n < 32) (l : List Char) :
    parseStringUnits .normal
        (backslash :: 'u' :: '0' :: '0' :: Nat.digitChar (n / 16) :: Nat.digitChar (n % 16) :: l) =
      match parseStringUnits .normal l with
      | some (us, r) => some (n :: us, r)
      | none => none := by
  have h1 : backslash ≠ dquote := by decide
  have h0 : hexDigitValue '0' = some 0 := by decide
  have ha := hexDigitValue_digitChar (n / 16) (by omega)
  have hb := hexDigitValue_digitChar (n % 16) (by omega)
  have e : (0 * 16 + 0) * 16 + n / 16 = n / 16 := by omega
  have e' : n / 16 * 16 + n % 16 = n := by omega
  simp only [parseStringUnits, h1, if_false, if_true, h0, ha, hb, e, e']
  cases parseStringUnits .normal l with
  | none => rfl
  | some p => simp

theorem parseStringUnits_quoteChar (c : Char) (l : List Char) :
    parseStringUnits .normal (quoteChar c ++ l) =
      match parseStringUnits .normal l with
      | some (us, r) => some (utf16Encode c ++ us, r)
      | none => none := by
  unfold quoteChar
  split
  · next h =>
    subst h
    exact parseStringUnits_escape dquote dquote l (by decide) (by decide)
  split
  · next h =>
    subst h
    exact parseStringUnits_escape backslash backslash l (by decide) (by decide)
  split
  · next h =>
    have hc := char_eq_of_toNat h
    subst hc
    exact parseStringUnits_escape 'b' (Char.ofNat 8) l (by decide) (by decide)
  split
  · next h =>
    have hc := char_eq_of_toNat h
    subst hc
    exact parseStringUnits_escape 't' (Char.ofNat 9) l (by decide) (by decide)
  split
  · next h =>
    have hc := char_eq_of_toNat h
    subst hc
    exact parseStringUnits_escape 'n' (Char.ofNat 10) l (by decide) (by decide)
  split
  · next h =>
    have hc := char_eq_of_toNat h
    subst hc
    exact parseStringUnits_escape 'f' (Char.ofNat 12) l (by decide) (by decide)
  split
  · next h =>
    have hc := char_eq_of_toNat h
    subst hc
    exact parseStringUnits_escape 'r' (Char.ofNat 13) l (by decide) (by decide)
  split
  · next h =>
    have hu : utf16Encode c = [c.toNat] := by
      have : c.toNat < 65536 := by omega
      simp [utf16Encode, this]
    rw [hu]
    exact parseStringUnits_control c.toNat h l
  · next hq hb _ _ _ _ _ h32 =>
    simp only [List.cons_append, List.nil_append, parseStringUnits, hq, hb, h32, if_false]
    rfl

theorem parseStringUnits_quoted (body rest : List Char) :
    parseStringUnits .normal (body.flatMap quoteChar ++ dquote :: rest) =
      some (body.flatMap utf16Encode, rest) := by
  induction body with
  | nil => simp [parseStringUnits]
  | cons c body ih =>
    rw [List.flatMap_cons, List.append_assoc, parseStringUnits_quoteChar, ih]
    rfl


/-! ### Reading back values and members -/

theorem parseStringBody_quoted (body rest : List Char) :
    parseStringBody (body.flatMap quoteChar ++ dquote :: rest) = some (body, rest) := by
  simp only [parseStringBody, parseStringUnits_quoted, utf16Decode_flatMap]

theorem parseValue_string (fuel : Nat) (s : String) (rest : List Char) :
    parseValue (fuel + 1) (quoteJSONString s ++ rest) = .ok (.str s, rest) := by
  have hw : isJsonWhitespace dquote = false := by decide
  have h1 : dquote ≠ '{' := by decide
  have h2 : dquote ≠ '[' := by decide
  simp only [quoteJSONString, List.cons_append, List.append_assoc, List.singleton_append,
    parseValue, skipWhitespace_cons _ _ hw, h1, h2, if_false, if_true,
    parseStringBody_quoted, List.nil_append]

theorem digitChar_numberHeads : ∀ d, d < 10 → Nat.digitChar d ∈ numberHeads := by decide

theorem numberToString_head (n : Int) :
    ∃ c t, numberToString n = c :: t ∧ c ∈ numberHeads := by
  cases h : numberToString n with
  | nil => exact absurd h (numberToString_ne_nil n)
  | cons c t =>
    refine ⟨c, t, rfl, ?_⟩
    simp only [numberToString] at h
    split at h
    · simp only [List.cons.injEq] at h
      rw [← h.1]
      decide
    · obtain ⟨d, hd, rfl⟩ := toDigits_mem 10 (by decide) n.toNat c (by rw [h]; simp)
      exact digitChar_numberHeads d hd

theorem numberHeads_props : ∀ c ∈ numberHeads,
    isJsonWhitespace c = false ∧ c ≠ '{' ∧ c ≠ '[' ∧ c ≠ dquote ∧ c ≠ 'n' ∧ c ≠ 't' ∧
      c ≠ 'f' := by
  decide

theorem parseValue_number (fuel : Nat) (n : Int) (r : List Char) (hr : EndsNumber r) :
    parseValue (fuel + 1) (numberToString n ++ r) = .ok (.num n, r) := by
  have hp := parseNumber_numberToString n r hr
  obtain ⟨c, t, hn, hc⟩ := numberToString_head n
  obtain ⟨hw, h1, h2, h3, h4, h5, h6⟩ := numberHeads_props c hc
  rw [hn] at hp ⊢
  simp only [List.cons_append] at hp ⊢
  simp only [parseValue, skipWhitespace_cons _ _ hw, h1, h2, h3, h4, h5, h6, if_false, hp]


theorem parseMembers_cons (fuel : Nat) (key : String) (text rest : List Char) (v : JsVal)
    (hv : parseValue fuel text = .ok (v, ',' :: rest)) :
    parseMembers (fuel + 1) (quoteJSONString key ++ ':' :: text) =
      match parseMembers fuel rest with
      | .ok (ms, rest') => .ok ((key, v) :: ms, rest')
      | .error e => .error e := by
  have hw : isJsonWhitespace dquote = false := by decide
  have hc : isJsonWhitespace ':' = false := by decide
  have hm : isJsonWhitespace ',' = false := by decide
  simp only [quoteJSONString, List.cons_append, List.append_assoc, List.singleton_append,
    parseMembers, skipWhitespace_cons _ _ hw, skipWhitespace_cons _ _ hc,
    skipWhitespace_cons _ _ hm, if_true, parseStringBody_quoted, hv, List.nil_append]

theorem parseMembers_last (fuel : Nat) (key : String) (text rest : List Char) (v : JsVal)
    (hv : parseValue fuel text = .ok (v, '}' :: rest)) :
    parseMembers (fuel + 1) (quoteJSONString key ++ ':' :: text) = .ok ([(key, v)], rest) := by
  have hw : isJsonWhitespace dquote = false := by decide
  have hc : isJsonWhitespace ':' = false := by decide
  have hm : isJsonWhitespace '}' = false := by decide
  have hne : '}' ≠ ',' := by decide
  simp only [quoteJSONString, List.cons_append, List.append_assoc, List.singleton_append,
    parseMembers, skipWhitespace_cons _ _ hw, skipWhitespace_cons _ _ hc,
    skipWhitespace_cons _ _ hm, if_true, parseStringBody_quoted, hv, hne, if_false,
    List.nil_append]

theorem parseValue_object (fuel : Nat) (text : List Char) :
    parseValue (fuel + 1) ('{' :: dquote :: text) =
      match parseMembers fuel (dquote :: text) with
      | .ok (members, rest) => .ok (objectOfMembers members, rest)
      | .error e => .error e := by
  have hw : isJsonWhitespace dquote = false := by decide
  have hc : isJsonWhitespace '{' = false := by decide
  have hne : dquote ≠ '}' := by decide
  simp only [parseValue, skipWhitespace_cons _ _ hw, skipWhitespace_cons _ _ hc, if_true, hne,
    if_false]

theorem qrText_data (h : String) (t : Int) :
    (qrText h t).data =
      '{' :: (quoteJSONString "v" ++ ':' :: (quoteJSONString "1.0" ++ ',' ::
        (quoteJSONString "h" ++ ':' :: (quoteJSONString h ++ ',' ::
          (quoteJSONString "t" ++ ':' :: (numberToString t ++ ',' ::
            (quoteJSONString "a" ++ ':' :: (quoteJSONString "SHA256" ++ ['}'])))))))) := by
  simp only [qrText, String.data_append, List.append_assoc]
  rfl

theorem jsonParse_qrText (h : String) (t : Int) :
    jsonParse (qrText h t) = .ok (qrObject h t) := by
  obtain ⟨n, hn⟩ : ∃ n, 2 * (qrText h t).data.length + 1 = n + 6 := by
    refine ⟨2 * (qrText h t).data.length - 5, ?_⟩
    have : 3 ≤ (qrText h t).data.length := by
      rw [qrText_data]
      simp [quoteJSONString]
      omega
    omega
  have ha : parseValue (n + 1) (quoteJSONString "SHA256" ++ ['}']) =
      .ok (.str "SHA256", ['}']) := parseValue_string n _ _
  have hA := parseMembers_last (n + 1) "a" _ _ _ ha
  have ht : parseValue (n + 2) (numberToString t ++ ',' ::
      (quoteJSONString "a" ++ ':' :: (quoteJSONString "SHA256" ++ ['}']))) = _ :=
    parseValue_number (n + 1) t _ (by
      intro c hc
      simp only [List.head?_cons, Option.mem_def, Option.some.injEq] at hc
      subst hc
      decide)
  have hT := parseMembers_cons (n + 2) "t" _ _ _ ht
  rw [hA] at hT
  have hh : parseValue (n + 3) (quoteJSONString h ++ ',' :: (quoteJSONString "t" ++ ':' ::
      (numberToString t ++ ',' ::
        (quoteJSONString "a" ++ ':' :: (quoteJSONString "SHA256" ++ ['}']))))) = _ :=
    parseValue_string (n + 2) h _
  have hH := parseMembers_cons (n + 3) "h" _ _ _ hh
  rw [hT] at hH
  have hv : parseValue (n + 4) (quoteJSONString "1.0" ++ ',' ::
      (quoteJSONString "h" ++ ':' :: (quoteJSONString h ++ ',' ::
        (quoteJSONString "t" ++ ':' :: (numberToString t ++ ',' ::
          (quoteJSONString "a" ++ ':' :: (quoteJSONString "SHA256" ++ ['}']))))))) = _ :=
    parseValue_string (n + 3) "1.0" _
  have hV := parseMembers_cons (n + 4) "v" _ _ _ hv
  rw [hH] at hV
  have hO := parseValue_object (n + 5) ((quoteJSONString "v" ++ ':' :: (quoteJSONString "1.0" ++ ',' ::
        (quoteJSONString "h" ++ ':' :: (quoteJSONString h ++ ',' ::
          (quoteJSONString "t" ++ ':' :: (numberToString t ++ ',' ::
            (quoteJSONString "a" ++ ':' :: (quoteJSONString "SHA256" ++ ['}'])))))))).tail)
  unfold jsonParse
  rw [hn, qrText_data]
  have hq : quoteJSONString "v" ++ ':' :: (quoteJSONString "1.0" ++ ',' ::
        (quoteJSONString "h" ++ ':' :: (quoteJSONString h ++ ',' ::
          (quoteJSONString "t" ++ ':' :: (numberToString t ++ ',' ::
            (quoteJSONString "a" ++ ':' :: (quoteJSONString "SHA256" ++ ['}'])))))))
      = dquote :: (quoteJSONString "v" ++ ':' :: (quoteJSONString "1.0" ++ ',' ::
        (quoteJSONString "h" ++ ':' :: (quoteJSONString h ++ ',' ::
          (quoteJSONString "t" ++ ':' :: (numberToString t ++ ',' ::
            (quoteJSONString "a" ++ ':' :: (quoteJSONString "SHA256" ++ ['}'])))))))).tail := rfl
  rw [hq, hO, ← hq, hV]
  rfl

/-! ### The size of the QR payload -/

theorem utf8_length_ascii (l : List Char) (h : ∀ c ∈ l, c.toNat < 128) :
    (l.flatMap utf8EncodeChar).length = l.length := by
  induction l with
  | nil => rfl
  | cons c l ih =>
    have hc := h c (List.mem_cons_self _ _)
    simp only [List.flatMap_cons, List.length_append, List.length_cons,
      ih (fun x hx => h x (List.mem_cons_of_mem _ hx)), utf8EncodeChar, hc, if_true,
      List.length_nil]
    omega

theorem hexDigits_ascii : ∀ c ∈ hexDigits, c.toNat < 128 := by decide

theorem digitChar_ascii : ∀ d, d < 10 → (Nat.digitChar d).toNat < 128 := by decide

theorem toDigits_length_le (n : Nat) (h : n < 10 ^ 16) : (Nat.toDigits 10 n).length ≤ 16 :=
  Nat.toDigitsCore_length 10 (by decide) (n + 1) n 16 h (by decide)

theorem qrText_length (h : String) (t : Int)
    (hh : isValidShortHashFormat h = true) (h0 : 0 ≤ t) :
    (textEncode (qrText h t)).length = 52 + (Nat.toDigits 10 t.toNat).length := by
  obtain ⟨hl, hhex⟩ := (testAnchoredRepeat_hex 16 h).mp hh
  have hq := quoteJSONString_hex h hhex
  have hn : numberToString t = Nat.toDigits 10 t.toNat := by
    simp only [numberToString, if_neg (not_lt.mpr h0)]
  have e1 := utf8_length_ascii h.data (fun c hc => hexDigits_ascii c (hhex c hc))
  have e2 := utf8_length_ascii (Nat.toDigits 10 t.toNat) (fun c hc => by
    obtain ⟨d, hd, rfl⟩ := toDigits_mem 10 (by decide) _ c hc
    exact digitChar_ascii d hd)
  have hl' : h.data.length = 16 := hl
  simp only [textEncode, qrText, String.data_append, hq, hn, List.flatMap_append,
    List.length_append, List.flatMap_cons, List.length_cons, e1, e2, hl']
  simp [utf8EncodeChar, dquote]
  omega


/-- C11 (amended). For every hash result whose short hash (the `shortHash` property, or
the first 16 characters of `hash` when that is absent or empty) is 16 hexadecimal
digits and whose timestamp is an integer with `0 ≤ t < 2 ^ 53`, the UTF-8 encoding of
the text returned by `createQRData` has 52 bytes plus one byte for each decimal digit of
`t`, which is at most 68 bytes and so less than 100. -/
theorem createQRData_size (r : HashResult)
    (hh : isValidShortHashFormat (orString r.shortHash (substring0 r.hash 16)) = true)
    (h0 : 0 ≤ r.timestamp) (h53 : r.timestamp < 2 ^ 53) :
    (textEncode (createQRData r)).length = 52 + (Nat.toDigits 10 r.timestamp.toNat).length ∧
      (textEncode (createQRData r)).length ≤ 68 ∧
      (textEncode (createQRData r)).length < 100 := by
  have hlen := qrText_length _ r.timestamp hh h0
  rw [← createQRData_eq] at hlen
  have hd : (Nat.toDigits 10 r.timestamp.toNat).length ≤ 16 :=
    toDigits_length_le _ (by
      have : (r.timestamp.toNat : Int) = r.timestamp := Int.toNat_of_nonneg h0
      have h2 : (r.timestamp.toNat : Int) < 2 ^ 53 := by omega
      have h3 : r.timestamp.toNat < 2 ^ 53 := by exact_mod_cast h2
      exact lt_trans h3 (by norm_num))
  omega

/-- C11 (amended), at `sampleResult`, whose timestamp has 13 digits. -/
theorem createQRData_size_witness :
    (textEncode (createQRData sampleResult)).length = 52 + 13 ∧
      (textEncode (createQRData sampleResult)).length ≤ 68 ∧
      (textEncode (createQRData sampleResult)).length < 100 :=
  createQRData_size sampleResult (by decide) (by decide) (by decide)

/-- C11, counterexample. The hash result `sampleResult` has a short hash of 16
hexadecimal digits and the timestamp 1700000000000, of 13 digits; the text
`createQRData` returns for it has 65 bytes, not the 66 of the claimed length. -/
theorem createQRData_length_not_claimed :
    isValidShortHashFormat (orString sampleResult.shortHash
        (substring0 sampleResult.hash 16)) = true ∧
      0 ≤ sampleResult.timestamp ∧ sampleResult.timestamp < 2 ^ 53 ∧
      (textEncode (createQRData sampleResult)).length = 65 ∧
      claimedQRLength sampleResult.timestamp = 66 := by
  refine ⟨by decide, by decide, by decide, by decide, by decide⟩

/-! ### The round trip of the QR payload -/

theorem parseQRData_qrText (h : String) (t : Int) :
    parseQRData (qrText h t) =
      if h ≠ "" ∧ t ≠ 0 then
        .obj [
          ("version", .str "1.0"),
          ("shortHash", .str h),
          ("timestamp", .num t),
          ("algorithm", .str "SHA256"),
          ("isValid", .bool true)]
      else formatFailure := by
  rw [parseQRData_ok (jsonParse_qrText h t)]
  simp only [qrObject, allTruthy, JsVal.lookup, JsVal.truthy]
  by_cases hh : h = "" <;> by_cases ht : t = 0 <;> simp [hh, ht, validResult, JsVal.lookup]

/-- C12. For every hash result, `parseQRData(createQRData(hashResult))` is the valid
result with the version `1.0`, the short hash of the payload, the timestamp and the
algorithm `SHA256` when the short hash is not empty and the timestamp is not 0, and it
is the failure `Invalid QR format` otherwise; so it is for `epochResult`, whose hash is
64 hexadecimal digits, whose `shortHash` is the first 16 of them and whose timestamp
is 0. -/
theorem parseQRData_createQRData :
    (∀ r : HashResult,
      parseQRData (createQRData r) =
        if orString r.shortHash (substring0 r.hash 16) ≠ "" ∧ r.timestamp ≠ 0 then
          .obj [
            ("version", .str "1.0"),
            ("shortHash", .str (orString r.shortHash (substring0 r.hash 16))),
            ("timestamp", .num r.timestamp),
            ("algorithm", .str "SHA256"),
            ("isValid", .bool true)]
        else formatFailure) ∧
      isValidHashFormat epochResult.hash = true ∧
      epochResult.shortHash = some (substring0 epochResult.hash 16) ∧
      createQRData epochResult =
        "\x7b\"v\":\"1.0\",\"h\":\"0123456789abcdef\",\"t\":0,\"a\":\"SHA256\"\x7d" ∧
      parseQRData (createQRData epochResult) = formatFailure := by
  refine ⟨fun r => ?_, by decide, by decide, by decide, by rfl⟩
  rw [createQRData_eq, parseQRData_qrText]

/-! ### Totality and the validity test of the decoding -/

/-- C13. For every string, `parseQRData` returns an object (nothing is thrown: what the
`try` block throws is caught) whose `isValid` is `true`, or the object with exactly the
properties `isValid`, which is `false`, and `error`, which is one of the two reasons;
`isValidQRFormat` returns the boolean. -/
theorem parseQRData_total (qrString : String) :
    ∃ fields, parseQRData qrString = .obj fields ∧
      ((JsVal.lookup "isValid" fields = .bool true ∧ isValidQRFormat qrString = .bool true) ∨
        (isValidQRFormat qrString = .bool false ∧
          (fields = [("isValid", .bool false), ("error", .str "Invalid QR format")] ∨
            fields = [("isValid", .bool false), ("error", .str "Failed to parse QR data")]))) := by
  have key : parseQRData qrString = parseFailure ∨ parseQRData qrString = formatFailure ∨
      ∃ fields, parseQRData qrString = validResult fields := by
    cases h : jsonParse qrString with
    | error e => exact Or.inl (parseQRData_error h)
    | ok data =>
      rw [parseQRData_ok h]
      cases data with
      | undefined => exact Or.inl rfl
      | null => exact Or.inl rfl
      | bool b => exact Or.inr (Or.inl rfl)
      | num n => exact Or.inr (Or.inl rfl)
      | frac m e => exact Or.inr (Or.inl rfl)
      | str s => exact Or.inr (Or.inl rfl)
      | arr items => exact Or.inr (Or.inl rfl)
      | obj fields =>
        by_cases ht : allTruthy fields = true
        · exact Or.inr (Or.inr ⟨fields, by simp [ht]⟩)
        · exact Or.inr (Or.inl (by simp [ht]))
  rcases key with h | h | ⟨fields, h⟩
  · exact ⟨_, h, Or.inr ⟨by rw [isValidQRFormat, h]; rfl, Or.inr rfl⟩⟩
  · exact ⟨_, h, Or.inr ⟨by rw [isValidQRFormat, h]; rfl, Or.inl rfl⟩⟩
  · exact ⟨_, h, Or.inl ⟨rfl, by rw [isValidQRFormat, h]; rfl⟩⟩

theorem isValidQRFormat_ok {s : String} {data : JsVal} (h : jsonParse s = .ok data) :
    isValidQRFormat s =
      match data with
      | .obj fields => .bool (allTruthy fields)
      | _ => .bool false := by
  rw [isValidQRFormat, parseQRData_ok h]
  cases data with
  | obj fields =>
    cases ht : allTruthy fields <;> simp [ht, validResult, formatFailure, JsVal.lookup]
  | _ => rfl

theorem isValidQRFormat_error {s : String} {e : String} (h : jsonParse s = .error e) :
    isValidQRFormat s = .bool false := by
  rw [isValidQRFormat, parseQRData_error h]
  rfl

/-- C14 (amended). For every text, `parseQRData(text).isValid` is true exactly when the
text is JSON for an object whose four properties `v`, `h`, `t` and `a` are all truthy
(present, and none of them `null`, `false`, 0 or the empty string), and false otherwise.
Neither the version string nor the characters and the length of `h` are checked, and the
values need not be strings or numbers. -/
theorem isValidQRFormat_fields (text : String) :
    (isValidQRFormat text = .bool true ↔
        ∃ fields, jsonParse text = .ok (.obj fields) ∧
          (JsVal.lookup "v" fields).truthy = true ∧ (JsVal.lookup "h" fields).truthy = true ∧
          (JsVal.lookup "t" fields).truthy = true ∧ (JsVal.lookup "a" fields).truthy = true) ∧
      (isValidQRFormat text = .bool false ↔
        ¬ ∃ fields, jsonParse text = .ok (.obj fields) ∧
          (JsVal.lookup "v" fields).truthy = true ∧ (JsVal.lookup "h" fields).truthy = true ∧
          (JsVal.lookup "t" fields).truthy = true ∧ (JsVal.lookup "a" fields).truthy = true) := by
  have key : ∀ fields : List (String × JsVal), allTruthy fields = true ↔
      ((JsVal.lookup "v" fields).truthy = true ∧ (JsVal.lookup "h" fields).truthy = true ∧
        (JsVal.lookup "t" fields).truthy = true ∧ (JsVal.lookup "a" fields).truthy = true) := by
    intro fields
    simp only [allTruthy, Bool.and_eq_true, and_assoc]
  cases hp : jsonParse text with
  | error e =>
    rw [isValidQRFormat_error hp]
    simp
  | ok data =>
    rw [isValidQRFormat_ok hp]
    cases data with
    | obj fields =>
      show (JsVal.bool (allTruthy fields) = .bool true ↔ _) ∧
        (JsVal.bool (allTruthy fields) = .bool false ↔ _)
      have hsame : ∀ fields' : List (String × JsVal),
          (Except.ok (JsVal.obj fields) : Except String JsVal) = .ok (.obj fields') →
          fields = fields' := by
        intro fields' he
        injection he with he
        injection he
      constructor
      · constructor
        · intro h
          have h' : allTruthy fields = true := by injection h
          exact ⟨fields, rfl, (key fields).mp h'⟩
        · rintro ⟨fields', he, hall⟩
          have := hsame fields' he
          subst this
          rw [(key fields).mpr hall]
      · constructor
        · rintro h ⟨fields', he, hall⟩
          have h' : allTruthy fields = false := by injection h
          have := hsame fields' he
          subst this
          rw [(key fields).mpr hall] at h'
          cases h'
        · intro hn
          cases hall : allTruthy fields with
          | false => rfl
          | true => exact absurd ⟨fields, rfl, (key fields).mp hall⟩ hn
    | _ => simp

/-- C14 (amended), at a text with an unknown version, at a text whose version is a number
and whose timestamp is a string, at the text of an array and at the text of an object
without `t`. -/
theorem isValidQRFormat_fields_witness :
    isValidQRFormat unknownVersionText = .bool true ∧
      isValidQRFormat looseText = .bool true ∧
      isValidQRFormat "[1]" = .bool false ∧
      isValidQRFormat "\x7b\"v\":\"1.0\",\"h\":\"0123456789abcdef\",\"a\":\"SHA256\"\x7d" =
        .bool false :=
  ⟨(isValidQRFormat_fields unknownVersionText).1.mpr ⟨_, rfl, rfl, rfl, rfl, rfl⟩,
    (isValidQRFormat_fields looseText).1.mpr ⟨_, rfl, rfl, rfl, rfl, rfl⟩,
    (isValidQRFormat_fields "[1]").2.mpr (by
      rintro ⟨fields, h, _⟩
      have e : jsonParse "[1]" = .ok (.arr [.num 1]) := rfl
      rw [e] at h
      cases h),
    (isValidQRFormat_fields
      "\x7b\"v\":\"1.0\",\"h\":\"0123456789abcdef\",\"a\":\"SHA256\"\x7d").2.mpr (by
      rintro ⟨fields, h, _, _, h3, _⟩
      have e : jsonParse "\x7b\"v\":\"1.0\",\"h\":\"0123456789abcdef\",\"a\":\"SHA256\"\x7d" =
          .ok (.obj [("v", .str "1.0"), ("h", .str "0123456789abcdef"), ("a", .str "SHA256")]) :=
        rfl
      rw [e] at h
      simp only [Except.ok.injEq, JsVal.obj.injEq] at h
      rw [← h] at h3
      cases h3)⟩

/-- C14, counterexample. The text `unknownVersionText`, whose version is `9.9` and whose
`h` is `xyz`, is accepted by `parseQRData`, and is not valid as the claim words it. -/
theorem parseQRData_accepts_unknown_version :
    parseQRData unknownVersionText =
        .obj [
          ("version", .str "9.9"),
          ("shortHash", .str "xyz"),
          ("timestamp", .num 1),
          ("algorithm", .str "x"),
          ("isValid", .bool true)] ∧
      isValidQRFormat unknownVersionText = .bool true ∧
      claimedValidQR unknownVersionText = false := by
  refine ⟨by rfl, by rfl, by rfl⟩

set_option maxRecDepth 100000 in
/-- A numeral that rounds to zero as a double is the number 0: the timestamp `1e-400` is
falsy, so the text is rejected, as the timestamp `0` is. -/
theorem parseQRData_underflow :
    jsonParse underflowText =
        .ok (.obj [("v", .str "1.0"), ("h", .str "0123456789abcdef"), ("t", .num 0),
          ("a", .str "SHA256")]) ∧
      isValidQRFormat underflowText = .bool false ∧
      jsonParse "1e-323" = .ok (.frac 1 323) := by
  refine ⟨by rfl, by rfl, by rfl⟩

/-! ### The reasons of a decoding failure -/

theorem mkNumber_defined (negative : Bool) (mantissa fractionLength : Nat) (exponent : Int) :
    mkNumber negative mantissa fractionLength exponent ≠ .undefined := by
  unfold mkNumber
  split
  · simp
  · unfold exactNumber
    dsimp only
    split
    · simp
    · split
      · simp
      · split <;> simp

theorem parseUnsigned_defined (negative : Bool) (l rest : List Char) (v : JsVal)
    (h : parseUnsigned negative l = some (v, rest)) : v ≠ .undefined := by
  unfold parseUnsigned at h
  split at h
  · simp only [Option.some.injEq, Prod.mk.injEq] at h
    rw [← h.1]
    exact mkNumber_defined _ _ _ _
  · cases h

theorem parseNumber_defined (l rest : List Char) (v : JsVal)
    (h : parseNumber l = some (v, rest)) : v ≠ .undefined := by
  unfold parseNumber at h
  split at h
  · cases h
  · split at h
    · exact parseUnsigned_defined _ _ _ _ h
    · exact parseUnsigned_defined _ _ _ _ h

theorem parseValue_defined (fuel : Nat) (l rest : List Char) (v : JsVal)
    (h : parseValue fuel l = .ok (v, rest)) : v ≠ .undefined := by
  cases fuel with
  | zero => simp [parseValue] at h
  | succ fuel =>
    unfold parseValue at h
    split at h
    · cases h
    · split at h
      · split at h
        · cases h
        · split at h
          · simp only [Except.ok.injEq, Prod.mk.injEq] at h
            rw [← h.1]
            simp
          · split at h
            · simp only [Except.ok.injEq, Prod.mk.injEq] at h
              rw [← h.1]
              simp [objectOfMembers]
            · cases h
      · split at h
        · split at h
          · cases h
          · split at h
            · simp only [Except.ok.injEq, Prod.mk.injEq] at h
              rw [← h.1]
              simp
            · split at h
              · simp only [Except.ok.injEq, Prod.mk.injEq] at h
                rw [← h.1]
                simp
              · cases h
        · split at h
          · split at h
            · simp only [Except.ok.injEq, Prod.mk.injEq] at h
              rw [← h.1]
              simp
            · cases h
          · split at h
            · split at h
              · simp only [Except.ok.injEq, Prod.mk.injEq] at h
                rw [← h.1]
                simp
              · cases h
            · split at h
              · split at h
                · simp only [Except.ok.injEq, Prod.mk.injEq] at h
                  rw [← h.1]
                  simp
                · cases h
              · split at h
                · split at h
                  · simp only [Except.ok.injEq, Prod.mk.injEq] at h
                    rw [← h.1]
                    simp
                  · cases h
                · split at h
                  · next hn =>
                    simp only [Except.ok.injEq, Prod.mk.injEq] at h
                    rw [← h.1]
                    exact parseNumber_defined _ _ _ hn
                  · cases h

theorem jsonParse_defined (text : String) (v : JsVal) (h : jsonParse text = .ok v) :
    v ≠ .undefined := by
  unfold jsonParse at h
  split at h
  · next v' rest hp =>
    split at h
    · simp only [Except.ok.injEq] at h
      rw [← h]
      exact parseValue_defined _ _ _ _ hp
    · cases h
  · cases h

/-- C15. The reason `Failed to parse QR data` is given exactly for the texts that are
not JSON and for the JSON texts of the value `null`; so it is for the text `null`,
which is JSON. -/
theorem parseQRData_reason :
    (∀ text, parseQRData text = parseFailure ↔
        (∃ e, jsonParse text = .error e) ∨ jsonParse text = .ok .null) ∧
      jsonParse "null" = .ok .null ∧
      parseQRData "null" = parseFailure := by
  refine ⟨fun text => ?_, by rfl, by rfl⟩
  cases h : jsonParse text with
  | error e => simp [parseQRData_error h]
  | ok data =>
    have hd := jsonParse_defined text data h
    rw [parseQRData_ok h]
    cases data with
    | undefined => exact absurd rfl hd
    | null => simp
    | obj fields =>
      by_cases ht : allTruthy fields = true <;>
        simp [ht, parseFailure, formatFailure, validResult]
    | _ => simp [parseFailure, formatFailure]

/-! ### The store: insertion -/

theorem find?_filter_other (key other : String) (hkey : key ≠ other)
    (items : List (String × String)) :
    (items.filter (fun item => item.1 ≠ other)).find? (fun item => item.1 = key) =
      items.find? (fun item => item.1 = key) := by
  induction items with
  | nil => rfl
  | cons a items ih =>
    by_cases ha : a.1 = other
    · have hk : ¬ a.1 = key := fun h => hkey (h ▸ ha)
      rw [List.filter_cons_of_neg (by simpa using ha), List.find?_cons_of_neg _ (by simpa using hk)]
      exact ih
    · rw [List.filter_cons_of_pos (by simpa using ha)]
      by_cases hk : a.1 = key
      · rw [List.find?_cons_of_pos _ (by simpa using hk), List.find?_cons_of_pos _ (by simpa using hk)]
      · rw [List.find?_cons_of_neg _ (by simpa using hk), List.find?_cons_of_neg _ (by simpa using hk)]
        exact ih

/-- C16. In the three app classes, whose `addVerificationRecord` and `saveRecords` are
the same, `addVerificationRecord(record)` on a store holding the sequence `xs` leaves
the store holding `record` followed by `xs`; when the browser storage accepts the
write, the item `snaphashqr_records` then is the text `JSON.stringify` gives for that new
sequence and the other items are as before, and when the storage refuses the write, the
failure is caught and the storage is as before. -/
theorem addVerificationRecord_newest_first (record : JsVal) (xs : List JsVal)
    (items : List (String × String)) :
    (∃ text,
      jsonStringify (.arr (record :: xs)) = some text ∧
      ∃ storage,
        addVerificationRecord record
            { verificationRecords := .arr xs, localStorage := ⟨items, true⟩ } =
          .ok { verificationRecords := .arr (record :: xs), localStorage := storage } ∧
        storage.getItem "snaphashqr_records" = some text ∧
        ∀ key, key ≠ "snaphashqr_records" →
          storage.getItem key = LocalStorage.getItem ⟨items, true⟩ key) ∧
      addVerificationRecord record
          { verificationRecords := .arr xs, localStorage := ⟨items, false⟩ } =
        .ok { verificationRecords := .arr (record :: xs), localStorage := ⟨items, false⟩ } := by
  refine ⟨⟨_, rfl, _, rfl, ?_, ?_⟩, rfl⟩
  · simp only [LocalStorage.getItem, List.find?_cons_of_pos, decide_True]
    rfl
  · intro key hkey
    simp only [LocalStorage.getItem]
    rw [List.find?_cons_of_neg _ (by simpa using fun h => hkey h.symm),
      find?_filter_other key _ hkey]


/-! ### The store: lookup -/

theorem simpleApp_findRecordByHash :
    SimpleApp.findRecordByHash = AppController.findRecordByHash := rfl

theorem recordMatches_record (hash : String) (x : VerificationRecord) :
    AppController.recordMatches hash x.toJsVal = .ok (matchesExactly hash x) := by
  by_cases h1 : x.hash = hash <;> by_cases h2 : x.shortHash = hash <;>
    simp [AppController.recordMatches, VerificationRecord.toJsVal, JsVal.getProp, JsVal.lookup,
      strictEqualsString, matchesExactly, h1, h2, bind, Except.bind, pure, Except.pure]

theorem mainApp_recordMatches_record (hash : String) (x : VerificationRecord) :
    MainApp.recordMatches hash x.toJsVal = .ok (matchesAnyMode hash x) := by
  by_cases h1 : x.hash = hash <;> by_cases h2 : x.shortHash = hash <;>
    by_cases h3 : startsWith x.hash hash = true <;>
    simp [MainApp.recordMatches, VerificationRecord.toJsVal, JsVal.getProp, JsVal.lookup,
      strictEqualsString, matchesAnyMode, h1, h2, h3, bind, Except.bind, pure, Except.pure,
      JsVal.toChars]

theorem arrayFind_records (callback : JsVal → Except String Bool)
    (p : VerificationRecord → Bool) (hp : ∀ x, callback x.toJsVal = .ok (p x))
    (xs : List VerificationRecord) :
    arrayFind callback (xs.map VerificationRecord.toJsVal) = .ok (firstRecord p xs) := by
  induction xs with
  | nil => rfl
  | cons x xs ih =>
    simp only [List.map_cons, arrayFind, hp x, firstRecord, List.find?_cons]
    cases hx : p x with
    | true => rfl
    | false => simpa [firstRecord] using ih

theorem findRecordByHash_records (xs : List VerificationRecord) (input : String) :
    AppController.findRecordByHash (storeOf xs) input =
      .ok (firstRecord (matchesExactly input) xs) :=
  arrayFind_records _ _ (recordMatches_record input) xs

theorem mainApp_findRecordByHash_records (xs : List VerificationRecord) (input : String) :
    MainApp.findRecordByHash (storeOf xs) input =
      .ok (firstRecord (matchesAnyMode input) xs) :=
  arrayFind_records _ _ (mainApp_recordMatches_record input) xs

theorem firstRecord_none (p : VerificationRecord → Bool) (xs : List VerificationRecord)
    (h : ∀ x ∈ xs, p x = false) : firstRecord p xs = .undefined := by
  have : xs.find? p = none := by
    rw [List.find?_eq_none]
    intro x hx
    simp [h x hx]
  simp [firstRecord, this]

theorem firstRecord_some (p : VerificationRecord → Bool) (xs : List VerificationRecord)
    (r : VerificationRecord) (hr : r ∈ xs) (hp : p r = true) :
    ∃ x ∈ xs, firstRecord p xs = x.toJsVal ∧ p x = true := by
  cases h : xs.find? p with
  | none =>
    rw [List.find?_eq_none] at h
    exact absurd hp (h r hr)
  | some x =>
    exact ⟨x, List.mem_of_find?_eq_some h, by simp [firstRecord, h], List.find?_some h⟩


theorem hexDigits_units : ∀ c ∈ hexDigits, utf16Units c = 1 := by decide

theorem hash_shape (s : String) (h : isValidHashFormat s = true) :
    s.data.length = 64 ∧ (substring0 s 16).data = s.data.take 16 := by
  obtain ⟨hl, hhex⟩ := (testAnchoredRepeat_hex 64 s).mp h
  exact ⟨hl, takeUnits_eq_take 16 s.data (fun c hc => hexDigits_units c (hhex c hc))⟩

theorem record_shape (xs : List VerificationRecord) (hwf : wellFormedStore xs = true)
    (x : VerificationRecord) (hx : x ∈ xs) :
    x.hash.data.length = 64 ∧ x.shortHash.data = x.hash.data.take 16 ∧
      x.shortHash.data.length = 16 := by
  simp only [wellFormedStore, List.all_eq_true, Bool.and_eq_true, beq_iff_eq] at hwf
  obtain ⟨h1, h2⟩ := hwf x hx
  obtain ⟨hl, ht⟩ := hash_shape x.hash h1
  refine ⟨hl, by rw [h2, ht], ?_⟩
  rw [h2, ht, List.length_take, hl]
  rfl

theorem startsWith_iff (s p : String) : startsWith s p = true ↔ p.data <+: s.data := by
  simp [startsWith]

theorem string_eq_of_data {s p : String} (h : s.data = p.data) : s = p := String.ext h

/-- In a well-formed store, a record that matches a full digest of the store in some mode
has the short hash of that digest. -/
theorem matchesAnyMode_full (xs : List VerificationRecord) (hwf : wellFormedStore xs = true)
    (r x : VerificationRecord) (hr : r ∈ xs) (hx : x ∈ xs)
    (hm : matchesAnyMode r.hash x = true) : x.shortHash = r.shortHash := by
  obtain ⟨rl, rs, r16⟩ := record_shape xs hwf r hr
  obtain ⟨xl, xs', x16⟩ := record_shape xs hwf x hx
  apply string_eq_of_data
  simp only [matchesAnyMode, Bool.or_eq_true, beq_iff_eq, startsWith_iff] at hm
  rcases hm with ((h | h) | h) | h
  · rw [xs', rs, h]
  · have := congrArg (fun s : String => s.data.length) h
    simp only [x16, rl] at this
    omega
  · have := List.IsPrefix.eq_of_length h (by rw [xl, rl])
    rw [xs', rs, this]
  · rw [rs]
    have := List.prefix_iff_eq_take.mp h
    rw [x16] at this
    exact this

/-- In a well-formed store, a record that matches a short hash of the store in some mode
has that short hash. -/
theorem matchesAnyMode_short (xs : List VerificationRecord) (hwf : wellFormedStore xs = true)
    (r x : VerificationRecord) (hr : r ∈ xs) (hx : x ∈ xs)
    (hm : matchesAnyMode r.shortHash x = true) : x.shortHash = r.shortHash := by
  obtain ⟨rl, rs, r16⟩ := record_shape xs hwf r hr
  obtain ⟨xl, xs', x16⟩ := record_shape xs hwf x hx
  simp only [matchesAnyMode, Bool.or_eq_true, beq_iff_eq, startsWith_iff] at hm
  rcases hm with ((h | h) | h) | h
  · have := congrArg (fun s : String => s.data.length) h
    simp only [r16, xl] at this
    omega
  · exact h
  · apply string_eq_of_data
    have := List.prefix_iff_eq_take.mp h
    rw [r16] at this
    rw [xs', ← this]
  · exact string_eq_of_data (List.IsPrefix.eq_of_length h (by rw [x16, r16]))

theorem mainApp_find_full (xs : List VerificationRecord) (hwf : wellFormedStore xs = true)
    (hd : distinctShortHashes xs = true) (r : VerificationRecord) (hr : r ∈ xs) :
    ∃ x ∈ xs, MainApp.findRecordByHash (storeOf xs) r.hash = .ok x.toJsVal ∧
      x.hash = r.hash := by
  obtain ⟨x, hx, hf, hm⟩ := firstRecord_some (matchesAnyMode r.hash) xs r hr
    (by simp [matchesAnyMode])
  refine ⟨x, hx, by rw [mainApp_findRecordByHash_records, hf], ?_⟩
  have hs := matchesAnyMode_full xs hwf r x hr hx hm
  simp only [distinctShortHashes, List.all_eq_true, Bool.or_eq_true, bne_iff_ne, ne_eq,
    beq_iff_eq] at hd
  rcases hd x hx r hr with h | h
  · exact absurd hs h
  · exact h

theorem mainApp_find_short (xs : List VerificationRecord) (hwf : wellFormedStore xs = true)
    (r : VerificationRecord) (hr : r ∈ xs) :
    ∃ x ∈ xs, MainApp.findRecordByHash (storeOf xs) r.shortHash = .ok x.toJsVal ∧
      x.shortHash = r.shortHash := by
  obtain ⟨x, hx, hf, hm⟩ := firstRecord_some (matchesAnyMode r.shortHash) xs r hr
    (by simp [matchesAnyMode])
  exact ⟨x, hx, by rw [mainApp_findRecordByHash_records, hf],
    matchesAnyMode_short xs hwf r x hr hx hm⟩

theorem find_full (xs : List VerificationRecord) (hwf : wellFormedStore xs = true)
    (r : VerificationRecord) (hr : r ∈ xs) :
    ∃ x ∈ xs, AppController.findRecordByHash (storeOf xs) r.hash = .ok x.toJsVal ∧
      x.hash = r.hash := by
  obtain ⟨x, hx, hf, hm⟩ := firstRecord_some (matchesExactly r.hash) xs r hr
    (by simp [matchesExactly])
  refine ⟨x, hx, by rw [findRecordByHash_records, hf], ?_⟩
  obtain ⟨rl, rs, r16⟩ := record_shape xs hwf r hr
  obtain ⟨xl, xs', x16⟩ := record_shape xs hwf x hx
  simp only [matchesExactly, Bool.or_eq_true, beq_iff_eq] at hm
  rcases hm with h | h
  · exact h
  · have := congrArg (fun s : String => s.data.length) h
    simp only [x16, rl] at this
    omega

theorem find_short (xs : List VerificationRecord) (hwf : wellFormedStore xs = true)
    (r : VerificationRecord) (hr : r ∈ xs) :
    ∃ x ∈ xs, AppController.findRecordByHash (storeOf xs) r.shortHash = .ok x.toJsVal ∧
      x.shortHash = r.shortHash := by
  obtain ⟨x, hx, hf, hm⟩ := firstRecord_some (matchesExactly r.shortHash) xs r hr
    (by simp [matchesExactly])
  refine ⟨x, hx, by rw [findRecordByHash_records, hf], ?_⟩
  obtain ⟨rl, rs, r16⟩ := record_shape xs hwf r hr
  obtain ⟨xl, xs', x16⟩ := record_shape xs hwf x hx
  simp only [matchesExactly, Bool.or_eq_true, beq_iff_eq] at hm
  rcases hm with h | h
  · have := congrArg (fun s : String => s.data.length) h
    simp only [r16, xl] at this
    omega
  · exact h


/-- C17 (amended). For every store of records whose `hash` is 64 hexadecimal digits and
whose `shortHash` is its first 16 characters, and every record `r` in it: in
`app-controller.js` and in `simple-app.js`, `findRecordByHash(r.hash)` returns a record
whose `hash` is `r.hash`, `findRecordByHash(r.shortHash)` returns a record whose
`shortHash` is `r.shortHash`, an input equal to no `hash` and no `shortHash` of the
store gives `undefined`, and the record returned is the first in store order whose
`hash` or `shortHash` is the input.  In `main-app.js` the first holds when records with
different `hash` have different `shortHash`, the second holds, `undefined` is returned
for the inputs that match no record in any of the four modes, and the record returned is
the first in store order that matches in one of the four modes. -/
theorem findRecordByHash_exact (xs : List VerificationRecord)
    (hwf : wellFormedStore xs = true) :
    (∀ find, find = AppController.findRecordByHash ∨ find = SimpleApp.findRecordByHash →
      (∀ r ∈ xs, ∃ x ∈ xs, find (storeOf xs) r.hash = .ok x.toJsVal ∧ x.hash = r.hash) ∧
      (∀ r ∈ xs, ∃ x ∈ xs,
        find (storeOf xs) r.shortHash = .ok x.toJsVal ∧ x.shortHash = r.shortHash) ∧
      (∀ input, (∀ x ∈ xs, x.hash ≠ input ∧ x.shortHash ≠ input) →
        find (storeOf xs) input = .ok .undefined) ∧
      (∀ input, find (storeOf xs) input = .ok (firstRecord (matchesExactly input) xs))) ∧
    (distinctShortHashes xs = true → ∀ r ∈ xs, ∃ x ∈ xs,
      MainApp.findRecordByHash (storeOf xs) r.hash = .ok x.toJsVal ∧ x.hash = r.hash) ∧
    (∀ r ∈ xs, ∃ x ∈ xs,
      MainApp.findRecordByHash (storeOf xs) r.shortHash = .ok x.toJsVal ∧
        x.shortHash = r.shortHash) ∧
    (∀ input, (∀ x ∈ xs, matchesAnyMode input x = false) →
      MainApp.findRecordByHash (storeOf xs) input = .ok .undefined) ∧
    (∀ input,
      MainApp.findRecordByHash (storeOf xs) input =
        .ok (firstRecord (matchesAnyMode input) xs)) := by
  refine ⟨?_, fun hd r hr => mainApp_find_full xs hwf hd r hr,
    fun r hr => mainApp_find_short xs hwf r hr, ?_,
    fun input => mainApp_findRecordByHash_records xs input⟩
  · intro find hfind
    have hf : find = AppController.findRecordByHash := by
      rcases hfind with h | h
      · exact h
      · exact h.trans simpleApp_findRecordByHash
    subst hf
    refine ⟨fun r hr => find_full xs hwf r hr, fun r hr => find_short xs hwf r hr, ?_,
      fun input => findRecordByHash_records xs input⟩
    intro input hno
    rw [findRecordByHash_records, firstRecord_none]
    intro x hx
    obtain ⟨h1, h2⟩ := hno x hx
    simp [matchesExactly, h1, h2]
  · intro input hno
    rw [mainApp_findRecordByHash_records, firstRecord_none _ _ hno]

/-- C17 (amended), at a store of two records with different short hashes. -/
theorem findRecordByHash_exact_witness :
    wellFormedStore [firstCapture, thirdCapture] = true ∧
      (∃ x ∈ [firstCapture, thirdCapture],
        SimpleApp.findRecordByHash (storeOf [firstCapture, thirdCapture]) thirdCapture.hash =
            .ok x.toJsVal ∧
          x.hash = thirdCapture.hash) ∧
      MainApp.findRecordByHash (storeOf [firstCapture, thirdCapture]) "0123456789abcdeg" =
        .ok .undefined :=
  ⟨by decide,
    ((findRecordByHash_exact [firstCapture, thirdCapture] (by decide)).1 _ (Or.inr rfl)).1
      thirdCapture (by simp),
    (findRecordByHash_exact [firstCapture, thirdCapture] (by decide)).2.2.2.1 _ (by decide)⟩

/-- C17, counterexample. In `main-app.js`, with a store that holds `secondCapture` before
`firstCapture`, two well-formed records with the same first 16 characters of the digest,
`findRecordByHash(firstCapture.hash)` returns `secondCapture`, whose `hash` is another;
and the input `abcd`, which is no `hash` and no `shortHash` of the store, returns a
record. -/
theorem mainApp_findRecordByHash_not_exact :
    wellFormedStore [secondCapture, firstCapture] = true ∧
      MainApp.findRecordByHash (storeOf [secondCapture, firstCapture]) firstCapture.hash =
        .ok secondCapture.toJsVal ∧
      secondCapture.hash ≠ firstCapture.hash ∧
      MainApp.findRecordByHash (storeOf [secondCapture, firstCapture]) "abcd" =
        .ok secondCapture.toJsVal ∧
      (∀ x ∈ [secondCapture, firstCapture], x.hash ≠ "abcd" ∧ x.shortHash ≠ "abcd") := by
  refine ⟨by decide, by rfl, by decide, by rfl, by decide⟩

/-- C18 (amended). `SnapHashQRMainApp.findRecordByHash` applies no precedence among its
four modes: for every store of records and every input it returns the first record in
store order that matches the input in one of the four modes, whichever the mode, and
`undefined` when there is none; a head record that matches in any mode is returned
whatever follows it, and a head record that matches in no mode is passed over.  For a
store of records whose `hash` is 64 hexadecimal digits and whose `shortHash` is its first
16 characters, in which records with different `hash` have different `shortHash`: if some
record's `hash` is the input, the record returned has that `hash`; if some record's
`shortHash` is the input, the record returned has that `shortHash`; so a record that
matches only by a partial rule is returned only when no record matches exactly. -/
theorem mainApp_findRecordByHash_modes :
    (∀ (xs : List VerificationRecord) (input : String),
      MainApp.findRecordByHash (storeOf xs) input =
        .ok (firstRecord (matchesAnyMode input) xs)) ∧
    (∀ (x : VerificationRecord) (xs : List VerificationRecord) (input : String),
      matchesAnyMode input x = true →
      MainApp.findRecordByHash (storeOf (x :: xs)) input = .ok x.toJsVal) ∧
    (∀ (x : VerificationRecord) (xs : List VerificationRecord) (input : String),
      matchesAnyMode input x = false →
      MainApp.findRecordByHash (storeOf (x :: xs)) input =
        MainApp.findRecordByHash (storeOf xs) input) ∧
    (∀ input : String, MainApp.findRecordByHash (storeOf []) input = .ok .undefined) ∧
    (∀ (xs : List VerificationRecord) (input : String),
      wellFormedStore xs = true → distinctShortHashes xs = true →
      ((∃ r ∈ xs, r.hash = input) → ∃ x ∈ xs,
        MainApp.findRecordByHash (storeOf xs) input = .ok x.toJsVal ∧ x.hash = input) ∧
      ((∃ r ∈ xs, r.shortHash = input) → ∃ x ∈ xs,
        MainApp.findRecordByHash (storeOf xs) input = .ok x.toJsVal ∧ x.shortHash = input) ∧
      (∀ x : VerificationRecord,
        MainApp.findRecordByHash (storeOf xs) input = .ok x.toJsVal →
        x.hash ≠ input → x.shortHash ≠ input →
        ∀ r ∈ xs, r.hash ≠ input ∧ r.shortHash ≠ input)) := by
  refine ⟨mainApp_findRecordByHash_records, ?_, ?_, fun input => rfl, ?_⟩
  · intro x xs input hm
    rw [mainApp_findRecordByHash_records]
    simp [firstRecord, List.find?_cons, hm]
  · intro x xs input hm
    rw [mainApp_findRecordByHash_records, mainApp_findRecordByHash_records]
    simp [firstRecord, List.find?_cons, hm]
  · intro xs input hwf hd
    have hfull : (∃ r ∈ xs, r.hash = input) → ∃ x ∈ xs,
        MainApp.findRecordByHash (storeOf xs) input = .ok x.toJsVal ∧ x.hash = input := by
      rintro ⟨r, hr, rfl⟩
      exact mainApp_find_full xs hwf hd r hr
    have hshort : (∃ r ∈ xs, r.shortHash = input) → ∃ x ∈ xs,
        MainApp.findRecordByHash (storeOf xs) input = .ok x.toJsVal ∧ x.shortHash = input := by
      rintro ⟨r, hr, rfl⟩
      exact mainApp_find_short xs hwf r hr
    refine ⟨hfull, hshort, ?_⟩
    intro x hx h1 h2 r hr
    constructor
    · intro h
      obtain ⟨y, _, hy, hyh⟩ := hfull ⟨r, hr, h⟩
      rw [hx] at hy
      have e : x.toJsVal = y.toJsVal := by injection hy
      simp only [VerificationRecord.toJsVal, JsVal.obj.injEq, List.cons.injEq, Prod.mk.injEq,
        JsVal.str.injEq] at e
      exact h1 (e.2.1.2.trans hyh)
    · intro h
      obtain ⟨y, _, hy, hyh⟩ := hshort ⟨r, hr, h⟩
      rw [hx] at hy
      have e : x.toJsVal = y.toJsVal := by injection hy
      simp only [VerificationRecord.toJsVal, JsVal.obj.injEq, List.cons.injEq, Prod.mk.injEq,
        JsVal.str.injEq] at e
      exact h2 (e.2.2.1.2.trans hyh)

/-- C18 (amended), at a store in which a record that matches by a partial rule stands
before the record whose `hash` is the input, and at a store of two records with different
short hashes. -/
theorem mainApp_findRecordByHash_modes_witness :
    matchesAnyMode secondCapture.hash firstCapture = true ∧
      MainApp.findRecordByHash (storeOf [firstCapture, secondCapture]) secondCapture.hash =
        .ok firstCapture.toJsVal ∧
      wellFormedStore [firstCapture, thirdCapture] = true ∧
      distinctShortHashes [firstCapture, thirdCapture] = true ∧
      ∃ x ∈ [firstCapture, thirdCapture],
        MainApp.findRecordByHash (storeOf [firstCapture, thirdCapture]) thirdCapture.hash =
            .ok x.toJsVal ∧
          x.hash = thirdCapture.hash :=
  ⟨by decide,
    mainApp_findRecordByHash_modes.2.1 firstCapture [secondCapture] secondCapture.hash
      (by decide),
    by decide, by decide,
    (mainApp_findRecordByHash_modes.2.2.2.2 [firstCapture, thirdCapture] thirdCapture.hash
      (by decide) (by decide)).1 ⟨thirdCapture, by simp, rfl⟩⟩

/-- C18, counterexample. With a store that holds `firstCapture` before `secondCapture`,
two well-formed records with the same first 16 characters of the digest,
`findRecordByHash(secondCapture.hash)` of `main-app.js` returns `firstCapture`, which
matches by the partial rule only, though the `hash` of `secondCapture` is the input. -/
theorem mainApp_partial_before_exact :
    wellFormedStore [firstCapture, secondCapture] = true ∧
      MainApp.findRecordByHash (storeOf [firstCapture, secondCapture]) secondCapture.hash =
        .ok firstCapture.toJsVal ∧
      firstCapture.hash ≠ secondCapture.hash ∧
      firstCapture.shortHash ≠ secondCapture.hash ∧
      startsWith firstCapture.hash secondCapture.hash = false ∧
      startsWith secondCapture.hash firstCapture.shortHash = true := by
  refine ⟨by decide, by rfl, by decide, by decide, by decide, by decide⟩


/-! ### Manual verification -/

theorem findRecordByHash_other_case (xs : List VerificationRecord) (input : String)
    (hlow : ∀ x ∈ xs, toLowerCase x.hash = x.hash ∧ toLowerCase x.shortHash = x.shortHash)
    (hin : toLowerCase input ≠ input) :
    AppController.findRecordByHash (storeOf xs) input = .ok .undefined := by
  rw [findRecordByHash_records, firstRecord_none]
  intro x hx
  obtain ⟨h1, h2⟩ := hlow x hx
  have n1 : x.hash ≠ input := fun h => hin (h ▸ h1)
  have n2 : x.shortHash ≠ input := fun h => hin (h ▸ h2)
  simp [matchesExactly, n1, n2]

theorem firstRecord_cases (p : VerificationRecord → Bool) (xs : List VerificationRecord) :
    firstRecord p xs = .undefined ∨ ∃ x ∈ xs, firstRecord p xs = x.toJsVal := by
  cases h : xs.find? p with
  | none => exact Or.inl (by simp [firstRecord, h])
  | some x => exact Or.inr ⟨x, List.mem_of_find?_eq_some h, by simp [firstRecord, h]⟩

/-- The rendering of a record that `createVerificationRecord` built, or of no record,
does not throw: the values it writes are strings and numbers. -/
theorem displayVerificationResult_firstRecord (resultElements : Bool) (now : Int)
    (hash : String) (p : VerificationRecord → Bool) (xs : List VerificationRecord) :
    AppController.displayVerificationResult resultElements
        (manualVerifyData hash (firstRecord p xs) now) = .ok () ∧
      MainApp.displayVerificationResult resultElements
        (manualVerifyData hash (firstRecord p xs) now) = .ok () ∧
      SimpleApp.displayVerificationResult resultElements
        (manualVerifyData hash (firstRecord p xs) now) = .ok () := by
  rcases firstRecord_cases p xs with h | ⟨x, _, h⟩
  · rw [h]
    cases resultElements <;> exact ⟨rfl, rfl, rfl⟩
  · rw [h]
    cases resultElements <;> exact ⟨rfl, rfl, rfl⟩

theorem verifyHash_records (resultElements : Bool) (now : Int)
    (xs : List VerificationRecord) (input : String) (hne : trim input ≠ "") :
    MainApp.verifyHash resultElements now (storeOf xs) (some input) =
        .displayed (trim input) (firstRecord (matchesAnyMode (trim input)) xs)
          (verifyMessage (firstRecord (matchesAnyMode (trim input)) xs)) ∧
      SimpleApp.verifyHash resultElements now (storeOf xs) (some input) =
        .displayed (trim input) (firstRecord (matchesExactly (trim input)) xs)
          (verifyMessage (firstRecord (matchesExactly (trim input)) xs)) ∧
      (isValidHashFormat (trim input) = true ∨ isValidShortHashFormat (trim input) = true →
        AppController.verifyHash resultElements now (storeOf xs) (some input) =
          .displayed (trim input) (firstRecord (matchesExactly (trim input)) xs)
            (verifyMessage (firstRecord (matchesExactly (trim input)) xs))) := by
  obtain ⟨d1, d2, _⟩ := displayVerificationResult_firstRecord resultElements now (trim input)
    (matchesExactly (trim input)) xs
  obtain ⟨_, d3, _⟩ := displayVerificationResult_firstRecord resultElements now (trim input)
    (matchesAnyMode (trim input)) xs
  obtain ⟨_, _, d4⟩ := displayVerificationResult_firstRecord resultElements now (trim input)
    (matchesExactly (trim input)) xs
  refine ⟨?_, ?_, ?_⟩
  · simp only [MainApp.verifyHash, hne, bind, Except.bind, pure, Except.pure, if_false,
      mainApp_findRecordByHash_records, d3]
  · simp only [SimpleApp.verifyHash, hne, bind, Except.bind, pure, Except.pure, if_false,
      simpleApp_findRecordByHash, findRecordByHash_records, d4]
  · intro hf
    have hv : (!isValidHashFormat (trim input) && !isValidShortHashFormat (trim input)) =
        false := by
      rcases hf with h | h <;> simp [h]
    simp only [AppController.verifyHash, hne, hv, bind, Except.bind, pure, Except.pure, if_false,
      findRecordByHash_records, d1, Bool.false_eq_true]

/-- C19. The manual `verifyHash` of the three app classes compares the input with the
stored digests as it was typed: with a store that holds `firstCapture`, on every page and
at every time, the digest of `firstCapture` in upper case passes the format validation
and is reported as not found, and so is its short hash in upper case, while the digest as
stored is found; in `app-controller.js` and `simple-app.js` no input that is not in
lower case finds a record of a store whose digests are in lower case. -/
theorem verifyHash_case_sensitive :
    toLowerCase upperCaseInput = firstCapture.hash ∧
      isValidHashFormat upperCaseInput = true ∧
      (∀ (resultElements : Bool) (now : Int),
        AppController.verifyHash resultElements now (storeOf [firstCapture])
            (some upperCaseInput) =
          .displayed upperCaseInput .undefined "Hash not found in records" ∧
        MainApp.verifyHash resultElements now (storeOf [firstCapture]) (some upperCaseInput) =
          .displayed upperCaseInput .undefined "Hash not found in records" ∧
        SimpleApp.verifyHash resultElements now (storeOf [firstCapture])
            (some upperCaseInput) =
          .displayed upperCaseInput .undefined "Hash not found in records" ∧
        AppController.verifyHash resultElements now (storeOf [firstCapture])
            (some "ABCDEF0123456789") =
          .displayed "ABCDEF0123456789" .undefined "Hash not found in records" ∧
        AppController.verifyHash resultElements now (storeOf [firstCapture])
            (some firstCapture.hash) =
          .displayed firstCapture.hash firstCapture.toJsVal "Hash verified successfully!") ∧
      toLowerCase "ABCDEF0123456789" = firstCapture.shortHash ∧
      (∀ (xs : List VerificationRecord) (input : String),
        (∀ x ∈ xs, toLowerCase x.hash = x.hash ∧ toLowerCase x.shortHash = x.shortHash) →
        toLowerCase input ≠ input →
        AppController.findRecordByHash (storeOf xs) input = .ok .undefined ∧
          SimpleApp.findRecordByHash (storeOf xs) input = .ok .undefined) := by
  refine ⟨by decide, by decide, ?_, by decide, ?_⟩
  · intro resultElements now
    cases resultElements <;> exact ⟨by rfl, by rfl, by rfl, by rfl, by rfl⟩
  · intro xs input hlow hin
    exact ⟨findRecordByHash_other_case xs input hlow hin,
      findRecordByHash_other_case xs input hlow hin⟩

/-- C20 (amended). For every page, every time and every input that is not empty after
trimming: in `app-controller.js`, when the trimmed input satisfies neither
`isValidHashFormat` nor `isValidShortHashFormat`, `verifyHash` fails with
`Invalid hash format`, whatever the store holds; in `main-app.js` and `simple-app.js`,
`verifyHash` validates no format: whatever the format of the trimmed input, it is looked
up in the store, and with a store of records what the lookup found (the first matching
record, or none) is displayed with the message that belongs to it; with any other value
as the store, the outcome is that of the lookup followed by the rendering of what it
found, each of which can throw. -/
theorem verifyHash_format_check (resultElements : Bool) (now : Int) (input : String)
    (hne : trim input ≠ "") :
    (∀ records : JsVal,
      isValidHashFormat (trim input) = false → isValidShortHashFormat (trim input) = false →
      AppController.verifyHash resultElements now records (some input) =
        .failed "Verification failed: Invalid hash format") ∧
    (∀ xs : List VerificationRecord,
      MainApp.verifyHash resultElements now (storeOf xs) (some input) =
          .displayed (trim input) (firstRecord (matchesAnyMode (trim input)) xs)
            (verifyMessage (firstRecord (matchesAnyMode (trim input)) xs)) ∧
        SimpleApp.verifyHash resultElements now (storeOf xs) (some input) =
          .displayed (trim input) (firstRecord (matchesExactly (trim input)) xs)
            (verifyMessage (firstRecord (matchesExactly (trim input)) xs))) ∧
    (∀ records : JsVal,
      MainApp.verifyHash resultElements now records (some input) =
          (match MainApp.findRecordByHash records (trim input) with
            | .ok found =>
              match MainApp.displayVerificationResult resultElements
                  (manualVerifyData (trim input) found now) with
              | .ok _ => .displayed (trim input) found (verifyMessage found)
              | .error message => .failed ("Verification failed: " ++ message)
            | .error message => .failed ("Verification failed: " ++ message)) ∧
        SimpleApp.verifyHash resultElements now records (some input) =
          (match SimpleApp.findRecordByHash records (trim input) with
            | .ok found =>
              match SimpleApp.displayVerificationResult resultElements
                  (manualVerifyData (trim input) found now) with
              | .ok _ => .displayed (trim input) found (verifyMessage found)
              | .error message => .failed ("Verification failed: " ++ message)
            | .error message => .failed ("Verification failed: " ++ message))) := by
  refine ⟨?_, ?_, ?_⟩
  · intro records h1 h2
    simp [AppController.verifyHash, hne, h1, h2, bind, Except.bind, pure, Except.pure, throw,
      throwThe, MonadExceptOf.throw]
  · intro xs
    obtain ⟨h1, h2, _⟩ := verifyHash_records resultElements now xs input hne
    exact ⟨h1, h2⟩
  · intro records
    constructor
    · simp only [MainApp.verifyHash, hne, bind, Except.bind, pure, Except.pure, if_false]
      cases MainApp.findRecordByHash records (trim input) with
      | error e => rfl
      | ok found =>
        dsimp only
        cases MainApp.displayVerificationResult resultElements
          (manualVerifyData (trim input) found now) <;> rfl
    · simp only [SimpleApp.verifyHash, hne, bind, Except.bind, pure, Except.pure, if_false]
      cases SimpleApp.findRecordByHash records (trim input) with
      | error e => rfl
      | ok found =>
        dsimp only
        cases SimpleApp.displayVerificationResult resultElements
          (manualVerifyData (trim input) found now) <;> rfl

/-- C20 (amended), at the input `abcd` between white space, with a store that holds a
record and with the empty store, and at a store whose record cannot be rendered. -/
theorem verifyHash_format_check_witness :
    trim " abcd\n" = "abcd" ∧
      AppController.verifyHash true 1700000000700 (storeOf [firstCapture]) (some " abcd\n") =
        .failed "Verification failed: Invalid hash format" ∧
      AppController.verifyHash false 1700000000700 (.arr []) (some " abcd\n") =
        .failed "Verification failed: Invalid hash format" ∧
      MainApp.verifyHash true 1700000000700 (storeOf [firstCapture]) (some " abcd\n") =
        .displayed "abcd" firstCapture.toJsVal "Hash verified successfully!" ∧
      MainApp.verifyHash true 1700000000700 (.arr [unprintableRecord]) (some " abcd\n") =
        .failed "Verification failed: Cannot convert object to primitive value" ∧
      MainApp.verifyHash false 1700000000700 (.arr [unprintableRecord]) (some " abcd\n") =
        .displayed "abcd" unprintableRecord "Hash verified successfully!" :=
  ⟨by decide,
    (verifyHash_format_check true 1700000000700 " abcd\n" (by decide)).1 _ (by decide)
      (by decide),
    (verifyHash_format_check false 1700000000700 " abcd\n" (by decide)).1 _ (by decide)
      (by decide),
    ((verifyHash_format_check true 1700000000700 " abcd\n" (by decide)).2.1
      [firstCapture]).1,
    ((verifyHash_format_check true 1700000000700 " abcd\n" (by decide)).2.2
      (.arr [unprintableRecord])).1,
    ((verifyHash_format_check false 1700000000700 " abcd\n" (by decide)).2.2
      (.arr [unprintableRecord])).1⟩

/-- C20, counterexample. The input `abcd` satisfies neither format; with a store that
holds `firstCapture`, `verifyHash` of `main-app.js` looks it up and reports
`firstCapture` as the matching record, and `verifyHash` of `simple-app.js` looks up the
input `xyz`, which satisfies neither format, and reports that it is not in the
records, not that its format is invalid; so it is on every page and at every time. -/
theorem verifyHash_without_format_check :
    isValidHashFormat "abcd" = false ∧ isValidShortHashFormat "abcd" = false ∧
      isValidHashFormat "xyz" = false ∧ isValidShortHashFormat "xyz" = false ∧
      ∀ (resultElements : Bool) (now : Int),
        MainApp.verifyHash resultElements now (storeOf [firstCapture]) (some "abcd") =
          .displayed "abcd" firstCapture.toJsVal "Hash verified successfully!" ∧
        MainApp.verifyHash resultElements now (.arr []) (some "abcd") =
          .displayed "abcd" .undefined "Hash not found in records" ∧
        SimpleApp.verifyHash resultElements now (storeOf [firstCapture]) (some "xyz") =
          .displayed "xyz" .undefined "Hash not found in records" := by
  refine ⟨by decide, by decide, by decide, by decide, ?_⟩
  intro resultElements now
  cases resultElements <;> exact ⟨by rfl, by rfl, by rfl⟩

/-! ### The scan of a QR payload -/

theorem isValidQRFormat_bool (text : String) :
    isValidQRFormat text = .bool true ∨ isValidQRFormat text = .bool false := by
  cases h : jsonParse text with
  | error e => exact Or.inr (isValidQRFormat_error h)
  | ok data =>
    rw [isValidQRFormat_ok h]
    cases data with
    | obj fields => cases allTruthy fields <;> simp
    | _ => simp

theorem parseQRData_obj (text : String) :
    ∃ fields, parseQRData text = .obj fields ∧
      JsVal.lookup "isValid" fields = isValidQRFormat text := by
  cases h : parseQRData text with
  | obj fields => exact ⟨fields, rfl, by simp [isValidQRFormat, h]⟩
  | _ =>
    exfalso
    cases hp : jsonParse text with
    | error e => rw [parseQRData_error hp] at h; cases h
    | ok data =>
      rw [parseQRData_ok hp] at h
      cases data with
      | obj fields => by_cases ht : allTruthy fields = true <;> simp [ht, validResult, formatFailure] at h
      | _ => simp [parseFailure, formatFailure] at h

theorem parseQRData_valid (text : String) (hv : isValidQRFormat text = .bool true) :
    ∃ data, jsonParse text = .ok (.obj data) ∧ parseQRData text = validResult data := by
  cases hp : jsonParse text with
  | error e =>
    rw [isValidQRFormat_error hp] at hv
    cases hv
  | ok value =>
    rw [isValidQRFormat_ok hp] at hv
    cases value with
    | obj data =>
      have ht : allTruthy data = true := by injection hv
      refine ⟨data, rfl, ?_⟩
      rw [parseQRData_ok hp]
      simp [ht]
    | _ => cases hv

theorem interpolate_convertible (v : JsVal) :
    (v.convertible = true → interpolate v = .ok () ∧ newDate v = .ok ()) ∧
      (v.convertible = false → ∃ e, interpolate v = .error e ∧ newDate v = .error e) := by
  unfold JsVal.convertible interpolate newDate
  cases v.toChars with
  | ok text => exact ⟨fun _ => ⟨rfl, rfl⟩, fun h => by cases h⟩
  | error e => exact ⟨fun h => (by cases h), fun _ => ⟨e, rfl, rfl⟩⟩

/-- The rendering of a decoded payload throws exactly when the page has the result
elements and one of `h`, `a` and `t` cannot be converted to a string. -/
theorem displayVerificationResult_scan (resultElements : Bool) (now : Int) (text : String)
    (result : JsVal) (hv : isValidQRFormat text = .bool true) :
    (scanRenders resultElements text = true →
      AppController.displayVerificationResult resultElements (scanData text result now) =
        .ok ()) ∧
    (scanRenders resultElements text = false →
      ∃ e, AppController.displayVerificationResult resultElements (scanData text result now) =
        .error e) := by
  obtain ⟨data, hp, hq⟩ := parseQRData_valid text hv
  cases resultElements with
  | false => exact ⟨fun _ => rfl, fun h => by simp [scanRenders, hp] at h⟩
  | true =>
    have key : ∀ r₁ r₂ r₃ : Except String Unit,
        interpolate (JsVal.lookup "h" data) = r₁ → interpolate (JsVal.lookup "a" data) = r₂ →
        newDate (JsVal.lookup "t" data) = r₃ →
        AppController.displayVerificationResult true (scanData text result now) =
          (match r₁ with
            | .ok _ =>
              match r₂ with
              | .ok _ => r₃
              | .error e => .error e
            | .error e => .error e) := by
      intro r₁ r₂ r₃ e₁ e₂ e₃
      simp only [scanData, hq, validResult]
      simp [AppController.displayVerificationResult, JsVal.getProp, JsVal.lookup,
        strictEqualsString, bind, Except.bind, e₁, e₂, e₃]
      cases r₁ with
      | error e => rfl
      | ok u =>
        cases r₂ with
        | error e => rfl
        | ok u => rfl
    simp only [scanRenders, hp, Bool.not_true, Bool.false_or, Bool.and_eq_true,
      Bool.and_eq_false_iff]
    obtain ⟨h1, h1'⟩ := interpolate_convertible (JsVal.lookup "h" data)
    obtain ⟨h2, h2'⟩ := interpolate_convertible (JsVal.lookup "a" data)
    obtain ⟨h3, h3'⟩ := interpolate_convertible (JsVal.lookup "t" data)
    constructor
    · rintro ⟨⟨c1, c2⟩, c3⟩
      rw [key _ _ _ (h1 c1).1 (h2 c2).1 (h3 c3).2]
    · intro hc
      cases c1 : (JsVal.lookup "h" data).convertible with
      | false =>
        obtain ⟨e1, he1, _⟩ := h1' c1
        exact ⟨e1, by rw [key _ _ _ he1 rfl rfl]⟩
      | true =>
        cases c2 : (JsVal.lookup "a" data).convertible with
        | false =>
          obtain ⟨e2, he2, _⟩ := h2' c2
          exact ⟨e2, by rw [key _ _ _ (h1 c1).1 he2 rfl]⟩
        | true =>
          cases c3 : (JsVal.lookup "t" data).convertible with
          | false =>
            obtain ⟨e3, _, he3⟩ := h3' c3
            exact ⟨e3, by rw [key _ _ _ (h1 c1).1 (h2 c2).1 he3]⟩
          | true => simp [c1, c2, c3] at hc

theorem handleQRScanResult_eq (resultElements : Bool) (now : Int) (app : AppState)
    (fields : List (String × JsVal)) (text : String)
    (hdata : JsVal.lookup "data" fields = .str text) :
    AppController.handleQRScanResult resultElements now app (.obj fields) =
      (app,
        match isValidQRFormat text with
        | .bool true =>
          if scanRenders resultElements text then
            .displayed (scanData text (.obj fields) now) "QR code scanned successfully!"
          else .notified "Failed to process QR code"
        | _ => .notified "Invalid QR code format") := by
  obtain ⟨qr, hqr, hvalid⟩ := parseQRData_obj text
  have htext : parseQRDataOf (.str text) = parseQRData text := rfl
  rcases isValidQRFormat_bool text with h | h
  · obtain ⟨hok, herr⟩ := displayVerificationResult_scan resultElements now text (.obj fields) h
    have hd : JsVal.obj [("type", .str "qr_scan"), ("qrInfo", .obj qr),
        ("scanResult", .obj fields), ("timestamp", .num now)] =
        scanData text (.obj fields) now := by
      rw [scanData, hqr]
    cases hr : scanRenders resultElements text with
    | true =>
      simp [AppController.handleQRScanResult, JsVal.getProp, hdata, htext, hqr, hvalid, h,
        JsVal.truthy, bind, Except.bind, pure, Except.pure, hd, hok hr]
    | false =>
      obtain ⟨e, he⟩ := herr hr
      simp [AppController.handleQRScanResult, JsVal.getProp, hdata, htext, hqr, hvalid, h,
        JsVal.truthy, bind, Except.bind, pure, Except.pure, hd, he]
  · simp [AppController.handleQRScanResult, JsVal.getProp, hdata, htext, hqr, hvalid, h,
      JsVal.truthy, bind, Except.bind, pure, Except.pure]

theorem simpleApp_handleQRScanResult_eq (resultElements : Bool) (app : AppState)
    (fields : List (String × JsVal)) (text : String)
    (hdata : JsVal.lookup "data" fields = .str text) :
    SimpleApp.handleQRScanResult resultElements app (.obj fields) =
      (app,
        if !resultElements || (JsVal.lookup "timestamp" fields).convertible then
          .displayed (.obj [
            ("type", .str "qr_scan"),
            ("data", .str text),
            ("timestamp", JsVal.lookup "timestamp" fields)]) "QR code scanned successfully!"
        else .notified "Failed to process QR code") := by
  obtain ⟨h3, h3'⟩ := interpolate_convertible (JsVal.lookup "timestamp" fields)
  cases resultElements with
  | false =>
    simp [SimpleApp.handleQRScanResult, SimpleApp.displayVerificationResult, JsVal.getProp,
      hdata, bind, Except.bind, pure, Except.pure, JsVal.lookup, strictEqualsString]
  | true =>
    have e : SimpleApp.displayVerificationResult true (.obj [
          ("type", .str "qr_scan"),
          ("data", .str text),
          ("timestamp", JsVal.lookup "timestamp" fields)]) =
        newDate (JsVal.lookup "timestamp" fields) := rfl
    cases c : (JsVal.lookup "timestamp" fields).convertible with
    | true =>
      simp [SimpleApp.handleQRScanResult, JsVal.getProp, hdata, bind, Except.bind, pure,
        Except.pure, e, (h3 c).2]
    | false =>
      obtain ⟨e3, _, he3⟩ := h3' c
      simp [SimpleApp.handleQRScanResult, JsVal.getProp, hdata, bind, Except.bind, pure,
        Except.pure, e, he3]

/-- C21 (amended). For every page, every scan result whose `data` is the string `text`,
every store and every browser storage: `handleQRScanResult` of `app-controller.js` shows
the notification `Invalid QR code format` when `parseQRData` rejects `text`; when
`parseQRData` accepts it, the decoded fields are displayed with the notification
`QR code scanned successfully!`, unless the page has the result elements and one of the
decoded `h`, `a` and `t` cannot be converted to a string, in which case the failure of
the rendering is caught and the notification is `Failed to process QR code`.
`handleQRScanResult` of `simple-app.js` displays `text` as it was scanned, without
decoding it, unless the page has the result elements and the `timestamp` of the scan
result cannot be converted, when it shows `Failed to process QR code`.  Neither looks the
short hash up in the store: what is shown is the same for every store, it carries no
record, and the store is left as it was. -/
theorem handleQRScanResult_outcome (resultElements : Bool) (now : Int) (app : AppState)
    (fields : List (String × JsVal)) (text : String)
    (hdata : JsVal.lookup "data" fields = .str text) :
    (isValidQRFormat text = .bool false →
      AppController.handleQRScanResult resultElements now app (.obj fields) =
        (app, .notified "Invalid QR code format")) ∧
      (isValidQRFormat text = .bool true → scanRenders resultElements text = true →
        AppController.handleQRScanResult resultElements now app (.obj fields) =
          (app, .displayed (.obj [
            ("type", .str "qr_scan"),
            ("qrInfo", parseQRData text),
            ("scanResult", .obj fields),
            ("timestamp", .num now)]) "QR code scanned successfully!")) ∧
      (isValidQRFormat text = .bool true → scanRenders resultElements text = false →
        AppController.handleQRScanResult resultElements now app (.obj fields) =
          (app, .notified "Failed to process QR code")) ∧
      ((resultElements = false ∨ (JsVal.lookup "timestamp" fields).convertible = true) →
        SimpleApp.handleQRScanResult resultElements app (.obj fields) =
          (app, .displayed (.obj [
            ("type", .str "qr_scan"),
            ("data", .str text),
            ("timestamp", JsVal.lookup "timestamp" fields)])
            "QR code scanned successfully!")) ∧
      (resultElements = true → (JsVal.lookup "timestamp" fields).convertible = false →
        SimpleApp.handleQRScanResult resultElements app (.obj fields) =
          (app, .notified "Failed to process QR code")) ∧
      (∀ other : AppState,
        (AppController.handleQRScanResult resultElements now other (.obj fields)).2 =
            (AppController.handleQRScanResult resultElements now app (.obj fields)).2 ∧
          (SimpleApp.handleQRScanResult resultElements other (.obj fields)).2 =
            (SimpleApp.handleQRScanResult resultElements app (.obj fields)).2) ∧
      (AppController.handleQRScanResult resultElements now app (.obj fields)).1 = app ∧
      (SimpleApp.handleQRScanResult resultElements app (.obj fields)).1 = app := by
  have ha := handleQRScanResult_eq resultElements now app fields text hdata
  have hs := simpleApp_handleQRScanResult_eq resultElements app fields text hdata
  refine ⟨fun h => ?_, fun h hr => ?_, fun h hr => ?_, fun hc => ?_, fun hre hc => ?_,
    fun other => ⟨?_, ?_⟩, ?_, ?_⟩
  · rw [ha, h]
  · rw [ha, h]
    simp only [hr, if_true, scanData]
  · rw [ha, h]
    simp only [hr, Bool.false_eq_true, if_false]
  · rw [hs]
    rcases hc with hc | hc <;> simp [hc]
  · rw [hs]
    simp [hre, hc]
  · rw [ha, handleQRScanResult_eq resultElements now other fields text hdata]
  · rw [hs, simpleApp_handleQRScanResult_eq resultElements other fields text hdata]
  · rw [ha]
  · rw [hs]

/-- C21 (amended), at the payload of `firstCapture` scanned with a store that holds
`firstCapture`, and at a payload whose `h` is an object with the property `toString`,
which `parseQRData` accepts and the page cannot render. -/
theorem handleQRScanResult_outcome_witness :
    AppController.handleQRScanResult true 1700000000600 (appWith (storeOf [firstCapture]))
        (scanOf (createQRData firstHashResult)) =
      (appWith (storeOf [firstCapture]), .displayed (.obj [
        ("type", .str "qr_scan"),
        ("qrInfo", parseQRData (createQRData firstHashResult)),
        ("scanResult", scanOf (createQRData firstHashResult)),
        ("timestamp", .num 1700000000600)]) "QR code scanned successfully!") ∧
      isValidQRFormat unprintableText = .bool true ∧
      AppController.handleQRScanResult true 1700000000600 (appWith (storeOf [firstCapture]))
          (scanOf unprintableText) =
        (appWith (storeOf [firstCapture]), .notified "Failed to process QR code") :=
  ⟨(handleQRScanResult_outcome true 1700000000600 (appWith (storeOf [firstCapture]))
      [("data", .str (createQRData firstHashResult)), ("timestamp", .num 1700000000500)]
      (createQRData firstHashResult) rfl).2.1 (by rfl) (by rfl),
    by rfl,
    (handleQRScanResult_outcome true 1700000000600 (appWith (storeOf [firstCapture]))
      [("data", .str unprintableText), ("timestamp", .num 1700000000500)]
      unprintableText rfl).2.2.1 (by rfl) (by rfl)⟩

/-- C21, counterexample. The payload that `createQRData` writes for `firstCapture` is
scanned.  With a store that holds `firstCapture` the lookup of the payload's short hash
finds that record, yet `handleQRScanResult` of `app-controller.js` shows the same with
that store and with the empty store, and what it shows holds no record; and
`handleQRScanResult` of `simple-app.js` displays a text that `parseQRData` rejects as a
scanned code. -/
theorem handleQRScanResult_ignores_store :
    firstCapture = createVerificationRecord "m1abc" firstHashResult
        "data:image/jpeg;base64,AAAA" ∧
      claimedScanMatch (storeOf [firstCapture]) (createQRData firstHashResult) =
        .ok firstCapture.toJsVal ∧
      claimedScanMatch (.arr []) (createQRData firstHashResult) = .ok .undefined ∧
      isValidQRFormat "not a payload" = .bool false ∧
      ∀ resultElements : Bool,
        (AppController.handleQRScanResult resultElements 1700000000600
            (appWith (storeOf [firstCapture])) (scanOf (createQRData firstHashResult))).2 =
          .displayed (.obj [
            ("type", .str "qr_scan"),
            ("qrInfo", .obj [
              ("version", .str "1.0"),
              ("shortHash", .str "abcdef0123456789"),
              ("timestamp", .num 1700000000000),
              ("algorithm", .str "SHA256"),
              ("isValid", .bool true)]),
            ("scanResult", scanOf (createQRData firstHashResult)),
            ("timestamp", .num 1700000000600)]) "QR code scanned successfully!" ∧
        (AppController.handleQRScanResult resultElements 1700000000600 (appWith (.arr []))
            (scanOf (createQRData firstHashResult))).2 =
          (AppController.handleQRScanResult resultElements 1700000000600
            (appWith (storeOf [firstCapture])) (scanOf (createQRData firstHashResult))).2 ∧
        (SimpleApp.handleQRScanResult resultElements (appWith (storeOf [firstCapture]))
            (scanOf "not a payload")).2 =
          .displayed (.obj [
            ("type", .str "qr_scan"),
            ("data", .str "not a payload"),
            ("timestamp", .num 1700000000500)]) "QR code scanned successfully!" := by
  refine ⟨by rfl, by rfl, by rfl, by rfl, ?_⟩
  intro resultElements
  cases resultElements <;> exact ⟨by rfl, by rfl, by rfl⟩

/-! ### Clearing the store -/

theorem saveRecords_records (app : AppState) :
    (saveRecords app).verificationRecords = app.verificationRecords := by
  unfold saveRecords
  split <;> rfl

theorem saveRecords_writable (app : AppState) (hw : app.localStorage.writable = true) :
    (saveRecords app).localStorage.getItem "snaphashqr_records" =
      some (concatOperand (jsonStringify app.verificationRecords)) := by
  simp [saveRecords, LocalStorage.setItem, hw, LocalStorage.getItem]

theorem saveRecords_refused (app : AppState) (hw : app.localStorage.writable = false) :
    saveRecords app = app := by
  simp [saveRecords, LocalStorage.setItem, hw]

/-- C23. In the three app classes, after `clearRecords` has run (in `main-app.js`: after
the user has confirmed) the store is the empty sequence, `findRecordByHash` returns
`undefined` for every input, and, when the browser storage accepts the write, the item
`snaphashqr_records` is the text `[]`; when the storage refuses the write the failure is
caught and the storage is as before.  In `main-app.js` nothing changes when the user does
not confirm. -/
theorem clearRecords_total (app : AppState) :
    (∀ cleared, cleared = clearRecords app ∨ cleared = MainApp.clearRecords true app →
      cleared.verificationRecords = .arr [] ∧
      (∀ input,
        AppController.findRecordByHash cleared.verificationRecords input = .ok .undefined ∧
        MainApp.findRecordByHash cleared.verificationRecords input = .ok .undefined ∧
        SimpleApp.findRecordByHash cleared.verificationRecords input = .ok .undefined) ∧
      (app.localStorage.writable = true →
        cleared.localStorage.getItem "snaphashqr_records" = some "[]") ∧
      (app.localStorage.writable = false → cleared.localStorage = app.localStorage)) ∧
    MainApp.clearRecords false app = app := by
  refine ⟨?_, rfl⟩
  intro cleared hc
  have hc' : cleared = saveRecords { app with verificationRecords := .arr [] } := by
    rcases hc with h | h
    · exact h
    · exact h
  subst hc'
  have hr := saveRecords_records { app with verificationRecords := .arr [] }
  refine ⟨hr, fun input => ?_, fun hw => ?_, fun hw => ?_⟩
  · rw [hr]
    exact ⟨rfl, rfl, rfl⟩
  · rw [saveRecords_writable { app with verificationRecords := .arr [] } hw]
    rfl
  · rw [saveRecords_refused { app with verificationRecords := .arr [] } hw]


/-! ### Loading the store -/

theorem loadStoredRecords_absent (recordsList : Bool) (app : AppState)
    (h : app.localStorage.getItem "snaphashqr_records" = none) :
    AppController.loadStoredRecords recordsList app = app ∧
      MainApp.loadStoredRecords app = app ∧ SimpleApp.loadStoredRecords app = app := by
  simp [AppController.loadStoredRecords, MainApp.loadStoredRecords,
    SimpleApp.loadStoredRecords, h, pure, Except.pure]

theorem loadStoredRecords_unparseable (recordsList : Bool) (app : AppState)
    (stored e : String) (h : app.localStorage.getItem "snaphashqr_records" = some stored)
    (hne : stored ≠ "") (hp : jsonParse stored = .error e) :
    AppController.loadStoredRecords recordsList app =
        { app with verificationRecords := .arr [] } ∧
      MainApp.loadStoredRecords app = { app with verificationRecords := .arr [] } ∧
      SimpleApp.loadStoredRecords app = { app with verificationRecords := .arr [] } := by
  simp [AppController.loadStoredRecords, MainApp.loadStoredRecords,
    SimpleApp.loadStoredRecords, h, hne, hp, bind, Except.bind]

/-- C24. `loadStoredRecords` never throws, leaves the store as it is when nothing is
stored and resets it to `[]` when the stored text is not JSON; but a stored text that is
JSON for another value than an array becomes the store as it is: with the stored text
`{}` the store of `main-app.js`, of `simple-app.js` and, on a page without the element
`records-list`, of `app-controller.js` is the object `{}`, with `5` it is the number 5,
and a later `findRecordByHash` throws; with the stored text `[null]` the store holds
`null` and `findRecordByHash` throws when it reads `hash` from it. -/
theorem loadStoredRecords_keeps_corrupt_data :
    (∀ (recordsList : Bool) (app : AppState),
      app.localStorage.getItem "snaphashqr_records" = none →
      AppController.loadStoredRecords recordsList app = app ∧
        MainApp.loadStoredRecords app = app ∧ SimpleApp.loadStoredRecords app = app) ∧
    (∀ (recordsList : Bool) (app : AppState) (stored e : String),
      app.localStorage.getItem "snaphashqr_records" = some stored → stored ≠ "" →
      jsonParse stored = .error e →
      AppController.loadStoredRecords recordsList app =
          { app with verificationRecords := .arr [] } ∧
        MainApp.loadStoredRecords app = { app with verificationRecords := .arr [] } ∧
        SimpleApp.loadStoredRecords app = { app with verificationRecords := .arr [] }) ∧
    (MainApp.loadStoredRecords (appStoring "\x7b\x7d")).verificationRecords = .obj [] ∧
    (SimpleApp.loadStoredRecords (appStoring "\x7b\x7d")).verificationRecords = .obj [] ∧
    (AppController.loadStoredRecords false (appStoring "\x7b\x7d")).verificationRecords =
      .obj [] ∧
    MainApp.findRecordByHash
        (MainApp.loadStoredRecords (appStoring "\x7b\x7d")).verificationRecords
        "abcdef0123456789" =
      .error "this.verificationRecords.find is not a function" ∧
    AppController.findRecordByHash
        (AppController.loadStoredRecords false (appStoring "\x7b\x7d")).verificationRecords
        "abcdef0123456789" =
      .error "this.verificationRecords.find is not a function" ∧
    (MainApp.loadStoredRecords (appStoring "5")).verificationRecords = .num 5 ∧
    (MainApp.loadStoredRecords (appStoring "[null]")).verificationRecords = .arr [.null] ∧
    MainApp.findRecordByHash
        (MainApp.loadStoredRecords (appStoring "[null]")).verificationRecords
        "abcdef0123456789" =
      .error "Cannot read properties of null (reading hash)" ∧
    (AppController.loadStoredRecords true (appStoring "\"\"")).verificationRecords =
      .str "" := by
  refine ⟨loadStoredRecords_absent, loadStoredRecords_unparseable, by rfl, by rfl, by rfl,
    by rfl, by rfl, by rfl, by rfl, by rfl, by rfl⟩


/-! ### The persistence round trip -/

set_option maxRecDepth 100000 in
/-- C25. The preview of a record is no string: `createVerificationRecord` stores the
Promise that `createImagePreview` returns without awaiting it, for every hash result
and image; `saveRecords` writes it as `{}`, and `loadStoredRecords` in a fresh app object
restores the records in their order with their `id`, `hash`, `shortHash`, `algorithm`,
`timestamp`, `metadata` and `verificationCount` and with the empty object as
`imagePreview`. -/
theorem persistence_loses_preview :
    (∀ (id : String) (hashResult : HashResult) (imageData : String),
      (createVerificationRecord id hashResult imageData).imagePreview = .obj [] ∧
        ∀ preview : String,
          (createVerificationRecord id hashResult imageData).imagePreview ≠ .str preview) ∧
    (saveRecords (appWith (storeOf [firstCapture]))).localStorage.getItem
        "snaphashqr_records" =
      some ("[\x7b\"id\":\"m1abc\"," ++
        "\"hash\":\"abcdef0123456789abcdef0123456789abcdef0123456789abcdef0123456789\"," ++
        "\"shortHash\":\"abcdef0123456789\",\"algorithm\":\"SHA-256\"," ++
        "\"timestamp\":1700000000000,\"metadata\":\x7b\x7d,\"imagePreview\":\x7b\x7d," ++
        "\"verified\":true,\"verificationCount\":1\x7d]") ∧
    (AppController.loadStoredRecords true
        (freshAfterSave (appWith (storeOf [secondCapture, firstCapture])))).verificationRecords =
      storeOf [secondCapture, firstCapture] ∧
    (MainApp.loadStoredRecords
        (freshAfterSave (appWith (storeOf [secondCapture, firstCapture])))).verificationRecords =
      storeOf [secondCapture, firstCapture] ∧
    JsVal.lookup "imagePreview" [
      ("id", .str firstCapture.id),
      ("hash", .str firstCapture.hash),
      ("shortHash", .str firstCapture.shortHash),
      ("algorithm", .str firstCapture.algorithm),
      ("timestamp", .num firstCapture.timestamp),
      ("metadata", firstCapture.metadata),
      ("imagePreview", firstCapture.imagePreview),
      ("verified", .bool firstCapture.verified),
      ("verificationCount", .num firstCapture.verificationCount)] = .obj [] := by
  refine ⟨fun id hashResult imageData => ⟨rfl, fun preview h => by cases h⟩, by rfl, by rfl,
    by rfl, by rfl⟩


/-! ### The verification count -/

theorem mainApp_verifyHash_eq (resultElements : Bool) (now : Int) (records : JsVal)
    (input : String) (hne : trim input ≠ "") :
    MainApp.verifyHash resultElements now records (some input) =
      (match MainApp.findRecordByHash records (trim input) with
        | .ok found =>
          match MainApp.displayVerificationResult resultElements
              (manualVerifyData (trim input) found now) with
          | .ok _ => .displayed (trim input) found (verifyMessage found)
          | .error message => .failed ("Verification failed: " ++ message)
        | .error message => .failed ("Verification failed: " ++ message)) := by
  simp only [MainApp.verifyHash, hne, bind, Except.bind, pure, Except.pure, if_false]
  cases MainApp.findRecordByHash records (trim input) with
  | error e => rfl
  | ok found =>
    dsimp only
    cases MainApp.displayVerificationResult resultElements
      (manualVerifyData (trim input) found now) <;> rfl

theorem simpleApp_verifyHash_eq (resultElements : Bool) (now : Int) (records : JsVal)
    (input : String) (hne : trim input ≠ "") :
    SimpleApp.verifyHash resultElements now records (some input) =
      (match SimpleApp.findRecordByHash records (trim input) with
        | .ok found =>
          match SimpleApp.displayVerificationResult resultElements
              (manualVerifyData (trim input) found now) with
          | .ok _ => .displayed (trim input) found (verifyMessage found)
          | .error message => .failed ("Verification failed: " ++ message)
        | .error message => .failed ("Verification failed: " ++ message)) := by
  simp only [SimpleApp.verifyHash, hne, bind, Except.bind, pure, Except.pure, if_false]
  cases SimpleApp.findRecordByHash records (trim input) with
  | error e => rfl
  | ok found =>
    dsimp only
    cases SimpleApp.displayVerificationResult resultElements
      (manualVerifyData (trim input) found now) <;> rfl

theorem appController_verifyHash_eq (resultElements : Bool) (now : Int) (records : JsVal)
    (input : String) (hne : trim input ≠ "")
    (hf : (!isValidHashFormat (trim input) && !isValidShortHashFormat (trim input)) = false) :
    AppController.verifyHash resultElements now records (some input) =
      (match AppController.findRecordByHash records (trim input) with
        | .ok found =>
          match AppController.displayVerificationResult resultElements
              (manualVerifyData (trim input) found now) with
          | .ok _ => .displayed (trim input) found (verifyMessage found)
          | .error message => .failed ("Verification failed: " ++ message)
        | .error message => .failed ("Verification failed: " ++ message)) := by
  simp only [AppController.verifyHash, hne, hf, bind, Except.bind, pure, Except.pure, if_false,
    Bool.false_eq_true]
  cases AppController.findRecordByHash records (trim input) with
  | error e => rfl
  | ok found =>
    dsimp only
    cases AppController.displayVerificationResult resultElements
      (manualVerifyData (trim input) found now) <;> rfl

theorem verifyHash_displayed (resultElements : Bool) (now : Int) (records : JsVal)
    (hashInput : Option String) (hash : String) (found : JsVal) (message : String) :
    (AppController.verifyHash resultElements now records hashInput =
        .displayed hash found message →
      AppController.findRecordByHash records hash = .ok found) ∧
    (MainApp.verifyHash resultElements now records hashInput = .displayed hash found message →
      MainApp.findRecordByHash records hash = .ok found) ∧
    (SimpleApp.verifyHash resultElements now records hashInput =
        .displayed hash found message →
      SimpleApp.findRecordByHash records hash = .ok found) := by
  refine ⟨?_, ?_, ?_⟩
  · intro h
    cases hashInput with
    | none => cases h
    | some value =>
      by_cases hne : trim value = ""
      · simp [AppController.verifyHash, hne, bind, Except.bind, pure, Except.pure, throw, throwThe,
          MonadExceptOf.throw] at h
      · cases hf : (!isValidHashFormat (trim value) && !isValidShortHashFormat (trim value)) with
        | true =>
          simp only [Bool.and_eq_true, Bool.not_eq_true'] at hf
          simp [AppController.verifyHash, hne, hf.1, hf.2, bind, Except.bind, pure, Except.pure,
            throw, throwThe, MonadExceptOf.throw] at h
        | false =>
          rw [appController_verifyHash_eq resultElements now records value hne hf] at h
          cases hfind : AppController.findRecordByHash records (trim value) with
          | error e => rw [hfind] at h; cases h
          | ok m =>
            rw [hfind] at h
            dsimp only at h
            cases hd : AppController.displayVerificationResult resultElements
                (manualVerifyData (trim value) m now) with
            | error e => rw [hd] at h; cases h
            | ok u =>
              rw [hd] at h
              simp only [VerifyOutcome.displayed.injEq] at h
              rw [← h.1, ← h.2.1]
              exact hfind
  · intro h
    cases hashInput with
    | none => cases h
    | some value =>
      by_cases hne : trim value = ""
      · simp [MainApp.verifyHash, hne, bind, Except.bind, pure, Except.pure, throw, throwThe,
          MonadExceptOf.throw] at h
      · rw [mainApp_verifyHash_eq resultElements now records value hne] at h
        cases hfind : MainApp.findRecordByHash records (trim value) with
        | error e => rw [hfind] at h; cases h
        | ok m =>
          rw [hfind] at h
          dsimp only at h
          cases hd : MainApp.displayVerificationResult resultElements
              (manualVerifyData (trim value) m now) with
          | error e => rw [hd] at h; cases h
          | ok u =>
            rw [hd] at h
            simp only [VerifyOutcome.displayed.injEq] at h
            rw [← h.1, ← h.2.1]
            exact hfind
  · intro h
    cases hashInput with
    | none => cases h
    | some value =>
      by_cases hne : trim value = ""
      · simp [SimpleApp.verifyHash, hne, bind, Except.bind, pure, Except.pure, throw, throwThe,
          MonadExceptOf.throw] at h
      · rw [simpleApp_verifyHash_eq resultElements now records value hne] at h
        cases hfind : SimpleApp.findRecordByHash records (trim value) with
        | error e => rw [hfind] at h; cases h
        | ok m =>
          rw [hfind] at h
          dsimp only at h
          cases hd : SimpleApp.displayVerificationResult resultElements
              (manualVerifyData (trim value) m now) with
          | error e => rw [hd] at h; cases h
          | ok u =>
            rw [hd] at h
            simp only [VerifyOutcome.displayed.injEq] at h
            rw [← h.1, ← h.2.1]
            exact hfind

/-- C26 (amended). Every record that `createVerificationRecord` builds has the
`verificationCount` 1, and no verification changes it: on every page and at every time,
`verifyHash` of the three app classes and `handleQRScanResult` leave the store and the
browser storage as they find them, so every record and the store order are as before;
and in a store of records with the count 1, the record that a manual verification finds
is displayed with the count 1, however many verifications preceded. -/
theorem verification_keeps_counts (xs : List VerificationRecord) (storage : LocalStorage)
    (hashInput : Option String) (resultElements : Bool) (now : Int) (result : JsVal)
    (hcount : ∀ x ∈ xs, x.verificationCount = 1) :
    (∀ (id : String) (hashResult : HashResult) (imageData : String),
      (createVerificationRecord id hashResult imageData).verificationCount = 1) ∧
    (AppController.verifyHashStep resultElements now ⟨storeOf xs, storage⟩ hashInput).1 =
      ⟨storeOf xs, storage⟩ ∧
    (MainApp.verifyHashStep resultElements now ⟨storeOf xs, storage⟩ hashInput).1 =
      ⟨storeOf xs, storage⟩ ∧
    (SimpleApp.verifyHashStep resultElements now ⟨storeOf xs, storage⟩ hashInput).1 =
      ⟨storeOf xs, storage⟩ ∧
    (AppController.handleQRScanResult resultElements now ⟨storeOf xs, storage⟩ result).1 =
      ⟨storeOf xs, storage⟩ ∧
    (SimpleApp.handleQRScanResult resultElements ⟨storeOf xs, storage⟩ result).1 =
      ⟨storeOf xs, storage⟩ ∧
    (∀ outcome,
      outcome =
          (AppController.verifyHashStep resultElements now ⟨storeOf xs, storage⟩ hashInput).2 ∨
        outcome =
          (MainApp.verifyHashStep resultElements now ⟨storeOf xs, storage⟩ hashInput).2 ∨
        outcome =
          (SimpleApp.verifyHashStep resultElements now ⟨storeOf xs, storage⟩ hashInput).2 →
      ∀ hash found message, outcome = .displayed hash found message →
        found = .undefined ∨
          ∃ x ∈ xs, found = x.toJsVal ∧
            found.getProp "verificationCount" = .ok (.num 1)) := by
  refine ⟨fun _ _ _ => rfl, rfl, rfl, ?_, ?_, ?_, ?_⟩
  · rfl
  · unfold AppController.handleQRScanResult
    dsimp only
    split <;> rfl
  · unfold SimpleApp.handleQRScanResult
    dsimp only
    split <;> rfl
  · intro outcome ho hash found message hd
    have hfound : found = firstRecord (matchesExactly hash) xs ∨
        found = firstRecord (matchesAnyMode hash) xs := by
      obtain ⟨h1, h2, h3⟩ := verifyHash_displayed resultElements now (storeOf xs) hashInput hash
        found message
      rcases ho with h | h | h
      · have := h1 (by rw [← hd, h]; rfl)
        rw [findRecordByHash_records] at this
        exact Or.inl (by injection this with e; exact e.symm)
      · have := h2 (by rw [← hd, h]; rfl)
        rw [mainApp_findRecordByHash_records] at this
        exact Or.inr (by injection this with e; exact e.symm)
      · have := h3 (by rw [← hd, h]; rfl)
        rw [simpleApp_findRecordByHash, findRecordByHash_records] at this
        exact Or.inl (by injection this with e; exact e.symm)
    have key : ∀ p, found = firstRecord p xs → found = .undefined ∨
        ∃ x ∈ xs, found = x.toJsVal ∧ found.getProp "verificationCount" = .ok (.num 1) := by
      intro p hp
      rcases firstRecord_cases p xs with h | ⟨x, hx, h⟩
      · exact Or.inl (hp.trans h)
      · refine Or.inr ⟨x, hx, hp.trans h, ?_⟩
        rw [hp, h]
        simp [VerificationRecord.toJsVal, JsVal.getProp, JsVal.lookup, hcount x hx]
    rcases hfound with h | h
    · exact key _ h
    · exact key _ h

/-- C26 (amended), at a store that holds `firstCapture` and the input of its digest. -/
theorem verification_keeps_counts_witness :
    (AppController.verifyHashStep true 1700000000700 (appWith (storeOf [firstCapture]))
        (some firstCapture.hash)).1 = appWith (storeOf [firstCapture]) :=
  (verification_keeps_counts [firstCapture] ⟨[], true⟩ (some firstCapture.hash) true
    1700000000700 .null (by decide)).2.1

/-- C26, counterexample. The digest of `firstCapture` is verified by hand against a
store that holds `firstCapture`: on every page and at every time the record is found and
displayed, and the store afterwards holds `firstCapture` with the `verificationCount` 1,
not the record with the count 2. -/
theorem verifyHash_does_not_count :
    firstCapture.verificationCount = 1 ∧
    (claimedAfterMatch firstCapture).verificationCount = 2 ∧
    ∀ (resultElements : Bool) (now : Int),
      AppController.verifyHashStep resultElements now (appWith (storeOf [firstCapture]))
          (some firstCapture.hash) =
        (appWith (storeOf [firstCapture]),
          .displayed firstCapture.hash firstCapture.toJsVal "Hash verified successfully!") ∧
      (AppController.verifyHashStep resultElements now (appWith (storeOf [firstCapture]))
          (some firstCapture.hash)).1.verificationRecords ≠
        storeOf [claimedAfterMatch firstCapture] ∧
      (MainApp.verifyHashStep resultElements now (appWith (storeOf [firstCapture]))
          (some firstCapture.hash)).1.verificationRecords ≠
        storeOf [claimedAfterMatch firstCapture] ∧
      (SimpleApp.verifyHashStep resultElements now (appWith (storeOf [firstCapture]))
          (some firstCapture.hash)).1.verificationRecords ≠
        storeOf [claimedAfterMatch firstCapture] := by
  have hne : storeOf [firstCapture] ≠ storeOf [claimedAfterMatch firstCapture] := by
    simp [storeOf, VerificationRecord.toJsVal, claimedAfterMatch, firstCapture,
      createVerificationRecord]
  refine ⟨by rfl, by rfl, ?_⟩
  intro resultElements now
  cases resultElements <;> exact ⟨by rfl, hne, hne, hne⟩

/-! ### The record of a capture -/

theorem shortHash_format (hash : String) (h : isValidHashFormat hash = true) :
    isValidShortHashFormat (substring0 hash 16) = true := by
  obtain ⟨hl, hhex⟩ := (testAnchoredRepeat_hex 64 hash).mp h
  obtain ⟨_, ht⟩ := hash_shape hash h
  refine (testAnchoredRepeat_hex 16 (substring0 hash 16)).mpr ⟨?_, ?_⟩
  · show (substring0 hash 16).data.length = 16
    rw [ht, List.length_take]
    have : hash.data.length = 64 := hl
    omega
  · intro c hc
    rw [ht] at hc
    exact hhex c (List.mem_of_mem_take hc)

theorem capturePhoto_eq (digest : Digest) (drawQR : String → Except String String)
    (id : String) (browser : Browser) (frame : String) (captureNow hashNow qrNow : Int)
    (camera : CameraCapture) (app : AppState) (xs : List JsVal) (hashResult : HashResult)
    (url : String)
    (hstore : app.verificationRecords = .arr xs)
    (hcam : camera.isStreaming = true)
    (hhash : generateImageHash digest hashNow frame (camera.getCaptureMetadata browser) =
      .ok hashResult)
    (hqr : drawQR (createQRData hashResult) = .ok url) :
    AppController.capturePhoto digest drawQR id browser frame captureNow hashNow qrNow
        (some camera) app =
      (saveRecords { app with
          verificationRecords :=
            .arr ((createVerificationRecord id hashResult frame).toJsVal :: xs) },
        .displayed hashResult "Photo captured and verified!") := by
  simp [AppController.capturePhoto, CameraCapture.capturePhoto, hcam, hhash, generateHashQR,
    hqr, addVerificationRecord, hstore, bind, Except.bind, pure, Except.pure]

/-- C22. For every hash result, `createVerificationRecord` returns a record whose `hash`,
`algorithm`, `timestamp` and `metadata` are those of the hash result, whose `shortHash`
is the first 16 characters of the hash and whose `verificationCount` is 1.  When the
camera is streaming, the hash generation gives `hashResult` and the drawing of the QR
code succeeds, `capturePhoto` of `app-controller.js` leaves the store holding this
record followed by the records it held; and when the hash is 64 hexadecimal digits, the
head record has a hash of 64 hexadecimal digits, a `shortHash` of 16 hexadecimal digits
and the `verificationCount` 1. -/
theorem capturePhoto_record (digest : Digest) (drawQR : String → Except String String)
    (id : String) (browser : Browser) (frame : String) (captureNow hashNow qrNow : Int)
    (camera : CameraCapture) (app : AppState) (xs : List JsVal) (hashResult : HashResult)
    (url : String)
    (hstore : app.verificationRecords = .arr xs)
    (hcam : camera.isStreaming = true)
    (hhash : generateImageHash digest hashNow frame (camera.getCaptureMetadata browser) =
      .ok hashResult)
    (hqr : drawQR (createQRData hashResult) = .ok url) :
    (∀ (id' : String) (result : HashResult) (imageData : String),
      (createVerificationRecord id' result imageData).hash = result.hash ∧
      (createVerificationRecord id' result imageData).algorithm = result.algorithm ∧
      (createVerificationRecord id' result imageData).timestamp = result.timestamp ∧
      (createVerificationRecord id' result imageData).metadata = result.metadata ∧
      (createVerificationRecord id' result imageData).shortHash =
        substring0 result.hash 16 ∧
      (createVerificationRecord id' result imageData).verificationCount = 1) ∧
    (AppController.capturePhoto digest drawQR id browser frame captureNow hashNow qrNow
        (some camera) app).1.verificationRecords =
      .arr ((createVerificationRecord id hashResult frame).toJsVal :: xs) ∧
    (isValidHashFormat hashResult.hash = true →
      isValidHashFormat (createVerificationRecord id hashResult frame).hash = true ∧
      isValidShortHashFormat (createVerificationRecord id hashResult frame).shortHash = true ∧
      (createVerificationRecord id hashResult frame).verificationCount = 1) := by
  refine ⟨fun _ _ _ => ⟨rfl, rfl, rfl, rfl, rfl, rfl⟩, ?_, fun h => ⟨h, shortHash_format _ h, rfl⟩⟩
  rw [capturePhoto_eq digest drawQR id browser frame captureNow hashNow qrNow camera app xs
    hashResult url hstore hcam hhash hqr, saveRecords_records]

set_option maxRecDepth 100000 in
/-- C22, at a capture of `sampleCamera` into a store that holds `firstCapture`. -/
theorem capturePhoto_record_witness :
    (AppController.capturePhoto sampleDigest sampleDraw "m9xyz" sampleBrowser
        "data:image/jpeg;base64,AAAA" 1700000000100 1700000000200 1700000000300
        (some sampleCamera) (appWith (storeOf [firstCapture]))).1.verificationRecords =
      .arr ((createVerificationRecord "m9xyz"
        { hash := "abababababababababababababababababababababababababababababababa0"
          algorithm := "SHA-256"
          timestamp := 1700000000200
          metadata := sampleCamera.getCaptureMetadata sampleBrowser
          dataSize := 160 } "data:image/jpeg;base64,AAAA").toJsVal :: [firstCapture.toJsVal]) :=
  (capturePhoto_record sampleDigest sampleDraw "m9xyz" sampleBrowser
    "data:image/jpeg;base64,AAAA" 1700000000100 1700000000200 1700000000300 sampleCamera
    (appWith (storeOf [firstCapture])) [firstCapture.toJsVal] _ _ rfl rfl (by rfl) rfl).2.1

/-! ### The data URL prefix -/

theorem createCombinedData_imagePart (imageData : String) (metadata : JsVal) :
    createCombinedData imageData metadata =
      match createCombinedData "" metadata with
      | .ok combined => .ok (imagePart imageData ++ combined)
      | .error e => .error e := by
  have h0 : startsWith "" "data:" = false := by decide
  cases metadata with
  | undefined => rfl
  | null => rfl
  | obj fields =>
    obtain ⟨t, ht, h⟩ := createCombinedData_obj imageData fields
    obtain ⟨t', ht', h'⟩ := createCombinedData_obj "" fields
    rw [ht] at ht'
    cases ht'
    rw [h, h']
    simp only [h0, imagePart, concatOperand]
    apply congrArg
    apply String.ext
    simp [String.data_append]
  | _ =>
    simp only [createCombinedData, JsVal.getProp, bind, Except.bind, pure, Except.pure, h0,
      imagePart, concatOperand]
    apply congrArg
    apply String.ext
    simp [String.data_append]

theorem splitChars_head (sep : Char) (l : List Char) :
    ∃ rest, splitChars sep l = l.takeWhile (fun c => c ≠ sep) :: rest := by
  induction l with
  | nil => exact ⟨[], rfl⟩
  | cons c l ih =>
    obtain ⟨rest, hr⟩ := ih
    by_cases hc : c = sep
    · exact ⟨splitChars sep l, by simp [splitChars, hc]⟩
    · exact ⟨rest, by simp [splitChars, hc, hr]⟩

theorem splitChars_append (sep : Char) (pre post : List Char) (hpre : sep ∉ pre) :
    splitChars sep (pre ++ sep :: post) = pre :: splitChars sep post := by
  induction pre with
  | nil => simp [splitChars]
  | cons c pre ih =>
    have hc : c ≠ sep := fun h => hpre (by simp [h])
    have := ih (fun h => hpre (List.mem_cons_of_mem _ h))
    simp [splitChars, hc, this]

theorem imagePart_dataUrl (header payload : String) (hh : ',' ∉ header.data) :
    imagePart ("data:" ++ header ++ "," ++ payload) =
      String.mk (payload.data.takeWhile (fun c => c ≠ ',')) := by
  have hs : startsWith ("data:" ++ header ++ "," ++ payload) "data:" = true := by
    simp [startsWith, String.data_append, List.append_assoc]
  have hpre : ',' ∉ "data:".data ++ header.data := by
    intro h
    rcases List.mem_append.mp h with h | h
    · revert h
      decide
    · exact hh h
  obtain ⟨rest, hr⟩ := splitChars_head ',' payload.data
  have hd : ("data:" ++ header ++ "," ++ payload).data =
      ("data:".data ++ header.data) ++ ',' :: payload.data := by
    simp [String.data_append, List.append_assoc]
  simp only [imagePart, hs, if_true, split, hd, splitChars_append ',' _ _ hpre, hr]
  simp [concatOperand]

theorem imagePart_plain (imageData : String) (h : startsWith imageData "data:" = false) :
    imagePart imageData = imageData := by
  simp [imagePart, h, concatOperand]

/-- C27. For a data URL whose header holds no comma, the image part that
`createCombinedData` uses is the payload up to its first comma, since `split(',')[1]` is
the second of the pieces between commas: it is the payload when the payload holds no
comma, and then the output is that for the bare payload; for the data URL
`data:text/plain,a,b` the image part is `a`, not `a,b`, and the data URLs
`data:text/plain,a,b` and `data:text/plain,a,c`, whose payloads differ, have the same
image part and the same canonical string. -/
theorem createCombinedData_splits_payload :
    (∀ (header payload : String) (metadata : JsVal), ',' ∉ header.data →
      imagePart ("data:" ++ header ++ "," ++ payload) =
          String.mk (payload.data.takeWhile (fun c => c ≠ ',')) ∧
        createCombinedData ("data:" ++ header ++ "," ++ payload) metadata =
          match createCombinedData "" metadata with
          | .ok combined =>
            .ok (String.mk (payload.data.takeWhile (fun c => c ≠ ',')) ++ combined)
          | .error e => .error e) ∧
    (∀ (header payload : String) (metadata : JsVal), ',' ∉ header.data →
      ',' ∉ payload.data → startsWith payload "data:" = false →
      createCombinedData ("data:" ++ header ++ "," ++ payload) metadata =
        createCombinedData payload metadata) ∧
    createCombinedData "data:text/plain,a,b" (.obj []) =
      .ok "a|\x7b\"imageSize\":\x7b\x7d\x7d" ∧
    createCombinedData "a,b" (.obj []) = .ok "a,b|\x7b\"imageSize\":\x7b\x7d\x7d" ∧
    createCombinedData "data:text/plain,a,c" (.obj []) =
      createCombinedData "data:text/plain,a,b" (.obj []) := by
  refine ⟨fun header payload metadata hh => ?_, fun header payload metadata hh hp hs => ?_,
    by rfl, by rfl, by rfl⟩
  · have hi := imagePart_dataUrl header payload hh
    refine ⟨hi, ?_⟩
    rw [createCombinedData_imagePart, hi]
  · have hi := imagePart_dataUrl header payload hh
    have ht : payload.data.takeWhile (fun c => c ≠ ',') = payload.data := by
      rw [List.takeWhile_eq_self_iff]
      intro c hc
      simp only [ne_eq, decide_not, Bool.not_eq_true', decide_eq_false_iff_not]
      rintro rfl
      exact hp hc
    rw [createCombinedData_imagePart, hi, ht,
      createCombinedData_imagePart payload metadata, imagePart_plain payload hs]

/-! ### The image size in the capture flow -/

theorem getCaptureMetadata_size (camera : CameraCapture) (browser : Browser)
    (width height : JsVal) :
    ({ camera with width := width, height := height } : CameraCapture).getCaptureMetadata
      browser = camera.getCaptureMetadata browser := rfl

set_option maxRecDepth 100000 in
/-- C28. The metadata that `capturePhoto` of the camera returns has no property
`dimensions` (the size of the image is the property `dimensions` of the capture result,
which `capturePhoto` of the app does not pass on), so the canonical string of a capture
has the `imageSize` entry `{}` and is the same for every width and height of the
camera; `sampleCamera`, of 640 by 480, and `wideCamera`, of 1280 by 720, give capture
results with different `dimensions` and the same canonical string. -/
theorem capture_imageSize_empty :
    (∀ (camera : CameraCapture) (browser : Browser) (frame : String) (now : Int)
        (result : CaptureResult),
      camera.capturePhoto browser frame now = .ok result →
      result.dimensions = .obj [("width", camera.width), ("height", camera.height)] ∧
      result.metadata.getProp "dimensions" = .ok .undefined ∧
      ∀ width height : JsVal,
        createCombinedData result.imageData result.metadata =
          createCombinedData frame
            (({ camera with width := width, height := height } :
              CameraCapture).getCaptureMetadata browser)) ∧
    (∀ width height : JsVal,
      Except.map CaptureResult.dimensions
          (({ sampleCamera with width := width, height := height } :
            CameraCapture).capturePhoto sampleBrowser "data:image/jpeg;base64,AAAA" 5) =
        .ok (.obj [("width", width), ("height", height)])) ∧
    createCombinedData "data:image/jpeg;base64,AAAA"
        (sampleCamera.getCaptureMetadata sampleBrowser) =
      .ok ("AAAA|\x7b\"timestamp\":\"2024-01-01T00:00:00.000Z\",\"userAgent\":\"X\"," ++
        "\"platform\":\"Y\",\"devicePixelRatio\":2," ++
        "\"screenResolution\":\x7b\"width\":1080,\"height\":2400\x7d,\"imageSize\":\x7b\x7d\x7d") ∧
    createCombinedData "data:image/jpeg;base64,AAAA"
        (wideCamera.getCaptureMetadata sampleBrowser) =
      createCombinedData "data:image/jpeg;base64,AAAA"
        (sampleCamera.getCaptureMetadata sampleBrowser) ∧
    (AppController.capturePhoto sampleDigest sampleDraw "m9xyz" sampleBrowser
        "data:image/jpeg;base64,AAAA" 1 2 3 (some wideCamera) (appWith (.arr []))).1 =
      (AppController.capturePhoto sampleDigest sampleDraw "m9xyz" sampleBrowser
        "data:image/jpeg;base64,AAAA" 1 2 3 (some sampleCamera) (appWith (.arr []))).1 := by
  refine ⟨?_, fun width height => rfl, by rfl, by rfl, by rfl⟩
  intro camera browser frame now result h
  unfold CameraCapture.capturePhoto at h
  split at h
  · cases h
  · simp only [Except.ok.injEq] at h
    subst h
    exact ⟨rfl, rfl, fun width height => rfl⟩

/-! ### The reported size of the canonical string -/

theorem utf16Units_le_utf8 (c : Char) :
    utf16Units c ≤ (utf8EncodeChar c).length ∧
      (utf16Units c = (utf8EncodeChar c).length ↔ c.toNat < 128) := by
  unfold utf16Units utf8EncodeChar
  dsimp only
  split_ifs <;> simp <;> omega

theorem jsLength_le_bytes (s : String) :
    jsLength s ≤ (textEncode s).length ∧
      (jsLength s = (textEncode s).length ↔ ∀ c ∈ s.data, c.toNat < 128) := by
  have key : ∀ l : List Char,
      (l.map utf16Units).sum ≤ (l.flatMap utf8EncodeChar).length ∧
        ((l.map utf16Units).sum = (l.flatMap utf8EncodeChar).length ↔
          ∀ c ∈ l, c.toNat < 128) := by
    intro l
    induction l with
    | nil => simp
    | cons c l ih =>
      obtain ⟨h1, h2⟩ := utf16Units_le_utf8 c
      obtain ⟨i1, i2⟩ := ih
      simp only [List.map_cons, List.sum_cons, List.flatMap_cons, List.length_append,
        List.mem_cons, forall_eq_or_imp]
      refine ⟨by omega, ?_⟩
      rw [← h2, ← i2]
      omega
  exact key s.data

theorem generateImageHash_dataSize (digest : Digest) (now : Int) (imageData : String)
    (metadata : JsVal) (result : HashResult)
    (h : generateImageHash digest now imageData metadata = .ok result) :
    ∃ combined hashBuffer, createCombinedData imageData metadata = .ok combined ∧
      digest (textEncode combined) = .ok hashBuffer ∧
      result.hash = bytesToHex hashBuffer ∧ result.dataSize = jsLength combined := by
  unfold generateImageHash at h
  split at h
  · cases h
  · next combined hc =>
    split at h
    · cases h
    · next hashBuffer hd =>
      simp only [Except.ok.injEq] at h
      subst h
      exact ⟨combined, hashBuffer, hc, hd, rfl, rfl⟩

set_option maxRecDepth 100000 in
/-- C29. The `dataSize` that `generateImageHash` returns is the length of the canonical
string in UTF-16 code units, while the digest is fed the UTF-8 bytes of that string:
`dataSize` is at most the number of these bytes and equals it exactly when the
canonical string is ASCII.  For the metadata `accentedMetadata`, whose `userAgent` is
`café`, the canonical string has 40 code units and 41 bytes: `dataSize` is 40, and
the digest `sampleDigest`, whose last byte is the number of the bytes it is given,
ends with the byte 41, written `29`. -/
theorem dataSize_counts_code_units :
    (∀ (digest : Digest) (now : Int) (imageData : String) (metadata : JsVal)
        (result : HashResult),
      generateImageHash digest now imageData metadata = .ok result →
      ∃ combined hashBuffer, createCombinedData imageData metadata = .ok combined ∧
        digest (textEncode combined) = .ok hashBuffer ∧
        result.hash = bytesToHex hashBuffer ∧
        result.dataSize = jsLength combined ∧
        result.dataSize ≤ (textEncode combined).length ∧
        (result.dataSize = (textEncode combined).length ↔
          ∀ c ∈ combined.data, c.toNat < 128)) ∧
    createCombinedData "AAAA" accentedMetadata =
      .ok "AAAA|\x7b\"userAgent\":\"café\",\"imageSize\":\x7b\x7d\x7d" ∧
    (textEncode "AAAA|\x7b\"userAgent\":\"café\",\"imageSize\":\x7b\x7d\x7d").length = 41 ∧
    Except.map HashResult.dataSize
        (generateImageHash sampleDigest 1700000000200 "AAAA" accentedMetadata) = .ok 40 ∧
    Except.map HashResult.hash
        (generateImageHash sampleDigest 1700000000200 "AAAA" accentedMetadata) =
      .ok "ababababababababababababababababababababababababababababababab29" := by
  refine ⟨?_, by rfl, by rfl, by rfl, by rfl⟩
  intro digest now imageData metadata result h
  obtain ⟨combined, hashBuffer, hc, hd, hh, hs⟩ :=
    generateImageHash_dataSize digest now imageData metadata result h
  obtain ⟨h1, h2⟩ := jsLength_le_bytes combined
  exact ⟨combined, hashBuffer, hc, hd, hh, hs, by rw [hs]; exact h1, by rw [hs]; exact h2⟩


/-! ### The camera switch -/

theorem stopCamera_stream (camera : CameraCapture) : camera.stopCamera.stream = none := by
  unfold CameraCapture.stopCamera
  split
  · rfl
  · next h => exact h

theorem arrayFindIndex_none {α : Type} (callback : α → Bool) (l : List α)
    (h : ∀ x ∈ l, callback x = false) : arrayFindIndex callback l = -1 := by
  induction l with
  | nil => rfl
  | cons x l ih =>
    simp [arrayFindIndex, h x (List.mem_cons_self _ _),
      ih (fun y hy => h y (List.mem_cons_of_mem _ hy))]

theorem switchCamera_eq (devices : List MediaDeviceInfo)
    (getUserMedia : String → Except String MediaStream) (camera : CameraCapture)
    (first second : MediaDeviceInfo) (others : List MediaDeviceInfo)
    (hv : devices.filter (fun device => device.kind = "videoinput") =
      first :: second :: others) :
    camera.switchCamera (.ok devices) getUserMedia =
      match getUserMedia first.deviceId with
      | .ok stream =>
        ({ camera.stopCamera with stream := some stream },
          .ok (if first.label != "" then first.label else "Camera 1"))
      | .error e => (camera.stopCamera, .error e) := by
  have hs := stopCamera_stream camera
  have hi : arrayFindIndex (fun device : MediaDeviceInfo =>
      strictEqualsString .null device.deviceId) (first :: second :: others) = -1 :=
    arrayFindIndex_none _ _ (fun _ _ => rfl)
  have hn : ((-1 : Int) + 1) % ((first :: second :: others).length : Int) = 0 := by simp
  simp only [CameraCapture.switchCamera, hv, hs, hi, hn]
  simp only [List.length_cons, gt_iff_lt, Nat.lt_add_left_iff_pos, Nat.zero_lt_succ, if_true,
    Int.toNat_zero, List.getElem?_cons_zero, zero_add]
  cases getUserMedia first.deviceId with
  | error e => rfl
  | ok stream => rfl

/-- C30. `switchCamera` reads `this.stream` after `stopCamera()` has set it to `null`, so
the current device is never found and the index of the next camera is always 0: for
every list of devices with more than one video input and every camera object, whichever
device is streaming, `switchCamera` asks `getUserMedia` for the first video input and
returns its label.  With the two cameras `cam-a` and `cam-b` and `cam-a` streaming, it
starts `cam-a` again, and so does a second call. -/
theorem switchCamera_selects_first :
    (∀ (devices : List MediaDeviceInfo) (getUserMedia : String → Except String MediaStream)
        (camera : CameraCapture) (first second : MediaDeviceInfo)
        (others : List MediaDeviceInfo),
      devices.filter (fun device => device.kind = "videoinput") = first :: second :: others →
      camera.switchCamera (.ok devices) getUserMedia =
        match getUserMedia first.deviceId with
        | .ok stream =>
          ({ camera.stopCamera with stream := some stream },
            .ok (if first.label != "" then first.label else "Camera 1"))
        | .error e => (camera.stopCamera, .error e)) ∧
    sampleCamera.stream = some ⟨.obj [("deviceId", .str "cam-a"), ("width", .num 640),
      ("height", .num 480)]⟩ ∧
    sampleCamera.switchCamera (.ok twoCameras) sampleUserMedia =
      ({ stream := some ⟨.obj [("deviceId", .str "cam-a")]⟩
         isStreaming := false
         width := .num 640
         height := .num 480 }, .ok "Front") ∧
    (sampleCamera.switchCamera (.ok twoCameras) sampleUserMedia).1.switchCamera
        (.ok twoCameras) sampleUserMedia =
      ({ stream := some ⟨.obj [("deviceId", .str "cam-a")]⟩
         isStreaming := false
         width := .num 640
         height := .num 480 }, .ok "Front") := by
  refine ⟨fun devices getUserMedia camera first second others hv =>
    switchCamera_eq devices getUserMedia camera first second others hv, by rfl, by rfl, by rfl⟩

end SnapHashQR
